import Mathlib

/-!
# SelfMultiCamCalibration: scene-point merging, bundle adjustment, hand-eye
initialisation, map merging, recentering, frame ingestion, the per-rig
sub-pipeline, pose-IMU calibration and the stages of `run`

A shallow embedding of `SelfMultiCamCalibration.cpp`.

Objects that the C++ code handles through pointers (`Point2DFeature`,
`Point3DFeature`, `Frame`, `FrameSet`) are identified by natural numbers; the
fields reached through those pointers are tables indexed by identifier.
Pointer equality in the source (`scenePoint1 == scenePoint2`,
`feature1 == feature2`) is equality of identifiers.
-/

namespace SelfMultiCamCalibration

/-! ## Scene points and their 2-D features (used by `runPG`) -/

/-- The part of the scene graph that the duplicate-merge loop of `runPG`
reads and writes. -/
structure PointStore where
  /-- `Point2DFeature::feature3D()`: the scene point a 2-D feature links to. -/
  feature3D : Nat → Nat
  /-- `Point3DFeature::features2D()`: the feature list of a scene point. -/
  features2D : Nat → List Nat
  /-- `Point3DFeature::attributes()`: the provenance bitmask of a scene point. -/
  attributes : Nat → Nat

/-- The innermost loop of `runPG` (lines 586-595): scan `scenePoint1`'s list for
`feature2`, stopping at the first hit. -/
def findFeature : List Nat → Nat → Bool
  | [], _ => false
  | feature1 :: rest, feature2 =>
    if feature1 = feature2 then true else findFeature rest feature2

/-- The loop over `scenePoint2->features2D()` of `runPG` (lines 581-602).
`fs1` is the current content of `scenePoint1->features2D()` and `merge` the
current value of the local flag; a feature that the scan does not find is pushed
to the back of `fs1`. -/
def foldFeatures : List Nat → List Nat → Bool → List Nat × Bool
  | [], fs1, merge => (fs1, merge)
  | feature2 :: rest, fs1, merge =>
    if findFeature fs1 feature2 then foldFeatures rest fs1 merge
    else foldFeatures rest (fs1 ++ [feature2]) true

/-- The loop of `runPG` at lines 604-608: every feature of the list gets its
`feature3D` link set to `scenePoint1`. -/
def relink (feature3D : Nat → Nat) : List Nat → Nat → Nat → Nat
  | [], _ => feature3D
  | feature :: rest, scenePoint1 =>
    relink (fun g => if g = feature then scenePoint1 else feature3D g) rest scenePoint1

/-- One iteration of the merge loop of `runPG` (lines 568-614) for the
correspondence `c = (feature, scenePoint2)`. Returns the new store and the value
of the local flag `merge` at the end of the iteration (`false` when the
iteration leaves through `continue`). -/
def mergeStep (s : PointStore) (c : Nat × Nat) (scenePointFlag : Nat) : PointStore × Bool :=
  let scenePoint1 := s.feature3D c.1
  let scenePoint2 := c.2
  let s1 : PointStore :=
    { s with attributes := fun p =>
        if p = scenePoint1 then s.attributes p ||| scenePointFlag else s.attributes p }
  if scenePoint1 = scenePoint2 then (s1, false)
  else
    let r := foldFeatures (s1.features2D scenePoint2) (s1.features2D scenePoint1) false
    let s2 : PointStore :=
      { s1 with features2D := fun p => if p = scenePoint1 then r.1 else s1.features2D p }
    let s3 : PointStore :=
      { s2 with feature3D := relink s2.feature3D (s2.features2D scenePoint1) scenePoint1 }
    (s3, r.2)

/-- The whole merge loop of `runPG` (lines 565-617) over `corr2D3D`, threading
the store and the counter `nMergedScenePoints`. -/
def mergeLoop (scenePointFlag : Nat) : List (Nat × Nat) → PointStore × Nat → PointStore × Nat
  | [], acc => acc
  | c :: rest, (s, nMergedScenePoints) =>
    let r := mergeStep s c scenePointFlag
    mergeLoop scenePointFlag rest (r.1, if r.2 then nMergedScenePoints + 1 else nMergedScenePoints)

/-- The duplicate-merge pass of `runPG`: the loop started with
`nMergedScenePoints = 0`. -/
def mergePass (s : PointStore) (corr2D3D : List (Nat × Nat)) (scenePointFlag : Nat) :
    PointStore × Nat :=
  mergeLoop scenePointFlag corr2D3D (s, 0)

/-- The features of `fs2` that are not in `fs1`, in the order of `fs2`, each kept
at its first occurrence only (the wording of the specification for what a merge
appends). -/
def freshFeatures (fs1 : List Nat) : List Nat → List Nat
  | [] => []
  | f :: rest =>
    if f ∈ fs1 then freshFeatures fs1 rest
    else f :: freshFeatures fs1 (rest.filter (fun g => g ≠ f))
termination_by fs2 => fs2.length
decreasing_by
  · simp
  · simp only [List.length_cons]
    exact Nat.lt_succ_of_le (List.length_filter_le _ _)

/-- The enumerators of `Point3DFeature` that the calibration passes to `runPG`
and tests in `runFullBA`. They are declared in a header outside the source
file, so their values are parameters of the development. -/
structure Point3DFeatureFlags where
  OBSERVED_BY_STEREO_RIG_MULTIPLE_TIMES : Nat
  OBSERVED_BY_MULTIPLE_STEREO_RIGS : Nat

/-- The part of `runPG` that changes the point store (lines 565-617).
`getCorrespondences2D3D` stands for the external pose graph: given
`minLoopCorrespondences2D3D` and `nImageMatches` it yields the list
`corr2D3D` of (feature, scene point) pairs. -/
def runPG (getCorrespondences2D3D : Nat → Nat → List (Nat × Nat)) (s : PointStore)
    (minLoopCorrespondences2D3D nImageMatches scenePointFlag : Nat) : PointStore × Nat :=
  mergePass s (getCorrespondences2D3D minLoopCorrespondences2D3D nImageMatches) scenePointFlag

/-- The call of `runPG` made by `processSubGraph` (lines 487-488). -/
def processSubGraph (K : Point3DFeatureFlags)
    (getCorrespondences2D3D : Nat → Nat → List (Nat × Nat)) (s : PointStore) : PointStore × Nat :=
  runPG getCorrespondences2D3D s 50 10 K.OBSERVED_BY_STEREO_RIG_MULTIPLE_TIMES

/-- The call of `runPG` made by `run` for the merged graph (lines 234-235). -/
def runGlobalPG (K : Point3DFeatureFlags)
    (getCorrespondences2D3D : Nat → Nat → List (Nat × Nat)) (s : PointStore) : PointStore × Nat :=
  runPG getCorrespondences2D3D s 15 30 K.OBSERVED_BY_MULTIPLE_STEREO_RIGS

/-! ## Geometry and the scene graph -/

/-- The operations on homogeneous transforms and points that the source takes
from Eigen and from `cauldron/EigenUtils.h`. They are parameters: every theorem
holds for each implementation. -/
structure Geometry (Mat Vec : Type) where
  /-- `operator*` on `Eigen::Matrix4d`. -/
  mul : Mat → Mat → Mat
  invertHomogeneousTransform : Mat → Mat
  transformPoint : Mat → Vec → Vec

/-- The scene graph as far as `runFullBA` and `runHandEyeCalibration` use it.
Frame sets, frames, 2-D features, scene points and poses are identifiers. -/
structure SparseGraph (Mat Vec : Type) where
  /-- `SparseGraph::frameSetSegments()`: the segments, each a sequence of frame sets. -/
  frameSetSegments : List (List Nat)
  /-- `FrameSet::frames()`. -/
  frames : Nat → List Nat
  /-- `FrameSet::systemPose()`: the `Pose` object of a frame set. -/
  systemPose : Nat → Nat
  /-- `Pose::toMatrix()` of a `Pose` object. -/
  poseMatrix : Nat → Mat
  /-- `Frame::cameraId()`. -/
  cameraId : Nat → Nat
  /-- `Frame::features2D()`. -/
  frameFeatures2D : Nat → List Nat
  /-- `Frame::frameSet()`: the owning frame set of a frame. -/
  frameSet : Nat → Nat
  /-- `Point2DFeature::frame()`: the owning frame of a feature. -/
  frame : Nat → Nat
  /-- Links, feature lists and attributes. -/
  store : PointStore
  /-- `Point3DFeature::point()`. -/
  point : Nat → Vec
  /-- `Point3DFeature::pointFromStereo()`. -/
  pointFromStereo : Nat → Vec

/-- Modelled from the spec: `SparseGraph::frameSetSegment(i)` is declared in a
header outside the source file; it is the segment with index `i`, which is
empty as long as nothing was pushed to it (`processFrames` tests
`frameSetSegment(0).empty()` on a fresh graph). -/
def SparseGraph.frameSetSegment {Mat Vec : Type} (g : SparseGraph Mat Vec) (i : Nat) : List Nat :=
  g.frameSetSegments.getD i []

/-- The iterations of the four nested loops over segments, frame sets, frames
and features (lines 811-826 and 853-868), in order, as triples
(frame set, frame, feature). -/
def SparseGraph.visits {Mat Vec : Type} (g : SparseGraph Mat Vec) : List (Nat × Nat × Nat) :=
  g.frameSetSegments.flatMap fun segment =>
    segment.flatMap fun frameSet =>
      (g.frames frameSet).flatMap fun frame =>
        (g.frameFeatures2D frame).map fun feature => (frameSet, frame, feature)

/-! ## `runFullBA` -/

/-- The state of the counting pass of `runFullBA` (lines 808-810). -/
structure ResidualCounts where
  nFeatureSResiduals : Nat
  nFeatureMResiduals : Nat
  /-- The set `singletonScenePoints`, as a duplicate-free list. -/
  singletonScenePoints : List Nat

/-- The test `scenePoint->attributes() & OBSERVED_BY_MULTIPLE_STEREO_RIGS`. -/
def isMultiRig (K : Point3DFeatureFlags) (s : PointStore) (scenePoint : Nat) : Bool :=
  s.attributes scenePoint &&& K.OBSERVED_BY_MULTIPLE_STEREO_RIGS != 0

/-- The body of the counting loop (lines 828-845) for one feature. -/
def countStep {Mat Vec : Type} (K : Point3DFeatureFlags) (g : SparseGraph Mat Vec)
    (c : ResidualCounts) (v : Nat × Nat × Nat) : ResidualCounts :=
  let scenePoint := g.store.feature3D v.2.2
  if (g.store.features2D scenePoint).length ≤ 2 then
    { c with singletonScenePoints := c.singletonScenePoints.insert scenePoint }
  else if isMultiRig K g.store scenePoint then
    { c with nFeatureMResiduals := c.nFeatureMResiduals + 1 }
  else
    { c with nFeatureSResiduals := c.nFeatureSResiduals + 1 }

/-- The counting pass of `runFullBA` (lines 808-849). -/
def countFeatureResiduals {Mat Vec : Type} (K : Point3DFeatureFlags) (g : SparseGraph Mat Vec) :
    ResidualCounts :=
  g.visits.foldl (countStep K g) ⟨0, 0, []⟩

/-- A residual block of the problem handed to the solver, with the weight of its
`ScaledLoss` and the parameter blocks that matter here. -/
inductive ResidualBlock where
  /-- A tracked-feature block (lines 884-897): the camera whose intrinsics and
  extrinsics it uses, the `Pose` object, the scene point whose `pointData()` it
  uses, and the observing feature. -/
  | tracked (weight : ℚ) (cameraId pose scenePoint feature : Nat)
  /-- A chessboard-corner block (lines 1018-1035) of rig `rig`, view `view`,
  corner `corner`; it uses no scene point of the graph. -/
  | corner (weight : ℚ) (rig view corner : Nat)
deriving DecidableEq

/-- The weight of the scaled loss of a block. -/
def ResidualBlock.weight : ResidualBlock → ℚ
  | .tracked w _ _ _ _ => w
  | .corner w _ _ _ => w

/-- Whether the block has the position of scene point `p` among its parameter
blocks. -/
def ResidualBlock.usesPoint (p : Nat) : ResidualBlock → Bool
  | .tracked _ _ _ scenePoint _ => scenePoint == p
  | .corner _ _ _ _ => false

/-- Whether the block is a chessboard-corner block. -/
def ResidualBlock.isCorner : ResidualBlock → Bool
  | .tracked _ _ _ _ _ => false
  | .corner _ _ _ _ => true

/-- The body of the second feature loop (lines 870-897) for one feature: the
block added to the problem, or none when the iteration is skipped. -/
def featureBlock {Mat Vec : Type} (K : Point3DFeatureFlags) (g : SparseGraph Mat Vec)
    (wFeatureMResidual : ℚ) (v : Nat × Nat × Nat) : Option ResidualBlock :=
  let scenePoint := g.store.feature3D v.2.2
  if (g.store.features2D scenePoint).length ≤ 2 then none
  else
    let weight : ℚ := if isMultiRig K g.store scenePoint then wFeatureMResidual else 1
    some (.tracked weight (g.cameraId v.2.1) (g.systemPose v.1) scenePoint v.2.2)

/-- The tracked-feature blocks added by the second loop nest (lines 853-907),
in the order of the calls of `AddResidualBlock`. -/
def addFeatureResiduals {Mat Vec : Type} (K : Point3DFeatureFlags) (g : SparseGraph Mat Vec)
    (wFeatureMResidual : ℚ) : List ResidualBlock :=
  g.visits.filterMap (featureBlock K g wFeatureMResidual)

/-- The accumulation of `nChessboardResiduals` (lines 911-919) over the rigs.
Each rig contributes `scenePoints().size() * scenePoints().front().size()`;
`front()` of an empty vector has no defined result, which is `none` here.
A rig's chessboard data is `scenePoints()`: a list of views, each a list of
corners. -/
def countChessboardResiduals : List (List (List Nat)) → Nat → Option Nat
  | [], nChessboardResiduals => some nChessboardResiduals
  | scenePoints :: rest, nChessboardResiduals =>
    match scenePoints.head? with
    | none => none
    | some front =>
      countChessboardResiduals rest (nChessboardResiduals + scenePoints.length * front.length)

/-- The chessboard-corner blocks added by the loops of lines 986-1044: one per
rig `i`, view `j` and corner `k`. The image points and chessboard poses read
there with `.at(...)` are taken to have the shape of `scenePoints()`. -/
def addChessboardResiduals (chessboard : List (List (List Nat))) (wChessboardResidual : ℚ) :
    List ResidualBlock :=
  chessboard.enum.flatMap fun rig =>
    rig.2.enum.flatMap fun view =>
      (List.range view.2.length).map fun k => ResidualBlock.corner wChessboardResidual rig.1 view.1 k

/-- The variables the solver may change: the system-to-camera transform of each
camera (the pair `q_sys_cam`, `t_sys_cam`, kept as the transform it encodes), the
system poses and the scene-point positions. The intrinsic parameters and the
chessboard poses are solver variables too; nothing below reads them. -/
structure SolverVars (Mat Vec : Type) where
  sysCam : Nat → Mat
  poseMatrix : Nat → Mat
  point : Nat → Vec

/-- The loop over `singletonScenePoints` (lines 1172-1184): each point is reset
from `pointFromStereo` through the pose of the frame of its first feature.
`features2D().front()` of an empty list has no defined result (`none`). -/
def resetSingletons {Mat Vec : Type} (geo : Geometry Mat Vec) (g : SparseGraph Mat Vec)
    (poseMatrix globalCameraPose : Nat → Mat) : List Nat → (Nat → Vec) → Option (Nat → Vec)
  | [], point => some point
  | scenePoint :: rest, point =>
    match (g.store.features2D scenePoint).head? with
    | none => none
    | some feature =>
      let frame := g.frame feature
      let frameSet := g.frameSet frame
      let pose := geo.mul (geo.invertHomogeneousTransform (poseMatrix (g.systemPose frameSet)))
        (globalCameraPose (g.cameraId frame))
      resetSingletons geo g poseMatrix globalCameraPose rest
        (fun p => if p = scenePoint then geo.transformPoint pose (g.pointFromStereo scenePoint)
          else point p)

/-- What `runFullBA` leaves behind. -/
structure FullBAResult (Mat Vec : Type) where
  counts : ResidualCounts
  nChessboardResiduals : Nat
  wFeatureMResidual : ℚ
  wChessboardResidual : ℚ
  /-- The residual blocks of the problem, in the order they were added. -/
  problem : List ResidualBlock
  /-- The variables as the solver returned them. -/
  solved : SolverVars Mat Vec
  /-- The global camera poses after the write-back (lines 1060-1071). -/
  globalCameraPose : Nat → Mat
  /-- The graph at the end, with the optimised poses and the final positions. -/
  graph : SparseGraph Mat Vec

/-- The function `runFullBA` (lines 771-1193). `solve` is the external solver, which
receives the residual blocks and the initial variables and returns the
optimised variables; weights are exact rationals. The chessboard poses and the
reprojection-error reports are left out. -/
def runFullBA {Mat Vec : Type} (geo : Geometry Mat Vec) (K : Point3DFeatureFlags)
    (solve : List ResidualBlock → SolverVars Mat Vec → SolverVars Mat Vec)
    (cameraCount : Nat) (globalCameraPose : Nat → Mat) (g : SparseGraph Mat Vec)
    (chessboard : List (List (List Nat))) : Option (FullBAResult Mat Vec) :=
  let counts := countFeatureResiduals K g
  let wFeatureMResidual : ℚ := (counts.nFeatureSResiduals : ℚ) / (counts.nFeatureMResiduals : ℚ)
  let featureBlocks := addFeatureResiduals K g wFeatureMResidual
  match countChessboardResiduals chessboard 0 with
  | none => none
  | some nChessboardResiduals =>
    let wChessboardResidual : ℚ := (counts.nFeatureSResiduals : ℚ) / (nChessboardResiduals : ℚ)
    let problem := featureBlocks ++ addChessboardResiduals chessboard wChessboardResidual
    let vars : SolverVars Mat Vec :=
      { sysCam := fun i => geo.invertHomogeneousTransform (globalCameraPose i)
        poseMatrix := g.poseMatrix
        point := g.point }
    let solved := solve problem vars
    let globalCameraPose1 : Nat → Mat := fun i =>
      if i < cameraCount then geo.invertHomogeneousTransform (solved.sysCam i)
      else globalCameraPose i
    match resetSingletons geo g solved.poseMatrix globalCameraPose1
        counts.singletonScenePoints solved.point with
    | none => none
    | some point =>
      some
        { counts := counts
          nChessboardResiduals := nChessboardResiduals
          wFeatureMResidual := wFeatureMResidual
          wChessboardResidual := wChessboardResidual
          problem := problem
          solved := solved
          globalCameraPose := globalCameraPose1
          graph := { g with poseMatrix := solved.poseMatrix, point := point } }

/-! ## `runHandEyeCalibration` -/

/-- The loop of `computeRelativeSystemPoses` (lines 1247-1256) over consecutive
frame sets, given the matrices of their system poses. -/
def relativePosesLoop {Mat Vec : Type} (geo : Geometry Mat Vec) : List Mat → List Mat
  | frameSet1 :: frameSet2 :: rest =>
    geo.mul frameSet2 (geo.invertHomogeneousTransform frameSet1) ::
      relativePosesLoop geo (frameSet2 :: rest)
  | _ => []

/-- The function `computeRelativeSystemPoses` (lines 1237-1259), on the matrices of the
system poses of the frame sets. -/
def computeRelativeSystemPoses {Mat Vec : Type} (geo : Geometry Mat Vec) (frameSets : List Mat) :
    List Mat :=
  if frameSets.length < 2 then [] else relativePosesLoop geo frameSets

/-- `CameraSystem::setGlobalCameraPose`. -/
def setGlobalCameraPose {Mat : Type} (globalCameraPose : Nat → Mat) (i : Nat) (H : Mat) :
    Nat → Mat :=
  fun j => if j = i then H else globalCameraPose j

/-- The second loop of `runHandEyeCalibration` (lines 511-523) over the rigs
`i = 1, 2, ...` listed in the second argument. `hecSolve` is the external
`HandEyeCalibration::solve`, returning the transform it writes to `H_i_0`. -/
def handEyeLoop {Mat Vec : Type} (geo : Geometry Mat Vec) (hecSolve : List Mat → List Mat → Mat)
    (H : List (List Mat)) : List Nat → (Nat → Mat) → (Nat → Mat)
  | [], globalCameraPose => globalCameraPose
  | i :: rest, globalCameraPose =>
    let H_i_0 := hecSolve (H.getD i []) (H.getD 0 [])
    let cam1 := setGlobalCameraPose globalCameraPose (i * 2)
      (geo.mul H_i_0 (globalCameraPose (i * 2)))
    let cam2 := setGlobalCameraPose cam1 (i * 2 + 1) (geo.mul H_i_0 (cam1 (i * 2 + 1)))
    handEyeLoop geo hecSolve H rest cam2

/-- The function `runHandEyeCalibration` (lines 496-526). `subSparseGraphs` holds one
sub-graph per stereo rig (`m_svo` and `m_subSparseGraphs` have the same size by
construction); the result is the returned flag and the global camera poses
afterwards. -/
def runHandEyeCalibration {Mat Vec : Type} (geo : Geometry Mat Vec)
    (hecSolve : List Mat → List Mat → Mat) (subSparseGraphs : List (SparseGraph Mat Vec))
    (globalCameraPose : Nat → Mat) : Bool × (Nat → Mat) :=
  if subSparseGraphs.length < 2 then (false, globalCameraPose)
  else
    let H := subSparseGraphs.map fun g =>
      computeRelativeSystemPoses geo ((g.frameSetSegment 0).map fun fs => g.poseMatrix (g.systemPose fs))
    (true, handEyeLoop geo hecSolve H (List.range' 1 (subSparseGraphs.length - 1)) globalCameraPose)

/-- The argument that `runHandEyeCalibration` computes for one rig (line 508): the
relative system poses of segment 0 of the rig's sub-graph. -/
def relativePosesOf {Mat Vec : Type} (geo : Geometry Mat Vec) (g : SparseGraph Mat Vec) :
    List Mat :=
  computeRelativeSystemPoses geo ((g.frameSetSegment 0).map fun fs => g.poseMatrix (g.systemPose fs))

/-- Subtraction of `size_t` values: the difference modulo `2 ^ 64`. -/
def sizeSub (a b : Nat) : Nat :=
  (a % 2 ^ 64 + 2 ^ 64 - b % 2 ^ 64) % 2 ^ 64

/-- The loop of `computeRelativeSystemPoses` (lines 1247-1256) written over the
index `i`, for `count` more iterations; `frameSets.at(...)` outside the vector
throws, which is `none`. -/
def relativePosesFrom {Mat Vec : Type} (geo : Geometry Mat Vec) (frameSets : List Mat) :
    Nat → Nat → Option (List Mat)
  | 0, _ => some []
  | count + 1, i =>
    match frameSets[i]?, frameSets[i + 1]? with
    | some frameSet1, some frameSet2 =>
      match relativePosesFrom geo frameSets count (i + 1) with
      | some relPoses =>
        some (geo.mul frameSet2 (geo.invertHomogeneousTransform frameSet1) :: relPoses)
      | none => none
    | _, _ => none

/-- The function `computeRelativeSystemPoses` with the loop bound
`frameSets.size() - 1` computed in `size_t` arithmetic, as the source writes
it. -/
def computeRelativeSystemPosesIndexed {Mat Vec : Type} (geo : Geometry Mat Vec)
    (frameSets : List Mat) : Option (List Mat) :=
  if frameSets.length < 2 then some []
  else relativePosesFrom geo frameSets (sizeSub frameSets.length 1) 0

/-! ## `mergeMaps` -/

/-- The state that `mergeMaps` works on. The sub-graphs and the merged graph
share their frames, features, scene points and poses, so there is one set of
object tables; the merged graph `m_sparseGraph` is the segment list of
`graph`, and each sub-graph is given by the FrameSets of its segment 0. -/
structure MapState (Mat Vec : Type) where
  /-- The object tables and the segments of the merged graph. -/
  graph : SparseGraph Mat Vec
  /-- The identifier of the FrameSet that the next `boost::make_shared<FrameSet>()`
  creates. -/
  nextFrameSet : Nat

/-- The call `frameSetSegment(0).push_back(dst)` on a segment list. -/
def pushFrameSet (segments : List (List Nat)) (dst : Nat) : List (List Nat) :=
  match segments with
  | [] => [[dst]]
  | segment :: rest => (segment ++ [dst]) :: rest

/-- One iteration of the first loop of `mergeMaps` (lines 1314-1327) for the
FrameSet `src` of rig 0: a new FrameSet `dst` is created with an empty frame
list and pushed to segment 0 of the merged graph, it receives the frames and
the `Pose` object of `src`, and every frame of `src` gets `dst` as owner. The
inertial and ground-truth measurements are not modelled. -/
def adoptFrameSet {Mat Vec : Type} (st : MapState Mat Vec) (src : Nat) : MapState Mat Vec :=
  let dst := st.nextFrameSet
  let g := st.graph
  let frames0 : Nat → List Nat := fun fs => if fs = dst then [] else g.frames fs
  let frames1 : Nat → List Nat := fun fs => if fs = dst then frames0 dst ++ frames0 src else frames0 fs
  { graph :=
      { g with
        frameSetSegments := pushFrameSet g.frameSetSegments dst
        frames := frames1
        systemPose := fun fs => if fs = dst then g.systemPose src else g.systemPose fs
        frameSet := relink g.frameSet (frames1 src) dst }
    nextFrameSet := dst + 1 }

/-- The first loop of `mergeMaps` (lines 1312-1328) over the FrameSets of rig 0. -/
def adoptLoop {Mat Vec : Type} : List Nat → MapState Mat Vec → MapState Mat Vec
  | [], st => st
  | src :: rest, st => adoptLoop rest (adoptFrameSet st src)

/-- The scene points of the features of a frame, inserted into the set
`scenePoints` (lines 1352-1355). -/
def insertScenePoints (s : PointStore) : List Nat → List Nat → List Nat
  | [], scenePoints => scenePoints
  | feature :: rest, scenePoints =>
    insertScenePoints s rest (scenePoints.insert (s.feature3D feature))

/-- One iteration of the loop over the FrameSets of a rig `i ≥ 1` (lines
1341-1355) for the FrameSet `src` with index `j`. The merged FrameSet is
`frameSetSegment(0).at(j)` and the frame whose features are collected is
`src->frames().at(0)`; either access throws when out of range (`none`). -/
def contributeFrameSet {Mat Vec : Type} (st : MapState Mat Vec) (j src : Nat)
    (scenePoints : List Nat) : Option (MapState Mat Vec × List Nat) :=
  let g := st.graph
  match (g.frameSetSegment 0)[j]? with
  | none => none
  | some dst =>
    let frames1 : Nat → List Nat := fun fs => if fs = dst then g.frames dst ++ g.frames src else g.frames fs
    match (frames1 src).head? with
    | none => none
    | some frame =>
      some
        ({ st with
            graph :=
              { g with
                frames := frames1
                frameSet := relink g.frameSet (frames1 src) dst } },
          insertScenePoints g.store (g.frameFeatures2D frame) scenePoints)

/-- The loop over the FrameSets of a rig `i ≥ 1` (lines 1339-1356), at index `j`
with the FrameSets still to come. -/
def contributeLoop {Mat Vec : Type} :
    Nat → List Nat → MapState Mat Vec × List Nat → Option (MapState Mat Vec × List Nat)
  | _, [], acc => some acc
  | j, src :: rest, acc =>
    match contributeFrameSet acc.1 j src acc.2 with
    | none => none
    | some acc1 => contributeLoop (j + 1) rest acc1

/-- The body of the loop over the rigs `i ≥ 1` (lines 1335-1370) for a rig whose
segment 0 is `segment`: its frames go to the merged FrameSets, then every
collected scene point is reset from `pointFromStereo` by the same statements as
in `runFullBA`. -/
def mergeRig {Mat Vec : Type} (geo : Geometry Mat Vec) (globalCameraPose : Nat → Mat)
    (segment : List Nat) (st : MapState Mat Vec) : Option (MapState Mat Vec) :=
  match contributeLoop 0 segment (st, []) with
  | none => none
  | some (st1, scenePoints) =>
    match resetSingletons geo st1.graph st1.graph.poseMatrix globalCameraPose scenePoints
        st1.graph.point with
    | none => none
    | some point => some { st1 with graph := { st1.graph with point := point } }

/-- The loop over the rigs `i ≥ 1` (lines 1333-1371). -/
def mergeRigs {Mat Vec : Type} (geo : Geometry Mat Vec) (globalCameraPose : Nat → Mat) :
    List (List Nat) → MapState Mat Vec → Option (MapState Mat Vec)
  | [], st => some st
  | segment :: rest, st =>
    match mergeRig geo globalCameraPose segment st with
    | none => none
    | some st1 => mergeRigs geo globalCameraPose rest st1

/-- The function `mergeMaps` (lines 1298-1380) without the closing report.
`subSegments` lists, per rig, the FrameSets of segment 0 of the rig's
sub-graph. -/
def mergeMaps {Mat Vec : Type} (geo : Geometry Mat Vec) (globalCameraPose : Nat → Mat)
    (subSegments : List (List Nat)) (st : MapState Mat Vec) : Option (MapState Mat Vec) :=
  if subSegments.length < 2 then some st
  else mergeRigs geo globalCameraPose (subSegments.drop 1) (adoptLoop (subSegments.getD 0 []) st)

/-- The scene points that the pass for a rig `i ≥ 1` collects in `scenePoints`
(lines 1347-1355): those linked by the features of the first frame of each
FrameSet of the rig's segment. -/
def collectedPoints {Mat Vec : Type} (g : SparseGraph Mat Vec) (segment : List Nat) : List Nat :=
  segment.flatMap fun src =>
    match (g.frames src).head? with
    | some frame => (g.frameFeatures2D frame).map g.store.feature3D
    | none => []

/-- The frames that a sub-graph segment holds at index `j`, for the table
`frames` of frame lists: those of its FrameSet `j`, none when the segment is
shorter. -/
def framesAt (frames : Nat → List Nat) (segment : List Nat) (j : Nat) : List Nat :=
  match segment[j]? with
  | some src => frames src
  | none => []

/-- Membership in `collectedPoints`, spelled out for a table `frames` of frame
lists: `p` is linked by a feature of the first frame of a FrameSet of the
segment. -/
def Collects {Mat Vec : Type} (frames : Nat → List Nat) (g : SparseGraph Mat Vec)
    (segment : List Nat) (p : Nat) : Prop :=
  ∃ src ∈ segment, ∃ frame, (frames src).head? = some frame ∧
    ∃ f ∈ g.frameFeatures2D frame, g.store.feature3D f = p

/-- The position that lines 1364-1369 give a scene point `p` whose first feature
is `f0`, when the frame of `f0` is owned by the FrameSet `frameSet`:
`pointFromStereo` transformed by
`inverse(systemPose) * globalCameraPose(cameraId)`. -/
def stereoPosition {Mat Vec : Type} (geo : Geometry Mat Vec) (g : SparseGraph Mat Vec)
    (globalCameraPose : Nat → Mat) (frameSet f0 p : Nat) : Vec :=
  geo.transformPoint
    (geo.mul (geo.invertHomogeneousTransform (g.poseMatrix (g.systemPose frameSet)))
      (globalCameraPose (g.cameraId (g.frame f0))))
    (g.pointFromStereo p)

/-- Two graphs agree on everything that the loop over the rigs `i ≥ 1` of
`mergeMaps` leaves alone. -/
def SameStatic {Mat Vec : Type} (g0 g : SparseGraph Mat Vec) : Prop :=
  g.frameSetSegments = g0.frameSetSegments ∧ g.systemPose = g0.systemPose ∧
  g.poseMatrix = g0.poseMatrix ∧ g.cameraId = g0.cameraId ∧
  g.frameFeatures2D = g0.frameFeatures2D ∧ g.frame = g0.frame ∧ g.store = g0.store ∧
  g.pointFromStereo = g0.pointFromStereo

/-! ## The recentering step of `run` -/

/-- An `Eigen::Matrix4d` with exact entries. -/
abbrev Matrix4 := Fin 4 → Fin 4 → ℚ

/-- An `Eigen::Vector3d` with exact entries. -/
abbrev Vector3 := Fin 3 → ℚ

/-- The block `H.block<3,1>(0,3)`: the translation column of a pose. -/
def translationOf (H : Matrix4) : Vector3 :=
  fun k => H k.castSucc 3

/-- The statement `H_cam.block<3,1>(0,3) -= origin` (line 272). -/
def subtractTranslation (H : Matrix4) (origin : Vector3) : Matrix4 :=
  fun r c => if h : r.val < 3 ∧ c = 3 then H r c - origin ⟨r.val, h.1⟩ else H r c

/-- The first loop of the recentering step (lines 262-265): the translations of the
listed cameras are added to `origin`. -/
def sumTranslations (globalCameraPose : Nat → Matrix4) : List Nat → Vector3 → Vector3
  | [], origin => origin
  | i :: rest, origin =>
    sumTranslations globalCameraPose rest (origin + translationOf (globalCameraPose i))

/-- The second loop of the recentering step (lines 268-275) over the listed
cameras. -/
def shiftLoop (origin : Vector3) : List Nat → (Nat → Matrix4) → (Nat → Matrix4)
  | [], globalCameraPose => globalCameraPose
  | i :: rest, globalCameraPose =>
    shiftLoop origin rest
      (setGlobalCameraPose globalCameraPose i (subtractTranslation (globalCameraPose i) origin))

/-- The recentering step at the end of `run` (lines 261-275) in exact arithmetic. -/
def recenter (cameraCount : Nat) (globalCameraPose : Nat → Matrix4) : Nat → Matrix4 :=
  let origin := sumTranslations globalCameraPose (List.range cameraCount) 0
  let origin : Vector3 := fun k => origin k / (cameraCount : ℚ)
  shiftLoop origin (List.range cameraCount) globalCameraPose

/-! ## `processFrames` -/

/-- The first loop after the workers have finished (lines 116-128), at rig `i`
with the sub-graph segments still to come: a rig whose segment 0 is empty gets
its new FrameSet, any other rig clears the flag `init`. Returns the segments
and the flag. The FrameSet pointer of rig `i` is `worker i`; it is not null
here. -/
def initLoop (worker : Nat → Option Nat) : Nat → List (List Nat) → List (List Nat) × Bool
  | _, [] => ([], true)
  | i, segment :: rest =>
    let r := initLoop worker (i + 1) rest
    if segment.isEmpty then
      (match worker i with
        | some frameSet => (segment ++ [frameSet]) :: r.1
        | none => segment :: r.1, r.2)
    else (segment :: r.1, false)

/-- The last loop of `processFrames` (lines 148-155): every rig gets its new
FrameSet. -/
def keyLoop (worker : Nat → Option Nat) : Nat → List (List Nat) → List (List Nat)
  | _, [] => []
  | i, segment :: rest =>
    (match worker i with
      | some frameSet => segment ++ [frameSet]
      | none => segment) :: keyLoop worker (i + 1) rest

/-- The function `processFrames` (lines 81-160) as far as the sub-graphs are
concerned. `readFrames i` is the result of `readFrames` for rig `i`,
`worker i` the FrameSet that the rig's worker thread produced (none for a null
pointer) and `correspondenceCount i` the rig's current number of 2-D/3-D
correspondences; `subSegments` holds segment 0 of every sub-graph. -/
def processFrames (readFrames : Nat → Bool) (worker : Nat → Option Nat)
    (correspondenceCount : Nat → Int) (subSegments : List (List Nat)) :
    Bool × List (List Nat) :=
  if (List.range subSegments.length).any (fun i => !readFrames i) then (false, subSegments)
  else if (List.range subSegments.length).any (fun i => (worker i).isNone) then
    (false, subSegments)
  else
    let r := initLoop worker 0 subSegments
    if r.2 then (true, r.1)
    else if (List.range subSegments.length).any (fun i => decide (correspondenceCount i < 40)) then
      (true, keyLoop worker 0 r.1)
    else (true, r.1)

/-- The rigs on which `processFrames` calls `keyCurrentFrameSet` (line 150), in
the order of the calls: every rig when the call reaches the last loop with
`keyFrames` set, none on every other path. The arguments are those of
`processFrames`. -/
def keyedRigs (readFrames : Nat → Bool) (worker : Nat → Option Nat)
    (correspondenceCount : Nat → Int) (subSegments : List (List Nat)) : List Nat :=
  if (List.range subSegments.length).any (fun i => !readFrames i) then []
  else if (List.range subSegments.length).any (fun i => (worker i).isNone) then []
  else if (initLoop worker 0 subSegments).2 then []
  else if (List.range subSegments.length).any (fun i => decide (correspondenceCount i < 40)) then
    List.range subSegments.length
  else []

/-- What one call of `processFrames` depends on besides the sub-graphs: the
outcome of `readFrames` per rig, the FrameSet each worker produced and the
correspondence count per rig. -/
structure FrameCall where
  readFrames : Nat → Bool
  worker : Nat → Option Nat
  correspondenceCount : Nat → Int

/-- A sequence of calls of `processFrames`, each starting from the segments the
previous call left (the returned flag is ignored, as failed calls are part of the
sequence). -/
def processFramesCalls : List FrameCall → List (List Nat) → List (List Nat)
  | [], subSegments => subSegments
  | call :: rest, subSegments =>
    processFramesCalls rest
      (processFrames call.readFrames call.worker call.correspondenceCount subSegments).2

/-! ## Scene-point reconstruction in `runPG`, `runBA` and `processSubGraph` -/

/-- The set `scenePoints` that `runPG` fills at lines 620-644: the scene point
linked by each feature of each frame of each frame set of each segment, as a
duplicate-free list. The set is unordered in the source; the loop over it
treats every point on its own, so the order of the list plays no role. -/
def gatherScenePoints {Mat Vec : Type} (g : SparseGraph Mat Vec) : List Nat :=
  g.visits.foldl (fun scenePoints v => scenePoints.insert (g.store.feature3D v.2.2)) []

/-- The graph after one iteration of the merge loop of `runPG` for the
correspondence `c`: the iteration touches links, feature lists and attributes
only. -/
def afterMerge {Mat Vec : Type} (g : SparseGraph Mat Vec) (c : Nat × Nat) (scenePointFlag : Nat) :
    SparseGraph Mat Vec :=
  { g with store := (mergeStep g.store c scenePointFlag).1 }

/-- The loop over `scenePoints` of `runPG` (lines 646-681). Each point is reset
from `pointFromStereo` through the pose of the frame of its first feature
(`features2D().front()` of an empty list has no defined result, `none`), then
the external solver refines it: `solvePoint` receives one block per feature
of the point, the transform `H` and the feature whose ray the cost function
uses, together with the reset position, and returns the position it leaves in
`pointData()`. -/
def reconstructLoop {Mat Vec : Type} (geo : Geometry Mat Vec) (g : SparseGraph Mat Vec)
    (globalCameraPose : Nat → Mat) (solvePoint : List (Mat × Nat) → Vec → Vec) :
    List Nat → (Nat → Vec) → Option (Nat → Vec)
  | [], point => some point
  | scenePoint :: rest, point =>
    match (g.store.features2D scenePoint).head? with
    | none => none
    | some front =>
      let frame := g.frame front
      let frameSet := g.frameSet frame
      let pose := geo.mul (geo.invertHomogeneousTransform (g.poseMatrix (g.systemPose frameSet)))
        (globalCameraPose (g.cameraId frame))
      let reset := geo.transformPoint pose (g.pointFromStereo scenePoint)
      let blocks := (g.store.features2D scenePoint).map fun feature =>
        (geo.mul (geo.invertHomogeneousTransform (globalCameraPose (g.cameraId (g.frame feature))))
          (g.poseMatrix (g.systemPose (g.frameSet (g.frame feature)))), feature)
      reconstructLoop geo g globalCameraPose solvePoint rest
        (fun p => if p = scenePoint then solvePoint blocks reset else point p)

/-- The first part of `runPG` (lines 528-617), on the whole graph. The pose
graph is external: `optimize` stands for `buildEdges` followed by
`optimize(true)` and receives the `Pose` objects of the FrameSets of the graph,
in order, with the current pose matrices; the matrices it returns are written to
those `Pose` objects and to nothing else. The merge pass then runs on the
correspondences that the pose graph reports. -/
def runPGMerge {Mat Vec : Type} (optimize : List Nat → (Nat → Mat) → Nat → Mat)
    (getCorrespondences2D3D : Nat → Nat → List (Nat × Nat)) (g : SparseGraph Mat Vec)
    (minLoopCorrespondences2D3D nImageMatches scenePointFlag : Nat) : SparseGraph Mat Vec :=
  let poses := g.frameSetSegments.flatten.map g.systemPose
  let optimised := optimize poses g.poseMatrix
  { g with
    poseMatrix := fun pose => if pose ∈ poses then optimised pose else g.poseMatrix pose
    store := (runPG getCorrespondences2D3D g.store minLoopCorrespondences2D3D nImageMatches
      scenePointFlag).1 }

/-- The function `runPG` (lines 528-687) on the whole graph: pose-graph optimisation and
merge pass, then the reconstruction of every gathered scene point. The
reprojection-error reports are left out. The result is `none` when
`features2D().front()` is taken of an empty list. -/
def runPGOnGraph {Mat Vec : Type} (geo : Geometry Mat Vec)
    (optimize : List Nat → (Nat → Mat) → Nat → Mat)
    (getCorrespondences2D3D : Nat → Nat → List (Nat × Nat))
    (solvePoint : List (Mat × Nat) → Vec → Vec) (globalCameraPose : Nat → Mat)
    (g : SparseGraph Mat Vec)
    (minLoopCorrespondences2D3D nImageMatches scenePointFlag : Nat) :
    Option (SparseGraph Mat Vec) :=
  let g1 := runPGMerge optimize getCorrespondences2D3D g minLoopCorrespondences2D3D
    nImageMatches scenePointFlag
  match reconstructLoop geo g1 globalCameraPose solvePoint (gatherScenePoints g1) g1.point with
  | none => none
  | some point => some { g1 with point := point }

/-- A residual block of the problem of `runBA` (lines 730-748): the camera whose
fixed extrinsics enter the cost function, and the parameter blocks, which are
the `Pose` object of the frame set and the position of the scene point; the
feature gives the observed ray. -/
structure BABlock where
  cameraId : Nat
  pose : Nat
  scenePoint : Nat
  feature : Nat
deriving DecidableEq

/-- The residual blocks that `runBA` adds (lines 712-756), one per feature of
every frame of every frame set, in the order of the calls of
`AddResidualBlock`. -/
def addBAResiduals {Mat Vec : Type} (g : SparseGraph Mat Vec) : List BABlock :=
  g.visits.map fun v =>
    { cameraId := g.cameraId v.2.1
      pose := g.systemPose v.1
      scenePoint := g.store.feature3D v.2.2
      feature := v.2.2 }

/-- The function `runBA` (lines 689-769). `solveBA` is the external solver; it gets the
residual blocks and the current values (the system-to-camera transforms are
constants of the cost functions) and returns the optimised values. The solver
writes to the parameter blocks of the problem only, so a pose or a position
that no block uses keeps its value. The visualisation callback and the
reprojection-error report are left out. -/
def runBA {Mat Vec : Type} (geo : Geometry Mat Vec)
    (solveBA : List BABlock → SolverVars Mat Vec → SolverVars Mat Vec)
    (globalCameraPose : Nat → Mat) (g : SparseGraph Mat Vec) : SparseGraph Mat Vec :=
  let problem := addBAResiduals g
  let vars : SolverVars Mat Vec :=
    { sysCam := fun i => geo.invertHomogeneousTransform (globalCameraPose i)
      poseMatrix := g.poseMatrix
      point := g.point }
  let solved := solveBA problem vars
  { g with
    poseMatrix := fun pose =>
      if problem.any (fun b => b.pose == pose) then solved.poseMatrix pose else g.poseMatrix pose
    point := fun p =>
      if problem.any (fun b => b.scenePoint == p) then solved.point p else g.point p }

/-- The function `processSubGraph` (lines 478-494) on the whole sub-graph: `runPG` with the
thresholds 50 and 10 and the flag `OBSERVED_BY_STEREO_RIG_MULTIPLE_TIMES`, then
`runBA`. The visualisation calls are left out. -/
def processSubGraphOnGraph {Mat Vec : Type} (geo : Geometry Mat Vec) (K : Point3DFeatureFlags)
    (optimize : List Nat → (Nat → Mat) → Nat → Mat)
    (getCorrespondences2D3D : Nat → Nat → List (Nat × Nat))
    (solvePoint : List (Mat × Nat) → Vec → Vec)
    (solveBA : List BABlock → SolverVars Mat Vec → SolverVars Mat Vec)
    (globalCameraPose : Nat → Mat) (g : SparseGraph Mat Vec) : Option (SparseGraph Mat Vec) :=
  match runPGOnGraph geo optimize getCorrespondences2D3D solvePoint globalCameraPose g 50 10
      K.OBSERVED_BY_STEREO_RIG_MULTIPLE_TIMES with
  | none => none
  | some g1 => some (runBA geo solveBA globalCameraPose g1)

/-! ## `runPoseIMUCalibration` -/

/-- The first loop of `runPoseIMUCalibration` (lines 1199-1207): the vectors
`poseData` and `imuData`, filled by one `push_back` each per FrameSet of
segment 0 of the merged graph. `imuMeasurement` is the table of
`FrameSet::imuMeasurement()`; a pose is passed as its `Pose` object. -/
def poseIMUData {Mat Vec Imu : Type} (imuMeasurement : Nat → Imu) (g : SparseGraph Mat Vec) :
    List Nat × List Imu :=
  (g.frameSetSegment 0).foldl
    (fun data frameSet => (data.1 ++ [g.systemPose frameSet], data.2 ++ [imuMeasurement frameSet]))
    ([], [])

/-- The matrix `H_sys_imu` (lines 1225-1226): the identity with its upper-left 3x3 block
replaced by the rotation matrix. -/
def homogeneousRotation (R : Fin 3 → Fin 3 → ℚ) : Matrix4 :=
  fun r c =>
    if h : r.val < 3 ∧ c.val < 3 then R ⟨r.val, h.1⟩ ⟨c.val, h.2⟩
    else if r = c then 1 else 0

/-- The product of two `Eigen::Matrix4d` in exact arithmetic. -/
def mulMatrix4 (A B : Matrix4) : Matrix4 :=
  fun r c => A r 0 * B 0 c + A r 1 * B 1 c + A r 2 * B 2 c + A r 3 * B 3 c

/-- The last loop of `runPoseIMUCalibration` (lines 1228-1232) over the listed
cameras. -/
def rotateLoop (H_sys_imu : Matrix4) : List Nat → (Nat → Matrix4) → (Nat → Matrix4)
  | [], globalCameraPose => globalCameraPose
  | i :: rest, globalCameraPose =>
    rotateLoop H_sys_imu rest
      (setGlobalCameraPose globalCameraPose i (mulMatrix4 H_sys_imu (globalCameraPose i)))

/-- The function `runPoseIMUCalibration` (lines 1195-1235). `calibrate` is the external
`PoseIMUCalibration::calibrate`, yielding the quaternion it writes to
`q_sys_imu` or nothing when it returns false; `toRotationMatrix` is Eigen's
conversion of the quaternion. The result is the returned flag and the global
camera poses afterwards; the error report is left out. -/
def runPoseIMUCalibration {Mat Vec Imu Quat : Type}
    (calibrate : List Nat → List Imu → Option Quat)
    (toRotationMatrix : Quat → Fin 3 → Fin 3 → ℚ) (imuMeasurement : Nat → Imu)
    (cameraCount : Nat) (g : SparseGraph Mat Vec) (globalCameraPose : Nat → Matrix4) :
    Bool × (Nat → Matrix4) :=
  let data := poseIMUData imuMeasurement g
  match calibrate data.1 data.2 with
  | none => (false, globalCameraPose)
  | some q_sys_imu =>
    let H_sys_imu := homogeneousRotation (toRotationMatrix q_sys_imu)
    (true, rotateLoop H_sys_imu (List.range cameraCount) globalCameraPose)

/-! ## The stages of `run` -/

/-- The steps of `run` that the log of an invocation records. -/
inductive Stage where
  /-- The worker threads running `processSubGraph`, joined (lines 174-191). -/
  | processSubGraph
  | runHandEyeCalibration
  | mergeMaps
  /-- The calls `writeToBinaryFile` and `writePosesToTextFile` (lines 203-204). -/
  | writeIntermediateData
  | readFromBinaryFile
  | runPG
  | runFullBA
  | runPoseIMUCalibration
  /-- The recentering of the camera poses (lines 261-275). -/
  | recenter
deriving DecidableEq

/-- The callees of `run` as transformers of the calibration state `σ` (sub-graphs,
merged graph and camera system). The three callees whose result `run` tests
also return their flag. -/
structure Stages (σ : Type) where
  processSubGraph : σ → σ
  runHandEyeCalibration : σ → Bool × σ
  mergeMaps : σ → σ
  writeIntermediateData : σ → σ
  readFromBinaryFile : σ → Bool × σ
  runPG : σ → σ
  runFullBA : σ → σ
  runPoseIMUCalibration : σ → Bool × σ
  recenter : σ → σ

/-- What an invocation of `run` leaves: the returned flag, the state, and the log
of the stages executed, in order, each with the flag it returned (`true` for a
stage without a result). -/
structure RunResult (σ : Type) where
  result : Bool
  state : σ
  log : List (Stage × Bool)

/-- The part of `run` after the branch on `readIntermediateData` (lines 217-277):
global pose graph, full bundle adjustment, pose-IMU calibration and, when that
succeeds, recentering. `log` holds the stages executed so far. -/
def runGlobal {σ : Type} (S : Stages σ) (st : σ) (log : List (Stage × Bool)) : RunResult σ :=
  let st1 := S.runPG st
  let st2 := S.runFullBA st1
  let r := S.runPoseIMUCalibration st2
  if !r.1 then
    { result := false
      state := r.2
      log := log ++ [(.runPG, true), (.runFullBA, true), (.runPoseIMUCalibration, false)] }
  else
    { result := true
      state := S.recenter r.2
      log := log ++ [(.runPG, true), (.runFullBA, true), (.runPoseIMUCalibration, true),
        (.recenter, true)] }

/-- The function `run` (lines 162-278) as the sequence of its stages. -/
def run {σ : Type} (S : Stages σ) (readIntermediateData : Bool) (st : σ) : RunResult σ :=
  if !readIntermediateData then
    let st1 := S.processSubGraph st
    let r := S.runHandEyeCalibration st1
    if !r.1 then
      { result := false
        state := r.2
        log := [(.processSubGraph, true), (.runHandEyeCalibration, false)] }
    else
      let st2 := S.mergeMaps r.2
      let st3 := S.writeIntermediateData st2
      runGlobal S st3
        [(.processSubGraph, true), (.runHandEyeCalibration, true), (.mergeMaps, true),
          (.writeIntermediateData, true)]
  else
    let r := S.readFromBinaryFile st
    if !r.1 then
      { result := false
        state := r.2
        log := [(.readFromBinaryFile, false)] }
    else runGlobal S r.2 [(.readFromBinaryFile, true)]

/-- A tracked-feature block on a scene point without the flag
`OBSERVED_BY_MULTIPLE_STEREO_RIGS` (the single-rig class). -/
def singleRigBlock (K : Point3DFeatureFlags) (s : PointStore) : ResidualBlock → Bool
  | .tracked _ _ _ scenePoint _ => !isMultiRig K s scenePoint
  | .corner _ _ _ _ => false

/-- A tracked-feature block on a scene point with the flag
`OBSERVED_BY_MULTIPLE_STEREO_RIGS` (the multi-rig class). -/
def multiRigBlock (K : Point3DFeatureFlags) (s : PointStore) : ResidualBlock → Bool
  | .tracked _ _ _ scenePoint _ => isMultiRig K s scenePoint
  | .corner _ _ _ _ => false

/-! ## Sample data -/

/-- A small store: feature `f` observes scene point `f + 10` and nothing else
does, so that point `p ≥ 10` lists exactly feature `p - 10`. -/
def sampleStore : PointStore :=
  { feature3D := fun f => f + 10
    features2D := fun p => if 10 ≤ p then [p - 10] else []
    attributes := fun _ => 0 }

/-- Flag values for the samples. -/
def sampleFlags : Point3DFeatureFlags :=
  { OBSERVED_BY_STEREO_RIG_MULTIPLE_TIMES := 1
    OBSERVED_BY_MULTIPLE_STEREO_RIGS := 2 }

/-- Sample geometry on numbers: transforms compose by addition, inversion is the
identity and a transform shifts a point. -/
def sampleGeometry : Geometry Nat Nat :=
  { mul := fun a b => a + b
    invertHomogeneousTransform := fun a => a
    transformPoint := fun a v => a + v }

/-- A graph with one frame set holding one frame with the features 0 to 6.
Features 0, 1, 2 observe point 10 (no flag), feature 3 alone observes point 11,
and features 4, 5, 6 observe point 12, which carries the multi-rig flag. -/
def sampleGraph : SparseGraph Nat Nat :=
  { frameSetSegments := [[0]]
    frames := fun fs => if fs = 0 then [0] else []
    systemPose := fun _ => 0
    poseMatrix := fun _ => 1
    cameraId := fun _ => 0
    frameFeatures2D := fun fr => if fr = 0 then [0, 1, 2, 3, 4, 5, 6] else []
    frameSet := fun _ => 0
    frame := fun _ => 0
    store :=
      { feature3D := fun f => if f ≤ 2 then 10 else if f = 3 then 11 else 12
        features2D := fun p =>
          if p = 10 then [0, 1, 2] else if p = 11 then [3] else if p = 12 then [4, 5, 6] else []
        attributes := fun p => if p = 12 then 2 else 0 }
    point := fun _ => 0
    pointFromStereo := fun p => p }

/-- A solver that returns the variables unchanged. -/
def sampleSolve (_ : List ResidualBlock) (v : SolverVars Nat Nat) : SolverVars Nat Nat := v

/-- A heap with four FrameSets, `k` holding the frames `2k` (left) and `2k + 1`
(right); frame `fr` has the single feature `fr`, which alone observes the scene
point `fr + 10`. The merged graph is empty and the next new FrameSet is 4. -/
def sampleMapState : MapState Nat Nat :=
  { graph :=
      { frameSetSegments := []
        frames := fun fs => if fs < 4 then [2 * fs, 2 * fs + 1] else []
        systemPose := fun fs => fs
        poseMatrix := fun pose => pose + 1
        cameraId := fun fr => if fr < 4 then fr % 2 else 2 + fr % 2
        frameFeatures2D := fun fr => [fr]
        frameSet := fun fr => fr / 2
        frame := fun f => f
        store :=
          { feature3D := fun f => f + 10
            features2D := fun p => if 10 ≤ p then [p - 10] else []
            attributes := fun _ => 0 }
        point := fun _ => 0
        pointFromStereo := fun p => p }
    nextFrameSet := 4 }

/-- The sample heap with a merged graph that already holds FrameSet 3. -/
def sampleMapStateHeld : MapState Nat Nat :=
  { sampleMapState with
    graph := { sampleMapState.graph with frameSetSegments := [[3]] } }

/-- A store in which point 12 lists feature 2 twice and feature 5 once; every
other point `p ≥ 10` lists exactly feature `p - 10`. -/
def sampleStoreRepeated : PointStore :=
  { feature3D := fun f => f + 10
    features2D := fun p => if p = 12 then [2, 2, 5] else if 10 ≤ p then [p - 10] else []
    attributes := fun _ => 0 }

/-- Stages that succeed and leave the state alone, except that the hand-eye
stage fails on state 1 and the pose-IMU stage fails on state 2. -/
def sampleStages : Stages Nat :=
  { processSubGraph := fun st => st
    runHandEyeCalibration := fun st => (st != 1, st)
    mergeMaps := fun st => st
    writeIntermediateData := fun st => st
    readFromBinaryFile := fun st => (true, st)
    runPG := fun st => st
    runFullBA := fun st => st
    runPoseIMUCalibration := fun st => (st != 2, st)
    recenter := fun st => st }

/-- A pose-graph optimiser that returns the pose matrices unchanged. -/
def sampleOptimize (_ : List Nat) (poseMatrix : Nat → Nat) : Nat → Nat := poseMatrix

/-- A one-point solver that returns the reset position unchanged. -/
def sampleSolvePoint (_ : List (Nat × Nat)) (v : Nat) : Nat := v

/-- A bundle-adjustment solver that returns the values unchanged. -/
def sampleSolveBA (_ : List BABlock) (v : SolverVars Nat Nat) : SolverVars Nat Nat := v

/-- Camera poses for the samples. -/
def sampleCameraPose (i : Nat) : Nat := 100 * (i + 1)

/-! ## Lemmas on the merge step -/

theorem findFeature_iff (fs : List Nat) (f : Nat) : findFeature fs f = true ↔ f ∈ fs := by
  induction fs with
  | nil => simp [findFeature]
  | cons a rest ih =>
    by_cases h : a = f
    · simp [findFeature, h]
    · have h2 : ¬ f = a := fun e => h e.symm
      simp [findFeature, h, h2, ih]

theorem foldFeatures_mem (fs2 : List Nat) :
    ∀ (fs1 : List Nat) (m : Bool) (x : Nat),
      x ∈ (foldFeatures fs2 fs1 m).1 ↔ x ∈ fs1 ∨ x ∈ fs2 := by
  induction fs2 with
  | nil => intro fs1 m x; simp [foldFeatures]
  | cons a rest ih =>
    intro fs1 m x
    by_cases h : findFeature fs1 a = true
    · have ha : a ∈ fs1 := (findFeature_iff fs1 a).1 h
      simp only [foldFeatures, h, if_true, ih, List.mem_cons]
      constructor
      · rintro (h1 | h1)
        · exact Or.inl h1
        · exact Or.inr (Or.inr h1)
      · rintro (h1 | h1 | h1)
        · exact Or.inl h1
        · exact Or.inl (h1 ▸ ha)
        · exact Or.inr h1
    · simp only [foldFeatures, h, ih, List.mem_cons, List.mem_append, List.mem_singleton]
      simp only [Bool.false_eq_true, if_false, ih, List.mem_append, List.mem_singleton]
      tauto

theorem relink_not_mem (fs : List Nat) :
    ∀ (l : Nat → Nat) (p g : Nat), g ∉ fs → relink l fs p g = l g := by
  induction fs with
  | nil => intro l p g _; rfl
  | cons b r ih =>
    intro l p g hn
    have hb : g ≠ b := fun e => hn (e ▸ List.mem_cons_self _ _)
    have hr : g ∉ r := fun e => hn (List.mem_cons_of_mem _ e)
    simp [relink, ih _ p g hr, hb]

theorem relink_mem (fs : List Nat) :
    ∀ (l : Nat → Nat) (p g : Nat), g ∈ fs → relink l fs p g = p := by
  induction fs with
  | nil => intro l p g h; simp at h
  | cons a rest ih =>
    intro l p g h
    by_cases hr : g ∈ rest
    · simpa [relink] using ih _ p g hr
    · have hga : g = a := by
        rcases List.mem_cons.1 h with h1 | h1
        · exact h1
        · exact absurd h1 hr
      subst hga
      simp [relink, relink_not_mem rest _ p g hr]

theorem freshFeatures_snoc (fs1 : List Nat) (a : Nat) :
    ∀ (n : Nat) (l : List Nat), l.length ≤ n →
      freshFeatures (fs1 ++ [a]) l = freshFeatures fs1 (l.filter (fun g => g ≠ a)) := by
  intro n
  induction n with
  | zero =>
    intro l hl
    have : l = [] := List.length_eq_zero.1 (Nat.le_zero.1 hl)
    subst this
    simp [freshFeatures]
  | succ n ih =>
    intro l hl
    cases l with
    | nil => simp [freshFeatures]
    | cons b r =>
      have hr : r.length ≤ n := by simpa using hl
      rw [freshFeatures.eq_2]
      by_cases hba : b = a
      · subst hba
        simp [ih r hr]
      · by_cases hb1 : b ∈ fs1
        · simp [hba, hb1, freshFeatures.eq_2, ih r hr]
        · have hfl : (r.filter (fun g => g ≠ b)).length ≤ n :=
            le_trans (List.length_filter_le _ _) hr
          have hcomm : List.filter (fun g => decide (g ≠ a)) (List.filter (fun g => decide (g ≠ b)) r)
              = List.filter (fun g => decide (g ≠ b)) (List.filter (fun g => decide (g ≠ a)) r) := by
            rw [List.filter_filter, List.filter_filter]
            congr 1
            funext g
            exact Bool.and_comm _ _
          have hmem : b ∉ fs1 ++ [a] := by simp [hb1, hba]
          have hf : List.filter (fun g => decide (g ≠ a)) (b :: r)
              = b :: List.filter (fun g => decide (g ≠ a)) r := by
            simp [List.filter_cons, hba]
          rw [if_neg hmem, hf, freshFeatures.eq_2, if_neg hb1, ih _ hfl, hcomm]

theorem foldFeatures_fst (fs2 : List Nat) :
    ∀ (fs1 : List Nat) (m : Bool),
      (foldFeatures fs2 fs1 m).1 = fs1 ++ freshFeatures fs1 fs2 := by
  induction fs2 with
  | nil => intro fs1 m; simp [foldFeatures, freshFeatures]
  | cons a rest ih =>
    intro fs1 m
    by_cases h : findFeature fs1 a = true
    · have ha : a ∈ fs1 := (findFeature_iff fs1 a).1 h
      simp [foldFeatures, h, ih, freshFeatures.eq_2, ha]
    · have ha : a ∉ fs1 := fun e => h ((findFeature_iff fs1 a).2 e)
      simp only [foldFeatures, h, Bool.false_eq_true, if_false, ih]
      rw [freshFeatures_snoc fs1 a rest.length rest (le_refl _), freshFeatures.eq_2]
      simp [ha]

theorem mem_freshFeatures (fs1 fs2 : List Nat) (x : Nat) :
    x ∈ freshFeatures fs1 fs2 ↔ x ∈ fs2 ∧ x ∉ fs1 := by
  induction fs2 using freshFeatures.induct fs1 with
  | case1 => simp [freshFeatures]
  | case2 f rest hf ih =>
    rw [freshFeatures.eq_2]
    simp only [hf, if_true, ih, List.mem_cons]
    constructor
    · rintro ⟨h1, h2⟩
      exact ⟨Or.inr h1, h2⟩
    · rintro ⟨h1 | h1, h2⟩
      · exact absurd (h1 ▸ hf) h2
      · exact ⟨h1, h2⟩
  | case3 f rest hf ih =>
    rw [freshFeatures.eq_2]
    simp only [hf, if_false, List.mem_cons, ih, List.mem_filter, decide_eq_true_eq]
    constructor
    · rintro (h1 | ⟨⟨h1, _⟩, h2⟩)
      · exact ⟨Or.inl h1, h1 ▸ hf⟩
      · exact ⟨Or.inr h1, h2⟩
    · rintro ⟨h1 | h1, h2⟩
      · exact Or.inl h1
      · by_cases hx : x = f
        · exact Or.inl hx
        · exact Or.inr ⟨⟨h1, hx⟩, h2⟩

theorem freshFeatures_nodup (fs1 fs2 : List Nat) : (freshFeatures fs1 fs2).Nodup := by
  induction fs2 using freshFeatures.induct fs1 with
  | case1 => simp [freshFeatures]
  | case2 f rest hf ih =>
    rw [freshFeatures.eq_2]
    simpa [hf] using ih
  | case3 f rest hf ih =>
    rw [freshFeatures.eq_2]
    simp only [hf, if_false, List.nodup_cons]
    refine ⟨?_, ih⟩
    intro h
    have := ((mem_freshFeatures fs1 _ f).1 h).1
    simp at this

theorem freshFeatures_sublist (fs1 fs2 : List Nat) : (freshFeatures fs1 fs2).Sublist fs2 := by
  induction fs2 using freshFeatures.induct fs1 with
  | case1 => simp [freshFeatures]
  | case2 f rest hf ih =>
    rw [freshFeatures.eq_2]
    simpa [hf] using List.Sublist.cons f ih
  | case3 f rest hf ih =>
    rw [freshFeatures.eq_2]
    simp only [hf, if_false]
    exact List.Sublist.cons₂ f (ih.trans (List.filter_sublist _))

theorem mergeStep_attributes (s : PointStore) (c : Nat × Nat) (flag p : Nat) :
    (mergeStep s c flag).1.attributes p =
      if p = s.feature3D c.1 then s.attributes p ||| flag else s.attributes p := by
  unfold mergeStep
  by_cases h : s.feature3D c.1 = c.2 <;> simp [h]

theorem mergeStep_same (s : PointStore) (c : Nat × Nat) (flag : Nat)
    (h : s.feature3D c.1 = c.2) :
    (mergeStep s c flag).1.features2D = s.features2D ∧
      (mergeStep s c flag).1.feature3D = s.feature3D := by
  unfold mergeStep
  simp [h]

theorem mergeStep_features2D (s : PointStore) (c : Nat × Nat) (flag p : Nat)
    (h : s.feature3D c.1 ≠ c.2) :
    (mergeStep s c flag).1.features2D p =
      if p = s.feature3D c.1 then
        (foldFeatures (s.features2D c.2) (s.features2D (s.feature3D c.1)) false).1
      else s.features2D p := by
  unfold mergeStep
  simp [h]

theorem mergeStep_feature3D (s : PointStore) (c : Nat × Nat) (flag g : Nat)
    (h : s.feature3D c.1 ≠ c.2) :
    (mergeStep s c flag).1.feature3D g =
      relink s.feature3D
        (foldFeatures (s.features2D c.2) (s.features2D (s.feature3D c.1)) false).1
        (s.feature3D c.1) g := by
  unfold mergeStep
  simp [h]

/-- One merge iteration keeps a feature listed by the point it links to. -/
theorem mergeStep_listed (s : PointStore) (c : Nat × Nat) (flag g : Nat)
    (hg : g ∈ s.features2D (s.feature3D g)) :
    g ∈ (mergeStep s c flag).1.features2D ((mergeStep s c flag).1.feature3D g) := by
  by_cases h : s.feature3D c.1 = c.2
  · obtain ⟨h1, h2⟩ := mergeStep_same s c flag h
    rw [h1, h2]; exact hg
  · rw [mergeStep_feature3D s c flag g h]
    by_cases hm : g ∈ (foldFeatures (s.features2D c.2) (s.features2D (s.feature3D c.1)) false).1
    · rw [relink_mem _ _ _ _ hm, mergeStep_features2D s c flag _ h]
      simpa using hm
    · rw [relink_not_mem _ _ _ _ hm, mergeStep_features2D s c flag _ h]
      have hne : s.feature3D g ≠ s.feature3D c.1 := by
        intro e
        apply hm
        rw [foldFeatures_mem]
        exact Or.inl (e ▸ hg)
      simpa [hne] using hg

theorem mergeLoop_listed (flag : Nat) (corr : List (Nat × Nat)) :
    ∀ (s : PointStore) (n g : Nat), g ∈ s.features2D (s.feature3D g) →
      g ∈ (mergeLoop flag corr (s, n)).1.features2D ((mergeLoop flag corr (s, n)).1.feature3D g) := by
  induction corr with
  | nil => intro s n g hg; simpa [mergeLoop] using hg
  | cons c rest ih =>
    intro s n g hg
    simp only [mergeLoop]
    exact ih _ _ g (mergeStep_listed s c flag g hg)

/-! ## Lemmas on `runFullBA` -/

theorem countFold_single {Mat Vec : Type} (K : Point3DFeatureFlags) (g : SparseGraph Mat Vec)
    (w : ℚ) (vs : List (Nat × Nat × Nat)) :
    ∀ c : ResidualCounts,
      (vs.foldl (countStep K g) c).nFeatureSResiduals =
        c.nFeatureSResiduals +
          ((vs.filterMap (featureBlock K g w)).filter (singleRigBlock K g.store)).length := by
  induction vs with
  | nil => intro c; simp
  | cons v rest ih =>
    intro c
    rw [List.foldl_cons, ih]
    by_cases h1 : (g.store.features2D (g.store.feature3D v.2.2)).length ≤ 2
    · simp [countStep, featureBlock, h1]
    · by_cases h2 : isMultiRig K g.store (g.store.feature3D v.2.2) = true
      · simp [countStep, featureBlock, h1, h2, singleRigBlock]
      · simp [countStep, featureBlock, h1, h2, singleRigBlock]
        omega

theorem countFold_multi {Mat Vec : Type} (K : Point3DFeatureFlags) (g : SparseGraph Mat Vec)
    (w : ℚ) (vs : List (Nat × Nat × Nat)) :
    ∀ c : ResidualCounts,
      (vs.foldl (countStep K g) c).nFeatureMResiduals =
        c.nFeatureMResiduals +
          ((vs.filterMap (featureBlock K g w)).filter (multiRigBlock K g.store)).length := by
  induction vs with
  | nil => intro c; simp
  | cons v rest ih =>
    intro c
    rw [List.foldl_cons, ih]
    by_cases h1 : (g.store.features2D (g.store.feature3D v.2.2)).length ≤ 2
    · simp [countStep, featureBlock, h1]
    · by_cases h2 : isMultiRig K g.store (g.store.feature3D v.2.2) = true
      · simp [countStep, featureBlock, h1, h2, multiRigBlock]
        omega
      · simp [countStep, featureBlock, h1, h2, multiRigBlock]

theorem countFold_singletons {Mat Vec : Type} (K : Point3DFeatureFlags) (g : SparseGraph Mat Vec)
    (vs : List (Nat × Nat × Nat)) :
    ∀ (c : ResidualCounts) (p : Nat),
      p ∈ (vs.foldl (countStep K g) c).singletonScenePoints ↔
        p ∈ c.singletonScenePoints ∨
          ∃ v ∈ vs, g.store.feature3D v.2.2 = p ∧ (g.store.features2D p).length ≤ 2 := by
  induction vs with
  | nil => intro c p; simp
  | cons v rest ih =>
    intro c p
    rw [List.foldl_cons, ih]
    by_cases h1 : (g.store.features2D (g.store.feature3D v.2.2)).length ≤ 2
    · simp only [countStep, h1, if_true, List.mem_insert_iff, List.mem_cons, exists_eq_or_imp]
      constructor
      · rintro ((h | h) | h)
        · subst h; exact Or.inr (Or.inl ⟨rfl, h1⟩)
        · exact Or.inl h
        · exact Or.inr (Or.inr h)
      · rintro (h | ⟨h, _⟩ | h)
        · exact Or.inl (Or.inr h)
        · exact Or.inl (Or.inl h.symm)
        · exact Or.inr h
    · have hstep : (countStep K g c v).singletonScenePoints = c.singletonScenePoints := by
        unfold countStep
        simp only [h1, if_false]
        split <;> rfl
      rw [hstep]
      simp only [List.mem_cons, exists_eq_or_imp]
      constructor
      · rintro (h | h)
        · exact Or.inl h
        · exact Or.inr (Or.inr h)
      · rintro (h | ⟨h, h2⟩ | h)
        · exact Or.inl h
        · subst h; exact absurd h2 h1
        · exact Or.inr h

theorem featureBlock_tracked {Mat Vec : Type} (K : Point3DFeatureFlags) (g : SparseGraph Mat Vec)
    (w : ℚ) (vs : List (Nat × Nat × Nat)) (b : ResidualBlock)
    (hb : b ∈ vs.filterMap (featureBlock K g w)) :
    ∃ v ∈ vs, 2 < (g.store.features2D (g.store.feature3D v.2.2)).length ∧
      b = .tracked (if isMultiRig K g.store (g.store.feature3D v.2.2) then w else 1)
        (g.cameraId v.2.1) (g.systemPose v.1) (g.store.feature3D v.2.2) v.2.2 := by
  obtain ⟨v, hv, hvb⟩ := List.mem_filterMap.1 hb
  refine ⟨v, hv, ?_⟩
  unfold featureBlock at hvb
  by_cases h1 : (g.store.features2D (g.store.feature3D v.2.2)).length ≤ 2
  · simp [h1] at hvb
  · simp only [h1, if_false, Option.some.injEq] at hvb
    exact ⟨Nat.lt_of_not_le h1, hvb.symm⟩

theorem sum_weight_const (w : ℚ) (l : List ResidualBlock) (h : ∀ b ∈ l, b.weight = w) :
    (l.map ResidualBlock.weight).sum = (l.length : ℚ) * w := by
  induction l with
  | nil => simp
  | cons a rest ih =>
    have ha : a.weight = w := h a (List.mem_cons_self _ _)
    have hr : ∀ b ∈ rest, b.weight = w := fun b hb => h b (List.mem_cons_of_mem _ hb)
    simp only [List.map_cons, List.sum_cons, List.length_cons, ih hr, ha]
    push_cast
    ring

theorem flatMap_enumFrom_length {α β : Type} (F : Nat × α → List β) (G : α → Nat)
    (hF : ∀ i x, (F (i, x)).length = G x) :
    ∀ (l : List α) (k : Nat), ((l.enumFrom k).flatMap F).length = (l.map G).sum := by
  intro l
  induction l with
  | nil => intro k; simp
  | cons a rest ih =>
    intro k
    simp [List.enumFrom_cons, List.flatMap_cons, hF, ih]

theorem addChessboardResiduals_length (chessboard : List (List (List Nat))) (w : ℚ) :
    (addChessboardResiduals chessboard w).length =
      (chessboard.map fun sc => (sc.map List.length).sum).sum := by
  unfold addChessboardResiduals List.enum
  apply flatMap_enumFrom_length
  intro i sc
  apply flatMap_enumFrom_length
  intro j view
  simp

theorem addChessboardResiduals_corner (chessboard : List (List (List Nat))) (w : ℚ)
    (b : ResidualBlock) (hb : b ∈ addChessboardResiduals chessboard w) :
    ∃ i j k, b = .corner w i j k := by
  unfold addChessboardResiduals at hb
  simp only [List.mem_flatMap, List.mem_map] at hb
  obtain ⟨rig, _, view, _, k, _, hk⟩ := hb
  exact ⟨rig.1, view.1, k, hk.symm⟩

theorem countChessboardResiduals_some (chessboard : List (List (List Nat)))
    (hne : ∀ sc ∈ chessboard, sc ≠ []) :
    ∀ n, ∃ m, countChessboardResiduals chessboard n = some m := by
  induction chessboard with
  | nil => intro n; exact ⟨n, rfl⟩
  | cons sc rest ih =>
    intro n
    have hsc : sc ≠ [] := hne sc (List.mem_cons_self _ _)
    cases sc with
    | nil => exact absurd rfl hsc
    | cons first more =>
      simp only [countChessboardResiduals, List.head?_cons]
      exact ih (fun x hx => hne x (List.mem_cons_of_mem _ hx)) _

theorem countChessboardResiduals_uniform (chessboard : List (List (List Nat)))
    (huni : ∀ sc ∈ chessboard, ∀ front, sc.head? = some front →
      ∀ view ∈ sc, view.length = front.length) :
    ∀ n m, countChessboardResiduals chessboard n = some m →
      m = n + (chessboard.map fun sc => (sc.map List.length).sum).sum := by
  induction chessboard with
  | nil =>
    intro n m h
    simp only [countChessboardResiduals, Option.some.injEq] at h
    simp [h]
  | cons sc rest ih =>
    intro n m h
    cases sc with
    | nil => simp [countChessboardResiduals] at h
    | cons first more =>
      simp only [countChessboardResiduals, List.head?_cons] at h
      have hrest := ih (fun x hx => huni x (List.mem_cons_of_mem _ hx)) _ _ h
      have hall : ∀ view ∈ first :: more, view.length = first.length :=
        huni (first :: more) (List.mem_cons_self _ _) first rfl
      have hsum : ∀ l : List (List Nat), (∀ view ∈ l, view.length = first.length) →
          (l.map List.length).sum = l.length * first.length := by
        intro l
        induction l with
        | nil => intro _; simp
        | cons a r ihl =>
          intro hl
          simp only [List.map_cons, List.sum_cons, List.length_cons,
            hl a (List.mem_cons_self _ _), ihl (fun x hx => hl x (List.mem_cons_of_mem _ hx))]
          ring
      rw [hrest, List.map_cons, List.sum_cons, hsum _ hall]
      ring

theorem resetSingletons_some {Mat Vec : Type} (geo : Geometry Mat Vec) (g : SparseGraph Mat Vec)
    (poseMatrix globalCameraPose : Nat → Mat) (l : List Nat)
    (hne : ∀ p ∈ l, g.store.features2D p ≠ []) :
    ∀ point : Nat → Vec, ∃ point1 : Nat → Vec,
      resetSingletons geo g poseMatrix globalCameraPose l point = some point1 ∧
      (∀ p, p ∉ l → point1 p = point p) ∧
      (∀ p ∈ l, ∀ f0, (g.store.features2D p).head? = some f0 →
        point1 p = geo.transformPoint
          (geo.mul (geo.invertHomogeneousTransform
              (poseMatrix (g.systemPose (g.frameSet (g.frame f0)))))
            (globalCameraPose (g.cameraId (g.frame f0))))
          (g.pointFromStereo p)) := by
  induction l with
  | nil => intro point; exact ⟨point, rfl, fun _ _ => rfl, fun p hp => by simp at hp⟩
  | cons a rest ih =>
    intro point
    have ha : g.store.features2D a ≠ [] := hne a (List.mem_cons_self _ _)
    obtain ⟨f, hf⟩ : ∃ f, (g.store.features2D a).head? = some f := by
      cases hfa : g.store.features2D a with
      | nil => exact absurd hfa ha
      | cons x xs => exact ⟨x, rfl⟩
    obtain ⟨point1, h1, h2, h3⟩ := ih (fun p hp => hne p (List.mem_cons_of_mem _ hp))
      (fun p => if p = a then geo.transformPoint
          (geo.mul (geo.invertHomogeneousTransform
              (poseMatrix (g.systemPose (g.frameSet (g.frame f)))))
            (globalCameraPose (g.cameraId (g.frame f))))
          (g.pointFromStereo a) else point p)
    refine ⟨point1, ?_, ?_, ?_⟩
    · simp only [resetSingletons, hf]
      exact h1
    · intro p hp
      have hpa : p ≠ a := fun e => hp (e ▸ List.mem_cons_self _ _)
      have hpr : p ∉ rest := fun e => hp (List.mem_cons_of_mem _ e)
      rw [h2 p hpr]
      simp [hpa]
    · intro p hp f0 hf0
      by_cases hpr : p ∈ rest
      · exact h3 p hpr f0 hf0
      · have hpa : p = a := by
          rcases List.mem_cons.1 hp with h | h
          · exact h
          · exact absurd h hpr
        subst hpa
        rw [hf] at hf0
        have hff : f = f0 := Option.some.inj hf0
        subst hff
        rw [h2 p hpr]
        simp

/-- Under the two conditions that keep `front()` defined, `runFullBA` runs to its
end, and its result is made of the pieces below. -/
theorem runFullBA_some {Mat Vec : Type} (geo : Geometry Mat Vec) (K : Point3DFeatureFlags)
    (solve : List ResidualBlock → SolverVars Mat Vec → SolverVars Mat Vec)
    (cameraCount : Nat) (globalCameraPose : Nat → Mat) (g : SparseGraph Mat Vec)
    (chessboard : List (List (List Nat)))
    (hlist : ∀ v ∈ g.visits, g.store.features2D (g.store.feature3D v.2.2) ≠ [])
    (hne : ∀ sc ∈ chessboard, sc ≠ []) :
    ∃ r n, runFullBA geo K solve cameraCount globalCameraPose g chessboard = some r ∧
      countChessboardResiduals chessboard 0 = some n ∧
      r.counts = countFeatureResiduals K g ∧
      r.problem =
        addFeatureResiduals K g
            (((countFeatureResiduals K g).nFeatureSResiduals : ℚ) /
              ((countFeatureResiduals K g).nFeatureMResiduals : ℚ)) ++
          addChessboardResiduals chessboard
            (((countFeatureResiduals K g).nFeatureSResiduals : ℚ) / (n : ℚ)) ∧
      (∀ i, i < cameraCount →
        r.globalCameraPose i = geo.invertHomogeneousTransform (r.solved.sysCam i)) ∧
      r.graph.poseMatrix = r.solved.poseMatrix ∧
      resetSingletons geo g r.solved.poseMatrix r.globalCameraPose
        r.counts.singletonScenePoints r.solved.point = some r.graph.point ∧
      r.solved = solve r.problem
        { sysCam := fun i => geo.invertHomogeneousTransform (globalCameraPose i)
          poseMatrix := g.poseMatrix
          point := g.point } := by
  obtain ⟨n, hn⟩ := countChessboardResiduals_some chessboard hne 0
  have hsing : ∀ p ∈ (countFeatureResiduals K g).singletonScenePoints,
      g.store.features2D p ≠ [] := by
    intro p hp
    unfold countFeatureResiduals at hp
    rw [countFold_singletons] at hp
    rcases hp with hp | ⟨v, hv, hvp, _⟩
    · simp at hp
    · exact hvp ▸ hlist v hv
  unfold runFullBA
  simp only [hn]
  obtain ⟨point1, hp1, _, _⟩ := resetSingletons_some geo g
    (solve
      (addFeatureResiduals K g
          (((countFeatureResiduals K g).nFeatureSResiduals : ℚ) /
            ((countFeatureResiduals K g).nFeatureMResiduals : ℚ)) ++
        addChessboardResiduals chessboard
          (((countFeatureResiduals K g).nFeatureSResiduals : ℚ) / (n : ℚ)))
      { sysCam := fun i => geo.invertHomogeneousTransform (globalCameraPose i)
        poseMatrix := g.poseMatrix
        point := g.point }).poseMatrix
    (fun i =>
      if i < cameraCount then geo.invertHomogeneousTransform
        ((solve
          (addFeatureResiduals K g
              (((countFeatureResiduals K g).nFeatureSResiduals : ℚ) /
                ((countFeatureResiduals K g).nFeatureMResiduals : ℚ)) ++
            addChessboardResiduals chessboard
              (((countFeatureResiduals K g).nFeatureSResiduals : ℚ) / (n : ℚ)))
          { sysCam := fun i => geo.invertHomogeneousTransform (globalCameraPose i)
            poseMatrix := g.poseMatrix
            point := g.point }).sysCam i)
      else globalCameraPose i)
    (countFeatureResiduals K g).singletonScenePoints hsing
    (solve
      (addFeatureResiduals K g
          (((countFeatureResiduals K g).nFeatureSResiduals : ℚ) /
            ((countFeatureResiduals K g).nFeatureMResiduals : ℚ)) ++
        addChessboardResiduals chessboard
          (((countFeatureResiduals K g).nFeatureSResiduals : ℚ) / (n : ℚ)))
      { sysCam := fun i => geo.invertHomogeneousTransform (globalCameraPose i)
        poseMatrix := g.poseMatrix
        point := g.point }).point
  simp only [hp1]
  refine ⟨_, n, rfl, rfl, rfl, rfl, ?_, rfl, hp1, rfl⟩
  intro i hi
  simp [hi]

/-! ## The duplicate-merge pass of `runPG` -/

/-- C1: in the duplicate-merge pass of `runPG`, for every list of correspondences
and every collection of 2-D features: if before the pass each of these features
links to a scene point whose feature list contains it, the same holds after the
pass. -/
theorem mergePass_keeps_links_listed (s : PointStore) (corr2D3D : List (Nat × Nat))
    (scenePointFlag : Nat) (features : List Nat)
    (h : ∀ g ∈ features, g ∈ s.features2D (s.feature3D g)) :
    ∀ g ∈ features,
      g ∈ (mergePass s corr2D3D scenePointFlag).1.features2D
        ((mergePass s corr2D3D scenePointFlag).1.feature3D g) := by
  intro g hg
  exact mergeLoop_listed scenePointFlag corr2D3D s 0 g (h g hg)

/-- Witness for C1 on the sample store with two correspondences onto the same point. -/
theorem mergePass_keeps_links_listed_witness :
    (∀ g ∈ [0, 1, 2], g ∈ sampleStore.features2D (sampleStore.feature3D g)) ∧
    (∀ g ∈ [0, 1, 2],
      g ∈ (mergePass sampleStore [(0, 12), (1, 12)] 4).1.features2D
        ((mergePass sampleStore [(0, 12), (1, 12)] 4).1.feature3D g)) :=
  ⟨by decide,
    mergePass_keeps_links_listed sampleStore [(0, 12), (1, 12)] 4 [0, 1, 2] (by decide)⟩

/-- C2: when `runPG` processes one correspondence `(f, B)` and `f` links to `A`:
if `A ≠ B`, the feature list of `A` afterwards is its previous list followed by
the features of `B` that were not in it, in the order of `B` and each once, and
its members are those of the two previous lists; if `A = B`, the feature list of
`A` is unchanged. -/
theorem mergeStep_canonical_features (s : PointStore) (f B scenePointFlag : Nat) :
    (s.feature3D f ≠ B →
      (mergeStep s (f, B) scenePointFlag).1.features2D (s.feature3D f) =
          s.features2D (s.feature3D f) ++
            freshFeatures (s.features2D (s.feature3D f)) (s.features2D B) ∧
        (freshFeatures (s.features2D (s.feature3D f)) (s.features2D B)).Nodup ∧
        (freshFeatures (s.features2D (s.feature3D f)) (s.features2D B)).Sublist
          (s.features2D B) ∧
        (∀ x, x ∈ freshFeatures (s.features2D (s.feature3D f)) (s.features2D B) ↔
          x ∈ s.features2D B ∧ x ∉ s.features2D (s.feature3D f)) ∧
        (∀ x, x ∈ (mergeStep s (f, B) scenePointFlag).1.features2D (s.feature3D f) ↔
          x ∈ s.features2D (s.feature3D f) ∨ x ∈ s.features2D B)) ∧
    (s.feature3D f = B →
      (mergeStep s (f, B) scenePointFlag).1.features2D (s.feature3D f) =
        s.features2D (s.feature3D f)) := by
  constructor
  · intro h
    have e := mergeStep_features2D s (f, B) scenePointFlag (s.feature3D f) h
    simp only [if_true] at e
    refine ⟨?_, freshFeatures_nodup _ _, freshFeatures_sublist _ _,
      mem_freshFeatures _ _, ?_⟩
    · rw [e, foldFeatures_fst]
    · intro x
      rw [e, foldFeatures_mem]
  · intro h
    rw [(mergeStep_same s (f, B) scenePointFlag h).1]

/-- Witness for C2: feature 0 links to point 10 and is matched to point 12. -/
theorem mergeStep_canonical_features_witness :
    sampleStore.feature3D 0 ≠ 12 ∧
    (mergeStep sampleStore (0, 12) 4).1.features2D (sampleStore.feature3D 0) =
      sampleStore.features2D (sampleStore.feature3D 0) ++
        freshFeatures (sampleStore.features2D (sampleStore.feature3D 0))
          (sampleStore.features2D 12) :=
  ⟨by decide, ((mergeStep_canonical_features sampleStore 0 12 4).1 (by decide)).1⟩

/-- C3: after `runPG` has processed one correspondence `(f, B)` with canonical
point `A`, the point `f` links to, and `A ≠ B`, every feature in the feature list
of `A`, whether it was there before or came from `B`, links to `A`. -/
theorem mergeStep_relinks_canonical (s : PointStore) (f B scenePointFlag : Nat)
    (h : s.feature3D f ≠ B) :
    (∀ x ∈ (mergeStep s (f, B) scenePointFlag).1.features2D (s.feature3D f),
      (mergeStep s (f, B) scenePointFlag).1.feature3D x = s.feature3D f) ∧
    (∀ x, x ∈ s.features2D (s.feature3D f) ∨ x ∈ s.features2D B →
      (mergeStep s (f, B) scenePointFlag).1.feature3D x = s.feature3D f) := by
  have e := mergeStep_features2D s (f, B) scenePointFlag (s.feature3D f) h
  simp only [if_true] at e
  constructor
  · intro x hx
    rw [e] at hx
    rw [mergeStep_feature3D s (f, B) scenePointFlag x h]
    exact relink_mem _ _ _ _ hx
  · intro x hx
    rw [mergeStep_feature3D s (f, B) scenePointFlag x h]
    exact relink_mem _ _ _ _ ((foldFeatures_mem _ _ _ _).2 hx)

/-- Witness for C3 on the sample store. -/
theorem mergeStep_relinks_canonical_witness :
    sampleStore.feature3D 0 ≠ 12 ∧
    (∀ x ∈ (mergeStep sampleStore (0, 12) 4).1.features2D (sampleStore.feature3D 0),
      (mergeStep sampleStore (0, 12) 4).1.feature3D x = sampleStore.feature3D 0) :=
  ⟨by decide, (mergeStep_relinks_canonical sampleStore 0 12 4 (by decide)).1⟩

/-- C4: for two distinct scene points `A` (linked by `f`) and `B` (linked by `g`),
folding `B` into `A` and folding `A` into `B` give canonical feature lists with
the same members; what differs is which point is canonical: the members link to
`A` in the first case and to `B` in the second. -/
theorem mergeStep_membership_commutes (s : PointStore) (f g scenePointFlag : Nat)
    (h : s.feature3D f ≠ s.feature3D g) :
    (∀ x, x ∈ (mergeStep s (f, s.feature3D g) scenePointFlag).1.features2D (s.feature3D f) ↔
      x ∈ (mergeStep s (g, s.feature3D f) scenePointFlag).1.features2D (s.feature3D g)) ∧
    (∀ x ∈ (mergeStep s (f, s.feature3D g) scenePointFlag).1.features2D (s.feature3D f),
      (mergeStep s (f, s.feature3D g) scenePointFlag).1.feature3D x = s.feature3D f ∧
      (mergeStep s (g, s.feature3D f) scenePointFlag).1.feature3D x = s.feature3D g) := by
  have h2 : s.feature3D g ≠ s.feature3D f := fun e => h e.symm
  have e1 := mergeStep_features2D s (f, s.feature3D g) scenePointFlag (s.feature3D f) h
  have e2 := mergeStep_features2D s (g, s.feature3D f) scenePointFlag (s.feature3D g) h2
  simp only [if_true] at e1 e2
  have hiff : ∀ x, x ∈ (mergeStep s (f, s.feature3D g) scenePointFlag).1.features2D
      (s.feature3D f) ↔
      x ∈ (mergeStep s (g, s.feature3D f) scenePointFlag).1.features2D (s.feature3D g) := by
    intro x
    rw [e1, e2, foldFeatures_mem, foldFeatures_mem]
    exact Or.comm
  refine ⟨hiff, ?_⟩
  intro x hx
  have hx2 := (hiff x).1 hx
  rw [e1] at hx
  rw [e2] at hx2
  constructor
  · rw [mergeStep_feature3D s (f, s.feature3D g) scenePointFlag x h]
    exact relink_mem _ _ _ _ hx
  · rw [mergeStep_feature3D s (g, s.feature3D f) scenePointFlag x h2]
    exact relink_mem _ _ _ _ hx2

/-- Witness for C4: points 10 and 12 of the sample store, linked by features 0 and 2. -/
theorem mergeStep_membership_commutes_witness :
    sampleStore.feature3D 0 ≠ sampleStore.feature3D 2 ∧
    (∀ x, x ∈ (mergeStep sampleStore (0, sampleStore.feature3D 2) 4).1.features2D
        (sampleStore.feature3D 0) ↔
      x ∈ (mergeStep sampleStore (2, sampleStore.feature3D 0) 4).1.features2D
        (sampleStore.feature3D 2)) :=
  ⟨by decide, (mergeStep_membership_commutes sampleStore 0 2 4 (by decide)).1⟩

/-- C5, the code at a failing input: on the sample store, where every point lists
exactly the feature that links to it, the pass over the correspondences
`(0, 12)` and `(1, 12)` ends with point 10 still linked by feature 0 and listing
feature 2, while feature 2 links to point 11. -/
theorem mergePass_reused_point_breaks_symmetry :
    (∀ g ∈ [0, 1, 2],
      g ∈ sampleStore.features2D (sampleStore.feature3D g) ∧
      ∀ x ∈ sampleStore.features2D (sampleStore.feature3D g),
        sampleStore.feature3D x = sampleStore.feature3D g) ∧
    (mergePass sampleStore [(0, 12), (1, 12)] 4).1.feature3D 0 = 10 ∧
    2 ∈ (mergePass sampleStore [(0, 12), (1, 12)] 4).1.features2D 10 ∧
    (mergePass sampleStore [(0, 12), (1, 12)] 4).1.feature3D 2 = 11 := by
  decide

/-- C6: for a correspondence `(f, B)` processed by `runPG`, the canonical point
`A` that `f` links to at that moment gets `attributes := attributes OR
scenePointFlag`, bit by bit the disjunction of the old bit and the flag bit, and
the attributes of every other scene point are unchanged; `processSubGraph` runs
the pass with `OBSERVED_BY_STEREO_RIG_MULTIPLE_TIMES` and `run` runs it with
`OBSERVED_BY_MULTIPLE_STEREO_RIGS`. -/
theorem mergeStep_tags_canonical (K : Point3DFeatureFlags)
    (getCorrespondences2D3D : Nat → Nat → List (Nat × Nat)) (s : PointStore)
    (f B scenePointFlag : Nat) :
    (mergeStep s (f, B) scenePointFlag).1.attributes (s.feature3D f) =
      s.attributes (s.feature3D f) ||| scenePointFlag ∧
    (∀ i, ((mergeStep s (f, B) scenePointFlag).1.attributes (s.feature3D f)).testBit i =
      ((s.attributes (s.feature3D f)).testBit i || scenePointFlag.testBit i)) ∧
    (∀ p, p ≠ s.feature3D f →
      (mergeStep s (f, B) scenePointFlag).1.attributes p = s.attributes p) ∧
    processSubGraph K getCorrespondences2D3D s =
      mergePass s (getCorrespondences2D3D 50 10) K.OBSERVED_BY_STEREO_RIG_MULTIPLE_TIMES ∧
    runGlobalPG K getCorrespondences2D3D s =
      mergePass s (getCorrespondences2D3D 15 30) K.OBSERVED_BY_MULTIPLE_STEREO_RIGS := by
  refine ⟨?_, ?_, ?_, rfl, rfl⟩
  · rw [mergeStep_attributes]; simp
  · intro i
    rw [mergeStep_attributes]; simp [Nat.testBit_lor]
  · intro p hp
    rw [mergeStep_attributes]; simp [hp]

/-! ## The residual weights and the singleton reset of `runFullBA` -/

theorem filter_single_corner (K : Point3DFeatureFlags) (s : PointStore)
    (chessboard : List (List (List Nat))) (w : ℚ) :
    (addChessboardResiduals chessboard w).filter (singleRigBlock K s) = [] := by
  rw [List.filter_eq_nil_iff]
  intro b hb
  obtain ⟨i, j, k, e⟩ := addChessboardResiduals_corner chessboard w b hb
  simp [e, singleRigBlock]

theorem filter_multi_corner (K : Point3DFeatureFlags) (s : PointStore)
    (chessboard : List (List (List Nat))) (w : ℚ) :
    (addChessboardResiduals chessboard w).filter (multiRigBlock K s) = [] := by
  rw [List.filter_eq_nil_iff]
  intro b hb
  obtain ⟨i, j, k, e⟩ := addChessboardResiduals_corner chessboard w b hb
  simp [e, multiRigBlock]

theorem filter_corner_feature {Mat Vec : Type} (K : Point3DFeatureFlags)
    (g : SparseGraph Mat Vec) (w : ℚ) :
    (addFeatureResiduals K g w).filter ResidualBlock.isCorner = [] := by
  rw [List.filter_eq_nil_iff]
  intro b hb
  obtain ⟨v, _, _, e⟩ := featureBlock_tracked K g w _ b hb
  simp [e, ResidualBlock.isCorner]

theorem filter_corner_chessboard (chessboard : List (List (List Nat))) (w : ℚ) :
    (addChessboardResiduals chessboard w).filter ResidualBlock.isCorner =
      addChessboardResiduals chessboard w := by
  rw [List.filter_eq_self]
  intro b hb
  obtain ⟨i, j, k, e⟩ := addChessboardResiduals_corner chessboard w b hb
  simp [e, ResidualBlock.isCorner]

theorem countFeatureResiduals_single {Mat Vec : Type} (K : Point3DFeatureFlags)
    (g : SparseGraph Mat Vec) (w : ℚ) :
    (countFeatureResiduals K g).nFeatureSResiduals =
      ((addFeatureResiduals K g w).filter (singleRigBlock K g.store)).length := by
  unfold countFeatureResiduals addFeatureResiduals
  rw [countFold_single K g w]
  simp

theorem countFeatureResiduals_multi {Mat Vec : Type} (K : Point3DFeatureFlags)
    (g : SparseGraph Mat Vec) (w : ℚ) :
    (countFeatureResiduals K g).nFeatureMResiduals =
      ((addFeatureResiduals K g w).filter (multiRigBlock K g.store)).length := by
  unfold countFeatureResiduals addFeatureResiduals
  rw [countFold_multi K g w]
  simp

theorem mem_problem_single {Mat Vec : Type} (K : Point3DFeatureFlags) (g : SparseGraph Mat Vec)
    (w w2 : ℚ) (chessboard : List (List (List Nat))) (b : ResidualBlock)
    (hb : b ∈ addFeatureResiduals K g w ++ addChessboardResiduals chessboard w2)
    (hs : singleRigBlock K g.store b = true) : b.weight = 1 := by
  rcases List.mem_append.1 hb with h | h
  · obtain ⟨v, _, _, e⟩ := featureBlock_tracked K g w _ b h
    subst e
    simp only [singleRigBlock, Bool.not_eq_true'] at hs
    simp [ResidualBlock.weight, hs]
  · obtain ⟨i, j, k, e⟩ := addChessboardResiduals_corner chessboard w2 b h
    simp [e, singleRigBlock] at hs

theorem mem_problem_multi {Mat Vec : Type} (K : Point3DFeatureFlags) (g : SparseGraph Mat Vec)
    (w w2 : ℚ) (chessboard : List (List (List Nat))) (b : ResidualBlock)
    (hb : b ∈ addFeatureResiduals K g w ++ addChessboardResiduals chessboard w2)
    (hs : multiRigBlock K g.store b = true) : b.weight = w := by
  rcases List.mem_append.1 hb with h | h
  · obtain ⟨v, _, _, e⟩ := featureBlock_tracked K g w _ b h
    subst e
    simp only [multiRigBlock] at hs
    simp [ResidualBlock.weight, hs]
  · obtain ⟨i, j, k, e⟩ := addChessboardResiduals_corner chessboard w2 b h
    simp [e, multiRigBlock] at hs

/-- C7: in `runFullBA` (run on a graph whose linked scene points have non-empty
feature lists and chessboard data with at least one view per rig, so that it runs
to its end), let `N1` and `N2` be the numbers of tracked-feature blocks in the
problem on scene points without and with `OBSERVED_BY_MULTIPLE_STEREO_RIGS`. The
counting pass yields exactly `N1` and `N2`, every single-rig block has weight 1,
every multi-rig block has weight `N1 / N2`, and when `N2 > 0` the weights of the
multi-rig blocks add up to `N1`, as do those of the single-rig blocks. -/
theorem runFullBA_feature_weights {Mat Vec : Type} (geo : Geometry Mat Vec)
    (K : Point3DFeatureFlags)
    (solve : List ResidualBlock → SolverVars Mat Vec → SolverVars Mat Vec)
    (cameraCount : Nat) (globalCameraPose : Nat → Mat) (g : SparseGraph Mat Vec)
    (chessboard : List (List (List Nat)))
    (hlist : ∀ v ∈ g.visits, g.store.features2D (g.store.feature3D v.2.2) ≠ [])
    (hne : ∀ sc ∈ chessboard, sc ≠ []) :
    ∃ r, runFullBA geo K solve cameraCount globalCameraPose g chessboard = some r ∧
      r.counts.nFeatureSResiduals = (r.problem.filter (singleRigBlock K g.store)).length ∧
      r.counts.nFeatureMResiduals = (r.problem.filter (multiRigBlock K g.store)).length ∧
      (∀ b ∈ r.problem, singleRigBlock K g.store b = true → b.weight = 1) ∧
      (∀ b ∈ r.problem, multiRigBlock K g.store b = true →
        b.weight = ((r.problem.filter (singleRigBlock K g.store)).length : ℚ) /
          ((r.problem.filter (multiRigBlock K g.store)).length : ℚ)) ∧
      (0 < (r.problem.filter (multiRigBlock K g.store)).length →
        ((r.problem.filter (multiRigBlock K g.store)).map ResidualBlock.weight).sum =
            ((r.problem.filter (singleRigBlock K g.store)).length : ℚ) ∧
        ((r.problem.filter (singleRigBlock K g.store)).map ResidualBlock.weight).sum =
            ((r.problem.filter (singleRigBlock K g.store)).length : ℚ)) := by
  obtain ⟨r, n, hr, _, hc, hp, _, _, _, _⟩ :=
    runFullBA_some geo K solve cameraCount globalCameraPose g chessboard hlist hne
  have hS : (countFeatureResiduals K g).nFeatureSResiduals =
      (r.problem.filter (singleRigBlock K g.store)).length := by
    rw [hp, List.filter_append, filter_single_corner, List.append_nil]
    exact countFeatureResiduals_single K g _
  have hM : (countFeatureResiduals K g).nFeatureMResiduals =
      (r.problem.filter (multiRigBlock K g.store)).length := by
    rw [hp, List.filter_append, filter_multi_corner, List.append_nil]
    exact countFeatureResiduals_multi K g _
  have hw1 : ∀ b ∈ r.problem, singleRigBlock K g.store b = true → b.weight = 1 := by
    intro b hb hs
    rw [hp] at hb
    exact mem_problem_single K g _ _ chessboard b hb hs
  have hw2 : ∀ b ∈ r.problem, multiRigBlock K g.store b = true →
      b.weight = ((r.problem.filter (singleRigBlock K g.store)).length : ℚ) /
        ((r.problem.filter (multiRigBlock K g.store)).length : ℚ) := by
    intro b hb hs
    rw [← hS, ← hM]
    rw [hp] at hb
    exact mem_problem_multi K g _ _ chessboard b hb hs
  refine ⟨r, hr, hc ▸ hS, hc ▸ hM, hw1, hw2, ?_⟩
  intro hpos
  constructor
  · rw [sum_weight_const _ _ (fun b hb => hw2 b (List.mem_filter.1 hb).1 (List.mem_filter.1 hb).2)]
    have hne0 : ((r.problem.filter (multiRigBlock K g.store)).length : ℚ) ≠ 0 := by
      exact_mod_cast Nat.pos_iff_ne_zero.1 hpos
    field_simp
  · rw [sum_weight_const 1 _ (fun b hb => hw1 b (List.mem_filter.1 hb).1 (List.mem_filter.1 hb).2)]
    simp

/-- Witness for C7 on the sample graph, which has three single-rig and three
multi-rig blocks. -/
theorem runFullBA_feature_weights_witness :
    (∀ v ∈ sampleGraph.visits,
      sampleGraph.store.features2D (sampleGraph.store.feature3D v.2.2) ≠ []) ∧
    (∀ sc ∈ [[[0, 1], [2, 3]]], sc ≠ ([] : List (List Nat))) ∧
    ∃ r, runFullBA sampleGeometry sampleFlags sampleSolve 2 (fun _ => 5) sampleGraph
        [[[0, 1], [2, 3]]] = some r ∧
      r.counts.nFeatureSResiduals =
        (r.problem.filter (singleRigBlock sampleFlags sampleGraph.store)).length ∧
      r.counts.nFeatureMResiduals =
        (r.problem.filter (multiRigBlock sampleFlags sampleGraph.store)).length :=
  ⟨by decide, by decide,
    let ⟨r, h1, h2, h3, _⟩ := runFullBA_feature_weights sampleGeometry sampleFlags sampleSolve 2
      (fun _ => 5) sampleGraph [[[0, 1], [2, 3]]] (by decide) (by decide)
    ⟨r, h1, h2, h3⟩⟩

/-- C8, counterexample: one rig whose chessboard data has a view with one corner
and a view with two corners. `runFullBA` adds three corner blocks but counts two
(`2 * 1`); with three single-rig blocks every corner block gets the weight
`3 / 2`, so it is false that every corner block has the weight `N1 / N3 = 3 / 3`.
With two rigs of which the second has no view (one corner overall), `front()` is
taken of an empty vector and no result is defined. -/
theorem runFullBA_chessboard_weight_counterexample :
    runFullBA sampleGeometry sampleFlags sampleSolve 4 (fun _ => 5) sampleGraph
        [[[0]], []] = none ∧
    ∃ r, runFullBA sampleGeometry sampleFlags sampleSolve 2 (fun _ => 5) sampleGraph
        [[[0], [1, 2]]] = some r ∧
      (r.problem.filter (singleRigBlock sampleFlags sampleGraph.store)).length = 3 ∧
      (r.problem.filter ResidualBlock.isCorner).length = 3 ∧
      (∀ b ∈ r.problem, b.isCorner = true → b.weight = 3 / 2) ∧
      ¬ (∀ b ∈ r.problem, b.isCorner = true →
        b.weight =
          ((r.problem.filter (singleRigBlock sampleFlags sampleGraph.store)).length : ℚ) /
            ((r.problem.filter ResidualBlock.isCorner).length : ℚ)) := by
  have hn : (countFeatureResiduals sampleFlags sampleGraph).nFeatureSResiduals = 3 := by decide
  have hw : ∀ b ∈ addFeatureResiduals sampleFlags sampleGraph
        (((countFeatureResiduals sampleFlags sampleGraph).nFeatureSResiduals : ℚ) /
          ((countFeatureResiduals sampleFlags sampleGraph).nFeatureMResiduals : ℚ)) ++
      addChessboardResiduals [[[0], [1, 2]]]
        (((countFeatureResiduals sampleFlags sampleGraph).nFeatureSResiduals : ℚ) /
          ((0 + [[0], [1, 2]].length * [0].length : Nat) : ℚ)),
      b.isCorner = true → b.weight = 3 / 2 := by
    intro b hb hc
    rcases List.mem_append.1 hb with h | h
    · obtain ⟨v, _, _, e⟩ := featureBlock_tracked _ _ _ _ b h
      simp [e, ResidualBlock.isCorner] at hc
    · obtain ⟨i, j, k, e⟩ := addChessboardResiduals_corner _ _ b h
      rw [e, hn]
      norm_num [ResidualBlock.weight]
  have h1 : (List.filter (singleRigBlock sampleFlags sampleGraph.store)
      (addFeatureResiduals sampleFlags sampleGraph
          (((countFeatureResiduals sampleFlags sampleGraph).nFeatureSResiduals : ℚ) /
            ((countFeatureResiduals sampleFlags sampleGraph).nFeatureMResiduals : ℚ)) ++
        addChessboardResiduals [[[0], [1, 2]]]
          (((countFeatureResiduals sampleFlags sampleGraph).nFeatureSResiduals : ℚ) /
            ((0 + [[0], [1, 2]].length * [0].length : Nat) : ℚ)))).length = 3 := by decide
  have h3 : (List.filter ResidualBlock.isCorner
      (addFeatureResiduals sampleFlags sampleGraph
          (((countFeatureResiduals sampleFlags sampleGraph).nFeatureSResiduals : ℚ) /
            ((countFeatureResiduals sampleFlags sampleGraph).nFeatureMResiduals : ℚ)) ++
        addChessboardResiduals [[[0], [1, 2]]]
          (((countFeatureResiduals sampleFlags sampleGraph).nFeatureSResiduals : ℚ) /
            ((0 + [[0], [1, 2]].length * [0].length : Nat) : ℚ)))).length = 3 := by decide
  refine ⟨rfl, _, rfl, h1, h3, hw, ?_⟩
  intro hall
  obtain ⟨b, hb⟩ := List.exists_mem_of_length_pos (by rw [h3]; decide :
    0 < (List.filter ResidualBlock.isCorner
      (addFeatureResiduals sampleFlags sampleGraph
          (((countFeatureResiduals sampleFlags sampleGraph).nFeatureSResiduals : ℚ) /
            ((countFeatureResiduals sampleFlags sampleGraph).nFeatureMResiduals : ℚ)) ++
        addChessboardResiduals [[[0], [1, 2]]]
          (((countFeatureResiduals sampleFlags sampleGraph).nFeatureSResiduals : ℚ) /
            ((0 + [[0], [1, 2]].length * [0].length : Nat) : ℚ)))).length)
  have hm := (List.mem_filter.1 hb).1
  have hc := (List.mem_filter.1 hb).2
  have e1 := hw b hm hc
  have e2 := hall b hm hc
  rw [e1] at e2
  change (3 : ℚ) / 2 = ((List.filter (singleRigBlock sampleFlags sampleGraph.store)
      (addFeatureResiduals sampleFlags sampleGraph
          (((countFeatureResiduals sampleFlags sampleGraph).nFeatureSResiduals : ℚ) /
            ((countFeatureResiduals sampleFlags sampleGraph).nFeatureMResiduals : ℚ)) ++
        addChessboardResiduals [[[0], [1, 2]]]
          (((countFeatureResiduals sampleFlags sampleGraph).nFeatureSResiduals : ℚ) /
            ((0 + [[0], [1, 2]].length * [0].length : Nat) : ℚ)))).length : ℚ) /
    ((List.filter ResidualBlock.isCorner
      (addFeatureResiduals sampleFlags sampleGraph
          (((countFeatureResiduals sampleFlags sampleGraph).nFeatureSResiduals : ℚ) /
            ((countFeatureResiduals sampleFlags sampleGraph).nFeatureMResiduals : ℚ)) ++
        addChessboardResiduals [[[0], [1, 2]]]
          (((countFeatureResiduals sampleFlags sampleGraph).nFeatureSResiduals : ℚ) /
            ((0 + [[0], [1, 2]].length * [0].length : Nat) : ℚ)))).length : ℚ) at e2
  rw [h1, h3] at e2
  norm_num at e2

/-- C8, amended: when every rig's chessboard data has at least one view and every
view of a rig has as many corners as the rig's first view (and the linked scene
points have non-empty feature lists, so that `runFullBA` runs to its end), each
chessboard-corner block has the weight `N1 / N3`, with `N1` the number of
single-rig tracked-feature blocks and `N3` the number of chessboard-corner
blocks in the problem. -/
theorem runFullBA_chessboard_weight_uniform {Mat Vec : Type} (geo : Geometry Mat Vec)
    (K : Point3DFeatureFlags)
    (solve : List ResidualBlock → SolverVars Mat Vec → SolverVars Mat Vec)
    (cameraCount : Nat) (globalCameraPose : Nat → Mat) (g : SparseGraph Mat Vec)
    (chessboard : List (List (List Nat)))
    (hlist : ∀ v ∈ g.visits, g.store.features2D (g.store.feature3D v.2.2) ≠ [])
    (hne : ∀ sc ∈ chessboard, sc ≠ [])
    (huni : ∀ sc ∈ chessboard, ∀ front, sc.head? = some front →
      ∀ view ∈ sc, view.length = front.length) :
    ∃ r, runFullBA geo K solve cameraCount globalCameraPose g chessboard = some r ∧
      r.nChessboardResiduals = (r.problem.filter ResidualBlock.isCorner).length ∧
      ∀ b ∈ r.problem, b.isCorner = true →
        b.weight = ((r.problem.filter (singleRigBlock K g.store)).length : ℚ) /
          ((r.problem.filter ResidualBlock.isCorner).length : ℚ) := by
  obtain ⟨r, n, hr, hn, _, hp, _, _, _, _⟩ :=
    runFullBA_some geo K solve cameraCount globalCameraPose g chessboard hlist hne
  have hrn : r.nChessboardResiduals = n := by
    unfold runFullBA at hr
    simp only [hn] at hr
    split at hr
    · exact absurd hr (by simp)
    · rw [← Option.some.inj hr]
  have hN3 : (r.problem.filter ResidualBlock.isCorner).length = n := by
    rw [hp, List.filter_append, filter_corner_feature, List.nil_append,
      filter_corner_chessboard, addChessboardResiduals_length,
      countChessboardResiduals_uniform chessboard huni 0 n hn]
    simp
  have hN1 : (r.problem.filter (singleRigBlock K g.store)).length =
      (countFeatureResiduals K g).nFeatureSResiduals := by
    rw [hp, List.filter_append, filter_single_corner, List.append_nil]
    exact (countFeatureResiduals_single K g _).symm
  refine ⟨r, hr, hrn.trans hN3.symm, ?_⟩
  intro b hb hc
  rw [hN1, hN3]
  rw [hp] at hb
  rcases List.mem_append.1 hb with h | h
  · obtain ⟨v, _, _, e⟩ := featureBlock_tracked K g _ _ b h
    simp [e, ResidualBlock.isCorner] at hc
  · obtain ⟨i, j, k, e⟩ := addChessboardResiduals_corner _ _ b h
    rw [e]
    rfl

/-- Witness for the amended C8: one rig, two views of two corners each. -/
theorem runFullBA_chessboard_weight_uniform_witness :
    (∀ v ∈ sampleGraph.visits,
      sampleGraph.store.features2D (sampleGraph.store.feature3D v.2.2) ≠ []) ∧
    (∀ sc ∈ [[[0, 1], [2, 3]]], sc ≠ ([] : List (List Nat))) ∧
    (∀ sc ∈ [[[0, 1], [2, 3]]], ∀ front : List Nat, sc.head? = some front →
      ∀ view ∈ sc, view.length = front.length) ∧
    ∃ r, runFullBA sampleGeometry sampleFlags sampleSolve 2 (fun _ => 5) sampleGraph
        [[[0, 1], [2, 3]]] = some r ∧
      r.nChessboardResiduals = (r.problem.filter ResidualBlock.isCorner).length ∧
      ∀ b ∈ r.problem, b.isCorner = true →
        b.weight =
          ((r.problem.filter (singleRigBlock sampleFlags sampleGraph.store)).length : ℚ) /
            ((r.problem.filter ResidualBlock.isCorner).length : ℚ) :=
  have huni : ∀ sc ∈ [[[0, 1], [2, 3]]], ∀ front : List Nat, sc.head? = some front →
      ∀ view ∈ sc, view.length = front.length := by
    intro sc hsc front hf view hv
    simp only [List.mem_singleton] at hsc
    subst hsc
    simp only [List.head?_cons, Option.some.injEq] at hf
    subst hf
    simp only [List.mem_cons, List.mem_singleton, List.not_mem_nil, or_false] at hv
    rcases hv with h | h <;> subst h <;> rfl
  ⟨by decide, by decide, huni,
    runFullBA_chessboard_weight_uniform sampleGeometry sampleFlags sampleSolve 2 (fun _ => 5)
      sampleGraph [[[0, 1], [2, 3]]] (by decide) (by decide) huni⟩

/-- C9: in `runFullBA` (run on a graph whose linked scene points have non-empty
feature lists and chessboard data with at least one view per rig), the camera
poses are written back from the optimised transforms, and for every scene point
linked by a feature of the graph whose feature list has at most 2 entries: no
residual block uses its position, it is recorded as a singleton, and its final
position is `pointFromStereo` transformed by
`inverse(systemPose) * globalCameraPose(cameraId)` of the frame of its first
feature, taken with the optimised system pose and the written-back camera pose.
A point with more than 2 features is not recorded and keeps the position the
solver returned. -/
theorem runFullBA_singleton_reset {Mat Vec : Type} (geo : Geometry Mat Vec)
    (K : Point3DFeatureFlags)
    (solve : List ResidualBlock → SolverVars Mat Vec → SolverVars Mat Vec)
    (cameraCount : Nat) (globalCameraPose : Nat → Mat) (g : SparseGraph Mat Vec)
    (chessboard : List (List (List Nat)))
    (hlist : ∀ v ∈ g.visits, g.store.features2D (g.store.feature3D v.2.2) ≠ [])
    (hne : ∀ sc ∈ chessboard, sc ≠ []) :
    ∃ r, runFullBA geo K solve cameraCount globalCameraPose g chessboard = some r ∧
      r.solved = solve r.problem
        { sysCam := fun i => geo.invertHomogeneousTransform (globalCameraPose i)
          poseMatrix := g.poseMatrix
          point := g.point } ∧
      (∀ i, i < cameraCount →
        r.globalCameraPose i = geo.invertHomogeneousTransform (r.solved.sysCam i)) ∧
      r.graph.poseMatrix = r.solved.poseMatrix ∧
      (∀ v ∈ g.visits, (g.store.features2D (g.store.feature3D v.2.2)).length ≤ 2 →
        (∀ b ∈ r.problem, b.usesPoint (g.store.feature3D v.2.2) = false) ∧
        g.store.feature3D v.2.2 ∈ r.counts.singletonScenePoints ∧
        ∃ f0, (g.store.features2D (g.store.feature3D v.2.2)).head? = some f0 ∧
          r.graph.point (g.store.feature3D v.2.2) =
            geo.transformPoint
              (geo.mul
                (geo.invertHomogeneousTransform
                  (r.graph.poseMatrix (g.systemPose (g.frameSet (g.frame f0)))))
                (r.globalCameraPose (g.cameraId (g.frame f0))))
              (g.pointFromStereo (g.store.feature3D v.2.2))) ∧
      (∀ q, 2 < (g.store.features2D q).length →
        q ∉ r.counts.singletonScenePoints ∧ r.graph.point q = r.solved.point q) := by
  obtain ⟨r, n, hr, _, hc, hp, hcam, hpose, hreset, hsolved⟩ :=
    runFullBA_some geo K solve cameraCount globalCameraPose g chessboard hlist hne
  have hmem : ∀ p, p ∈ r.counts.singletonScenePoints ↔
      ∃ v ∈ g.visits, g.store.feature3D v.2.2 = p ∧ (g.store.features2D p).length ≤ 2 := by
    intro p
    rw [hc]
    unfold countFeatureResiduals
    rw [countFold_singletons]
    simp
  have hsing : ∀ p ∈ r.counts.singletonScenePoints, g.store.features2D p ≠ [] := by
    intro p hp1
    obtain ⟨v, hv, hvp, _⟩ := (hmem p).1 hp1
    exact hvp ▸ hlist v hv
  obtain ⟨point1, h1, h2, h3⟩ := resetSingletons_some geo g r.solved.poseMatrix
    r.globalCameraPose r.counts.singletonScenePoints hsing r.solved.point
  have hpt : r.graph.point = point1 := Option.some.inj (hreset.symm.trans h1)
  refine ⟨r, hr, hsolved, hcam, hpose, ?_, ?_⟩
  · intro v hv hlen
    have hin : g.store.feature3D v.2.2 ∈ r.counts.singletonScenePoints :=
      (hmem _).2 ⟨v, hv, rfl, hlen⟩
    refine ⟨?_, hin, ?_⟩
    · intro b hb
      rw [hp] at hb
      rcases List.mem_append.1 hb with h | h
      · obtain ⟨v1, _, hlen1, e⟩ := featureBlock_tracked K g _ _ b h
        have hneq : g.store.feature3D v1.2.2 ≠ g.store.feature3D v.2.2 := by
          intro e2
          rw [e2] at hlen1
          omega
        simp [e, ResidualBlock.usesPoint, hneq]
      · obtain ⟨i, j, k, e⟩ := addChessboardResiduals_corner _ _ b h
        simp [e, ResidualBlock.usesPoint]
    · cases hfa : g.store.features2D (g.store.feature3D v.2.2) with
      | nil => exact absurd hfa (hlist v hv)
      | cons x xs =>
        refine ⟨x, rfl, ?_⟩
        rw [hpt, hpose]
        exact h3 _ hin x (by rw [hfa]; rfl)
  · intro q hq
    have hnot : q ∉ r.counts.singletonScenePoints := by
      intro hin
      obtain ⟨_, _, _, hle⟩ := (hmem q).1 hin
      omega
    exact ⟨hnot, by rw [hpt]; exact h2 q hnot⟩

/-- Witness for C9 on the sample graph, whose point 11 has a single feature. -/
theorem runFullBA_singleton_reset_witness :
    (∀ v ∈ sampleGraph.visits,
      sampleGraph.store.features2D (sampleGraph.store.feature3D v.2.2) ≠ []) ∧
    (∀ sc ∈ [[[0, 1], [2, 3]]], sc ≠ ([] : List (List Nat))) ∧
    ∃ r, runFullBA sampleGeometry sampleFlags sampleSolve 2 (fun _ => 5) sampleGraph
        [[[0, 1], [2, 3]]] = some r ∧
      ∀ q, 2 < (sampleGraph.store.features2D q).length →
        q ∉ r.counts.singletonScenePoints ∧ r.graph.point q = r.solved.point q :=
  ⟨by decide, by decide,
    let ⟨r, h1, _, _, _, _, h6⟩ := runFullBA_singleton_reset sampleGeometry sampleFlags
      sampleSolve 2 (fun _ => 5) sampleGraph [[[0, 1], [2, 3]]] (by decide) (by decide)
    ⟨r, h1, h6⟩⟩

/-! ## `runHandEyeCalibration` -/

/-- C10: `runHandEyeCalibration` returns false exactly when there are fewer than 2
stereo rigs, and when it returns false every global camera pose is as before. -/
theorem runHandEyeCalibration_false_iff {Mat Vec : Type} (geo : Geometry Mat Vec)
    (hecSolve : List Mat → List Mat → Mat) (subSparseGraphs : List (SparseGraph Mat Vec))
    (globalCameraPose : Nat → Mat) :
    ((runHandEyeCalibration geo hecSolve subSparseGraphs globalCameraPose).1 = false ↔
      subSparseGraphs.length < 2) ∧
    ((runHandEyeCalibration geo hecSolve subSparseGraphs globalCameraPose).1 = false →
      (runHandEyeCalibration geo hecSolve subSparseGraphs globalCameraPose).2 =
        globalCameraPose) := by
  unfold runHandEyeCalibration
  by_cases h : subSparseGraphs.length < 2
  · simp [h]
  · simp [h]

/-- Witness for C10: a calibration with the single rig of the sample graph. -/
theorem runHandEyeCalibration_false_iff_witness :
    (runHandEyeCalibration sampleGeometry (fun _ _ => 0) [sampleGraph] (fun _ => 5)).1 = false ∧
    (runHandEyeCalibration sampleGeometry (fun _ _ => 0) [sampleGraph] (fun _ => 5)).2 =
      fun _ => 5 :=
  ⟨rfl, (runHandEyeCalibration_false_iff sampleGeometry (fun _ _ => 0) [sampleGraph]
    (fun _ => 5)).2 rfl⟩

/-! ## The hand-eye loop and the relative poses -/

theorem handEyeLoop_other {Mat Vec : Type} (geo : Geometry Mat Vec)
    (hecSolve : List Mat → List Mat → Mat) (H : List (List Mat)) (l : List Nat) :
    ∀ (cam : Nat → Mat) (j : Nat), (∀ i ∈ l, j ≠ i * 2 ∧ j ≠ i * 2 + 1) →
      handEyeLoop geo hecSolve H l cam j = cam j := by
  induction l with
  | nil => intro cam j _; rfl
  | cons i rest ih =>
    intro cam j hj
    have h1 := hj i (List.mem_cons_self _ _)
    simp only [handEyeLoop]
    rw [ih _ j (fun i1 hi1 => hj i1 (List.mem_cons_of_mem _ hi1))]
    simp [setGlobalCameraPose, h1.1, h1.2]

theorem handEyeLoop_rig {Mat Vec : Type} (geo : Geometry Mat Vec)
    (hecSolve : List Mat → List Mat → Mat) (H : List (List Mat)) (l : List Nat) :
    ∀ (cam : Nat → Mat), l.Nodup → ∀ i ∈ l,
      handEyeLoop geo hecSolve H l cam (i * 2) =
          geo.mul (hecSolve (H.getD i []) (H.getD 0 [])) (cam (i * 2)) ∧
        handEyeLoop geo hecSolve H l cam (i * 2 + 1) =
          geo.mul (hecSolve (H.getD i []) (H.getD 0 [])) (cam (i * 2 + 1)) := by
  induction l with
  | nil => intro cam _ i hi; simp at hi
  | cons a rest ih =>
    intro cam hnd i hi
    have hnd1 := List.nodup_cons.1 hnd
    simp only [handEyeLoop]
    by_cases hia : i = a
    · subst hia
      have hfar : ∀ i1 ∈ rest, i * 2 ≠ i1 * 2 ∧ i * 2 ≠ i1 * 2 + 1 := by
        intro i1 hi1
        have : i1 ≠ i := fun e => hnd1.1 (e ▸ hi1)
        omega
      have hfar1 : ∀ i1 ∈ rest, i * 2 + 1 ≠ i1 * 2 ∧ i * 2 + 1 ≠ i1 * 2 + 1 := by
        intro i1 hi1
        have : i1 ≠ i := fun e => hnd1.1 (e ▸ hi1)
        omega
      rw [handEyeLoop_other geo hecSolve H rest _ _ hfar,
        handEyeLoop_other geo hecSolve H rest _ _ hfar1]
      simp [setGlobalCameraPose]
    · have hir : i ∈ rest := by
        rcases List.mem_cons.1 hi with h | h
        · exact absurd h hia
        · exact h
      obtain ⟨h1, h2⟩ := ih
        (setGlobalCameraPose
          (setGlobalCameraPose cam (a * 2)
            (geo.mul (hecSolve (H.getD a []) (H.getD 0 [])) (cam (a * 2))))
          (a * 2 + 1)
          (geo.mul (hecSolve (H.getD a []) (H.getD 0 []))
            (setGlobalCameraPose cam (a * 2)
              (geo.mul (hecSolve (H.getD a []) (H.getD 0 [])) (cam (a * 2))) (a * 2 + 1))))
        hnd1.2 i hir
      rw [h1, h2]
      have e1 : i * 2 ≠ a * 2 := by omega
      have e2 : i * 2 ≠ a * 2 + 1 := by omega
      have e3 : i * 2 + 1 ≠ a * 2 := by omega
      have e4 : i * 2 + 1 ≠ a * 2 + 1 := by omega
      simp [setGlobalCameraPose, e1, e2, e3, e4]

theorem runHandEyeCalibration_rig {Mat Vec : Type} (geo : Geometry Mat Vec)
    (hecSolve : List Mat → List Mat → Mat) (subSparseGraphs : List (SparseGraph Mat Vec))
    (globalCameraPose : Nat → Mat) (h : 2 ≤ subSparseGraphs.length)
    (i : Nat) (g0 gi : SparseGraph Mat Vec) (hi1 : 1 ≤ i)
    (h0 : subSparseGraphs[0]? = some g0) (hgi : subSparseGraphs[i]? = some gi) :
    (runHandEyeCalibration geo hecSolve subSparseGraphs globalCameraPose).2 (i * 2) =
        geo.mul (hecSolve (relativePosesOf geo gi) (relativePosesOf geo g0))
          (globalCameraPose (i * 2)) ∧
      (runHandEyeCalibration geo hecSolve subSparseGraphs globalCameraPose).2 (i * 2 + 1) =
        geo.mul (hecSolve (relativePosesOf geo gi) (relativePosesOf geo g0))
          (globalCameraPose (i * 2 + 1)) := by
  have hlt : ¬ subSparseGraphs.length < 2 := by omega
  have hilt : i < subSparseGraphs.length := by
    by_contra hc
    rw [List.getElem?_eq_none (by omega)] at hgi
    exact Option.noConfusion hgi
  have hmem : i ∈ List.range' 1 (subSparseGraphs.length - 1) := by
    rw [List.mem_range']
    exact ⟨i - 1, by omega, by omega⟩
  have hH : ∀ (k : Nat) (gk : SparseGraph Mat Vec), subSparseGraphs[k]? = some gk →
      (subSparseGraphs.map fun g => computeRelativeSystemPoses geo
        ((g.frameSetSegment 0).map fun fs => g.poseMatrix (g.systemPose fs))).getD k [] =
        relativePosesOf geo gk := by
    intro k gk hk
    rw [List.getD_eq_getElem?_getD, List.getElem?_map, hk]
    rfl
  unfold runHandEyeCalibration
  simp only [hlt, if_false]
  have hr := handEyeLoop_rig geo hecSolve
    (subSparseGraphs.map fun g => computeRelativeSystemPoses geo
      ((g.frameSetSegment 0).map fun fs => g.poseMatrix (g.systemPose fs)))
    (List.range' 1 (subSparseGraphs.length - 1)) globalCameraPose
    (List.nodup_range' 1 _) i hmem
  rw [hH i gi hgi, hH 0 g0 h0] at hr
  exact hr

/-- C11: with `n ≥ 2` rigs, `runHandEyeCalibration` returns true and replaces, for
every rig `i` with `1 ≤ i < n`, the global poses `G` of the cameras `2i` and
`2i + 1` by `H_i_0 * G`, with the same `H_i_0` for both: the solver's result for
the relative-pose sequences of rig `i` and rig 0. The global poses of the cameras
0 and 1, and of every camera from `2n` on, are unchanged. -/
theorem runHandEyeCalibration_applies {Mat Vec : Type} (geo : Geometry Mat Vec)
    (hecSolve : List Mat → List Mat → Mat) (subSparseGraphs : List (SparseGraph Mat Vec))
    (globalCameraPose : Nat → Mat) (h : 2 ≤ subSparseGraphs.length) :
    (runHandEyeCalibration geo hecSolve subSparseGraphs globalCameraPose).1 = true ∧
    (∀ (i : Nat) (g0 gi : SparseGraph Mat Vec), 1 ≤ i →
      subSparseGraphs[0]? = some g0 → subSparseGraphs[i]? = some gi →
      (runHandEyeCalibration geo hecSolve subSparseGraphs globalCameraPose).2 (i * 2) =
          geo.mul (hecSolve (relativePosesOf geo gi) (relativePosesOf geo g0))
            (globalCameraPose (i * 2)) ∧
        (runHandEyeCalibration geo hecSolve subSparseGraphs globalCameraPose).2 (i * 2 + 1) =
          geo.mul (hecSolve (relativePosesOf geo gi) (relativePosesOf geo g0))
            (globalCameraPose (i * 2 + 1))) ∧
    (runHandEyeCalibration geo hecSolve subSparseGraphs globalCameraPose).2 0 =
      globalCameraPose 0 ∧
    (runHandEyeCalibration geo hecSolve subSparseGraphs globalCameraPose).2 1 =
      globalCameraPose 1 ∧
    (∀ j, subSparseGraphs.length * 2 ≤ j →
      (runHandEyeCalibration geo hecSolve subSparseGraphs globalCameraPose).2 j =
        globalCameraPose j) := by
  have hlt : ¬ subSparseGraphs.length < 2 := by omega
  have hother : ∀ j, (j < 2 ∨ subSparseGraphs.length * 2 ≤ j) →
      (runHandEyeCalibration geo hecSolve subSparseGraphs globalCameraPose).2 j =
        globalCameraPose j := by
    intro j hj
    unfold runHandEyeCalibration
    simp only [hlt, if_false]
    apply handEyeLoop_other
    intro i hi
    rw [List.mem_range'] at hi
    obtain ⟨k, hk, e⟩ := hi
    omega
  refine ⟨?_, ?_, hother 0 (Or.inl (by omega)), hother 1 (Or.inl (by omega)),
    fun j hj => hother j (Or.inr hj)⟩
  · unfold runHandEyeCalibration
    simp [hlt]
  · intro i g0 gi hi1 h0 hgi
    exact runHandEyeCalibration_rig geo hecSolve subSparseGraphs globalCameraPose h i g0 gi
      hi1 h0 hgi

/-- Witness for C11: two rigs, both with the sample graph as sub-graph. -/
theorem runHandEyeCalibration_applies_witness :
    2 ≤ [sampleGraph, sampleGraph].length ∧
    (runHandEyeCalibration sampleGeometry (fun _ _ => 1) [sampleGraph, sampleGraph]
      (fun _ => 5)).1 = true :=
  ⟨by decide, (runHandEyeCalibration_applies sampleGeometry (fun _ _ => 1)
    [sampleGraph, sampleGraph] (fun _ => 5) (by decide)).1⟩

/-- C12, counterexample: two rigs whose sub-graphs hold one FrameSet each, so that
rig 1 has an empty relative-pose sequence, and a solver that returns the
transform 1. Rig 1 is not skipped: the pose of its camera 2 goes from 5 to
`1 + 5`. -/
theorem runHandEyeCalibration_short_rig_counterexample :
    (sampleGraph.frameSetSegment 0).length < 2 ∧
    relativePosesOf sampleGeometry sampleGraph = [] ∧
    (runHandEyeCalibration sampleGeometry (fun _ _ => 1) [sampleGraph, sampleGraph]
      (fun _ => 5)).2 2 = 6 ∧
    (runHandEyeCalibration sampleGeometry (fun _ _ => 1) [sampleGraph, sampleGraph]
      (fun _ => 5)).2 2 ≠ (fun _ => 5) 2 := by
  decide

/-- C12, amended: a non-reference rig `i` whose sub-graph holds fewer than 2
FrameSets has an empty relative-pose sequence and is not skipped: the solver is
called with the empty sequence and its result is multiplied from the left onto
the global poses of the cameras `2i` and `2i + 1`. -/
theorem runHandEyeCalibration_short_rig {Mat Vec : Type} (geo : Geometry Mat Vec)
    (hecSolve : List Mat → List Mat → Mat) (subSparseGraphs : List (SparseGraph Mat Vec))
    (globalCameraPose : Nat → Mat) (h : 2 ≤ subSparseGraphs.length)
    (i : Nat) (g0 gi : SparseGraph Mat Vec) (hi1 : 1 ≤ i)
    (h0 : subSparseGraphs[0]? = some g0) (hgi : subSparseGraphs[i]? = some gi)
    (hshort : (gi.frameSetSegment 0).length < 2) :
    relativePosesOf geo gi = [] ∧
    (runHandEyeCalibration geo hecSolve subSparseGraphs globalCameraPose).2 (i * 2) =
        geo.mul (hecSolve [] (relativePosesOf geo g0)) (globalCameraPose (i * 2)) ∧
      (runHandEyeCalibration geo hecSolve subSparseGraphs globalCameraPose).2 (i * 2 + 1) =
        geo.mul (hecSolve [] (relativePosesOf geo g0)) (globalCameraPose (i * 2 + 1)) := by
  have hrel : relativePosesOf geo gi = [] := by
    unfold relativePosesOf computeRelativeSystemPoses
    simp [hshort]
  have hr := runHandEyeCalibration_rig geo hecSolve subSparseGraphs globalCameraPose h i g0 gi
    hi1 h0 hgi
  rw [hrel] at hr
  exact ⟨hrel, hr⟩

/-- Witness for the amended C12: rig 1 of two rigs with one FrameSet each. -/
theorem runHandEyeCalibration_short_rig_witness :
    2 ≤ [sampleGraph, sampleGraph].length ∧ 1 ≤ 1 ∧
    [sampleGraph, sampleGraph][0]? = some sampleGraph ∧
    [sampleGraph, sampleGraph][1]? = some sampleGraph ∧
    (sampleGraph.frameSetSegment 0).length < 2 ∧
    relativePosesOf sampleGeometry sampleGraph = [] :=
  ⟨by decide, by decide, rfl, rfl, by decide,
    (runHandEyeCalibration_short_rig sampleGeometry (fun _ _ => 1) [sampleGraph, sampleGraph]
      (fun _ => 5) (by decide) 1 sampleGraph sampleGraph (by decide) rfl rfl (by decide)).1⟩

theorem relativePosesLoop_length {Mat Vec : Type} (geo : Geometry Mat Vec) (l : List Mat) :
    (relativePosesLoop geo l).length = l.length - 1 := by
  induction l with
  | nil => simp [relativePosesLoop]
  | cons a rest ih =>
    cases rest with
    | nil => simp [relativePosesLoop]
    | cons b r =>
      simp only [relativePosesLoop, List.length_cons, ih]
      simp

theorem relativePosesLoop_getElem {Mat Vec : Type} (geo : Geometry Mat Vec) (l : List Mat) :
    ∀ (i : Nat) (a b : Mat), l[i]? = some a → l[i + 1]? = some b →
      (relativePosesLoop geo l)[i]? =
        some (geo.mul b (geo.invertHomogeneousTransform a)) := by
  induction l with
  | nil => intro i a b h; simp at h
  | cons x rest ih =>
    intro i a b ha hb
    cases rest with
    | nil => simp at hb
    | cons y r =>
      cases i with
      | zero =>
        simp only [List.getElem?_cons_zero, List.getElem?_cons_succ, Option.some.injEq] at ha hb
        subst ha; subst hb
        simp [relativePosesLoop]
      | succ k =>
        simp only [List.getElem?_cons_succ] at ha hb
        simp only [relativePosesLoop, List.getElem?_cons_succ]
        exact ih k a b ha (by simpa using hb)

theorem relativePosesFrom_eq {Mat Vec : Type} (geo : Geometry Mat Vec) (l : List Mat) :
    ∀ (count i : Nat), i + count + 1 = l.length →
      relativePosesFrom geo l count i = some (relativePosesLoop geo (l.drop i)) := by
  intro count
  induction count with
  | zero =>
    intro i hi
    have hlt : i < l.length := by omega
    have hd : l.drop i = [l[i]] := by
      rw [List.drop_eq_getElem_cons hlt, List.drop_eq_nil_of_le (by omega)]
    simp [relativePosesFrom, hd, relativePosesLoop]
  | succ k ih =>
    intro i hi
    have hlt : i < l.length := by omega
    have hlt1 : i + 1 < l.length := by omega
    have hd : l.drop i = l[i] :: l[i + 1] :: l.drop (i + 1 + 1) := by
      rw [List.drop_eq_getElem_cons hlt, List.drop_eq_getElem_cons hlt1]
    have hd1 : l.drop (i + 1) = l[i + 1] :: l.drop (i + 1 + 1) :=
      List.drop_eq_getElem_cons hlt1
    simp only [relativePosesFrom, List.getElem?_eq_getElem hlt, List.getElem?_eq_getElem hlt1,
      ih (i + 1) (by omega)]
    rw [hd, relativePosesLoop, ← hd1]

theorem sizeSub_one (n : Nat) (h1 : 1 ≤ n) (h2 : n < 2 ^ 64) : sizeSub n 1 = n - 1 := by
  unfold sizeSub
  have e1 : n % 2 ^ 64 = n := Nat.mod_eq_of_lt h2
  have e2 : 1 % 2 ^ 64 = 1 := by norm_num
  rw [e1, e2]
  have e3 : n + 2 ^ 64 - 1 = (n - 1) + 2 ^ 64 := by omega
  rw [e3, Nat.add_mod_right]
  exact Nat.mod_eq_of_lt (by omega)

/-- C13: on a sequence of `n` FrameSets `computeRelativeSystemPoses` returns the
empty sequence when `n < 2`; otherwise it returns exactly `n - 1` transforms,
the `i`-th being `matrix(Pose[i+1]) * inverse(matrix(Pose[i]))`. Written with
`size_t` arithmetic and checked accesses, the function returns the same list
without an exception, and where the loop bound `n - 1` is computed (`n ≥ 2`) it
does not wrap around. -/
theorem computeRelativeSystemPoses_spec {Mat Vec : Type} (geo : Geometry Mat Vec)
    (frameSets : List Mat) :
    (frameSets.length < 2 → computeRelativeSystemPoses geo frameSets = []) ∧
    (2 ≤ frameSets.length →
      (computeRelativeSystemPoses geo frameSets).length = frameSets.length - 1 ∧
      ∀ (i : Nat) (a b : Mat), frameSets[i]? = some a → frameSets[i + 1]? = some b →
        (computeRelativeSystemPoses geo frameSets)[i]? =
          some (geo.mul b (geo.invertHomogeneousTransform a))) ∧
    (frameSets.length < 2 ^ 64 →
      computeRelativeSystemPosesIndexed geo frameSets =
          some (computeRelativeSystemPoses geo frameSets) ∧
        (2 ≤ frameSets.length → sizeSub frameSets.length 1 = frameSets.length - 1)) := by
  refine ⟨?_, ?_, ?_⟩
  · intro h
    simp [computeRelativeSystemPoses, h]
  · intro h
    have hlt : ¬ frameSets.length < 2 := by omega
    simp only [computeRelativeSystemPoses, hlt, if_false]
    exact ⟨relativePosesLoop_length geo frameSets, relativePosesLoop_getElem geo frameSets⟩
  · intro hsize
    refine ⟨?_, fun h => sizeSub_one _ (by omega) hsize⟩
    unfold computeRelativeSystemPosesIndexed computeRelativeSystemPoses
    by_cases h : frameSets.length < 2
    · simp [h]
    · simp only [h, if_false]
      rw [sizeSub_one _ (by omega) hsize,
        relativePosesFrom_eq geo frameSets (frameSets.length - 1) 0 (by omega)]
      simp

/-- Witness for C13: three poses 1, 2, 4 of the sample geometry give the two
relative poses `2 + 1` and `4 + 2`. -/
theorem computeRelativeSystemPoses_spec_witness :
    2 ≤ [1, 2, 4].length ∧ [1, 2, 4].length < 2 ^ 64 ∧
    (computeRelativeSystemPoses sampleGeometry [1, 2, 4]).length = [1, 2, 4].length - 1 ∧
    computeRelativeSystemPosesIndexed sampleGeometry [1, 2, 4] =
      some (computeRelativeSystemPoses sampleGeometry [1, 2, 4]) :=
  ⟨by decide, by decide,
    ((computeRelativeSystemPoses_spec sampleGeometry [1, 2, 4]).2.1 (by decide)).1,
    ((computeRelativeSystemPoses_spec sampleGeometry [1, 2, 4]).2.2 (by decide)).1⟩

/-! ## The recentering step -/

theorem sumTranslations_range (pose : Nat → Matrix4) (l : List Nat) :
    ∀ (origin : Vector3) (k : Fin 3),
      sumTranslations pose l origin k = origin k + (l.map fun i => pose i k.castSucc 3).sum := by
  induction l with
  | nil => intro origin k; simp [sumTranslations]
  | cons a rest ih =>
    intro origin k
    simp only [sumTranslations, ih, List.map_cons, List.sum_cons, Pi.add_apply, translationOf]
    ring

theorem sumTranslations_finset (pose : Nat → Matrix4) (n : Nat) (k : Fin 3) :
    sumTranslations pose (List.range n) 0 k = ∑ i in Finset.range n, pose i k.castSucc 3 := by
  rw [sumTranslations_range]
  simp only [Pi.zero_apply, zero_add]
  induction n with
  | zero => simp
  | succ m ih =>
    rw [List.range_succ, List.map_append, List.sum_append, ih, Finset.sum_range_succ]
    simp

theorem shiftLoop_spec (origin : Vector3) (l : List Nat) :
    ∀ (pose : Nat → Matrix4) (i : Nat), l.Nodup →
      shiftLoop origin l pose i =
        if i ∈ l then subtractTranslation (pose i) origin else pose i := by
  induction l with
  | nil => intro pose i _; simp [shiftLoop]
  | cons a rest ih =>
    intro pose i hnd
    have hnd1 := List.nodup_cons.1 hnd
    simp only [shiftLoop]
    rw [ih _ i hnd1.2]
    by_cases hia : i = a
    · subst hia
      simp [setGlobalCameraPose, hnd1.1]
    · by_cases hir : i ∈ rest
      · simp [setGlobalCameraPose, hia, hir]
      · simp [setGlobalCameraPose, hia, hir]

theorem recenter_apply (n : Nat) (pose : Nat → Matrix4) (i : Nat) :
    recenter n pose i =
      if i < n then
        subtractTranslation (pose i)
          (fun k => (∑ j in Finset.range n, pose j k.castSucc 3) / (n : ℚ))
      else pose i := by
  show shiftLoop _ (List.range n) pose i = _
  rw [shiftLoop_spec _ _ _ _ (List.nodup_range n)]
  simp only [List.mem_range]
  by_cases h : i < n
  · simp only [h, if_true]
    have e : (fun k => sumTranslations pose (List.range n) 0 k / (n : ℚ)) =
        (fun k => (∑ j in Finset.range n, pose j k.castSucc 3) / (n : ℚ)) := by
      funext k
      rw [sumTranslations_finset]
    rw [e]
  · simp [h]

theorem translationOf_subtract (H : Matrix4) (origin : Vector3) (k : Fin 3) :
    translationOf (subtractTranslation H origin) k = H k.castSucc 3 - origin k := by
  have hk : (k.castSucc : Fin 4).val < 3 := by simp
  have h3 : (3 : Fin 4) = 3 := rfl
  unfold translationOf subtractTranslation
  rw [dif_pos ⟨hk, h3⟩]
  rfl

theorem subtractTranslation_other (H : Matrix4) (origin : Vector3) (r c : Fin 4)
    (h : c ≠ 3 ∨ r = 3) : subtractTranslation H origin r c = H r c := by
  unfold subtractTranslation
  have hn : ¬ (r.val < 3 ∧ c = 3) := by
    rintro ⟨h1, h2⟩
    rcases h with h | h
    · exact h h2
    · rw [h] at h1
      exact absurd h1 (by decide)
  rw [dif_neg hn]

theorem subtractTranslation_zero (H : Matrix4) (origin : Vector3) (h : ∀ k, origin k = 0) :
    subtractTranslation H origin = H := by
  funext r c
  unfold subtractTranslation
  split
  · rw [h]; ring
  · rfl

theorem recenter_sum_zero (n : Nat) (pose : Nat → Matrix4) (hn : 0 < n) (k : Fin 3) :
    ∑ j in Finset.range n, recenter n pose j k.castSucc 3 = 0 := by
  have hstep : ∀ j ∈ Finset.range n, recenter n pose j k.castSucc 3 =
      pose j k.castSucc 3 - (∑ i in Finset.range n, pose i k.castSucc 3) / (n : ℚ) := by
    intro j hj
    rw [recenter_apply]
    simp only [Finset.mem_range.1 hj, if_true]
    exact translationOf_subtract _ _ k
  rw [Finset.sum_congr rfl hstep, Finset.sum_sub_distrib, Finset.sum_const, Finset.card_range,
    nsmul_eq_mul]
  have hne : (n : ℚ) ≠ 0 := by exact_mod_cast Nat.pos_iff_ne_zero.1 hn
  field_simp

/-- C17: after the recentering step at the end of `run`, in exact arithmetic and
with at least one camera, the arithmetic mean of the translations of all
cameras' global poses is the zero vector. -/
theorem recenter_centroid_zero (cameraCount : Nat) (globalCameraPose : Nat → Matrix4)
    (h : 0 < cameraCount) :
    ∀ k : Fin 3,
      (∑ j in Finset.range cameraCount,
        translationOf (recenter cameraCount globalCameraPose j) k) / (cameraCount : ℚ) = 0 := by
  intro k
  have e : ∑ j in Finset.range cameraCount,
      translationOf (recenter cameraCount globalCameraPose j) k = 0 :=
    recenter_sum_zero cameraCount globalCameraPose h k
  rw [e]
  simp

/-- Witness for C17: two cameras with constant poses. -/
theorem recenter_centroid_zero_witness :
    0 < 2 ∧
    ∀ k : Fin 3,
      (∑ j in Finset.range 2,
        translationOf (recenter 2 (fun i _ _ => (i : ℚ)) j) k) / ((2 : Nat) : ℚ) = 0 :=
  ⟨by decide, recenter_centroid_zero 2 (fun i _ _ => (i : ℚ)) (by decide)⟩

/-- C18: the recentering step is idempotent: applied to a camera system that has
been recentered (exact arithmetic, at least one camera) it leaves every
camera's global pose unchanged. -/
theorem recenter_idempotent (cameraCount : Nat) (globalCameraPose : Nat → Matrix4)
    (h : 0 < cameraCount) :
    ∀ i, recenter cameraCount (recenter cameraCount globalCameraPose) i =
      recenter cameraCount globalCameraPose i := by
  intro i
  rw [recenter_apply cameraCount (recenter cameraCount globalCameraPose) i]
  by_cases hi : i < cameraCount
  · simp only [hi, if_true]
    apply subtractTranslation_zero
    intro k
    rw [recenter_sum_zero cameraCount globalCameraPose h k]
    simp
  · simp [hi]

/-- Witness for C18: two cameras with constant poses. -/
theorem recenter_idempotent_witness :
    0 < 2 ∧
    ∀ i, recenter 2 (recenter 2 (fun i _ _ => (i : ℚ))) i =
      recenter 2 (fun i _ _ => (i : ℚ)) i :=
  ⟨by decide, recenter_idempotent 2 (fun i _ _ => (i : ℚ)) (by decide)⟩

/-- C19: the recentering step maps the global pose of each camera `i` below
`cameraCount` to the pose with the same rotation block and bottom row and the
translation `t_i - c`, where `c` is the mean of the translations of all cameras
in the poses as they were before the step; every entry outside the translation
column is unchanged, and so is every pose from `cameraCount` on. -/
theorem recenter_frame (cameraCount : Nat) (globalCameraPose : Nat → Matrix4) :
    (∀ i, i < cameraCount → ∀ k : Fin 3,
      translationOf (recenter cameraCount globalCameraPose i) k =
        translationOf (globalCameraPose i) k -
          (∑ j in Finset.range cameraCount, translationOf (globalCameraPose j) k) /
            (cameraCount : ℚ)) ∧
    (∀ i (r c : Fin 4), c ≠ 3 ∨ r = 3 →
      recenter cameraCount globalCameraPose i r c = globalCameraPose i r c) ∧
    (∀ i, cameraCount ≤ i → recenter cameraCount globalCameraPose i = globalCameraPose i) := by
  refine ⟨?_, ?_, ?_⟩
  · intro i hi k
    rw [recenter_apply]
    simp only [hi, if_true]
    exact translationOf_subtract _ _ k
  · intro i r c hrc
    rw [recenter_apply]
    by_cases hi : i < cameraCount
    · simp only [hi, if_true]
      exact subtractTranslation_other _ _ r c hrc
    · simp [hi]
  · intro i hi
    rw [recenter_apply]
    have : ¬ i < cameraCount := by omega
    simp [this]

/-! ## `processFrames` -/

/-- C20: `processFrames` returns false exactly when the `readFrames` of some rig
fails or the worker of some rig produces no FrameSet, and whenever it returns
false every sub-graph segment is as it was before the call. -/
theorem processFrames_false (readFrames : Nat → Bool) (worker : Nat → Option Nat)
    (correspondenceCount : Nat → Int) (subSegments : List (List Nat)) :
    ((processFrames readFrames worker correspondenceCount subSegments).1 = false ↔
      (∃ i, i < subSegments.length ∧ readFrames i = false) ∨
        (∃ i, i < subSegments.length ∧ worker i = none)) ∧
    ((processFrames readFrames worker correspondenceCount subSegments).1 = false →
      (processFrames readFrames worker correspondenceCount subSegments).2 = subSegments) := by
  have h1 : (List.range subSegments.length).any (fun i => !readFrames i) = true ↔
      ∃ i, i < subSegments.length ∧ readFrames i = false := by
    simp [List.any_eq_true]
  have h2 : (List.range subSegments.length).any (fun i => (worker i).isNone) = true ↔
      ∃ i, i < subSegments.length ∧ worker i = none := by
    simp [List.any_eq_true]
  have htail : ∀ (r : List (List Nat) × Bool) (b : Bool) (x : List (List Nat)),
      (if r.2 = true then (true, r.1) else if b = true then (true, x) else (true, r.1)).1 =
        true := by
    intro r b x
    split
    · rfl
    · split <;> rfl
  unfold processFrames
  cases c1 : (List.range subSegments.length).any (fun i => !readFrames i)
  · cases c2 : (List.range subSegments.length).any (fun i => (worker i).isNone)
    · have n1 : ¬ ∃ i, i < subSegments.length ∧ readFrames i = false := by
        intro e
        rw [h1.2 e] at c1
        exact Bool.noConfusion c1
      have n2 : ¬ ∃ i, i < subSegments.length ∧ worker i = none := by
        intro e
        rw [h2.2 e] at c2
        exact Bool.noConfusion c2
      simp only [Bool.false_eq_true, if_false]
      rw [htail]
      constructor
      · constructor
        · intro hf
          exact Bool.noConfusion hf
        · rintro (e | e)
          · exact absurd e n1
          · exact absurd e n2
      · intro hf
        exact Bool.noConfusion hf
    · simp only [Bool.false_eq_true, if_false, if_true, true_iff, forall_true_left, and_true]
      exact Or.inr (h2.1 c2)
  · simp only [if_true, true_iff, forall_true_left, and_true]
    exact Or.inl (h1.1 c1)

/-- Witness for C20: the `readFrames` of rig 1 fails. -/
theorem processFrames_false_witness :
    (processFrames (fun i => i == 0) (fun i => some (i + 7)) (fun _ => 30) [[3], [4]]).1 = false ∧
    (processFrames (fun i => i == 0) (fun i => some (i + 7)) (fun _ => 30) [[3], [4]]).2 =
      [[3], [4]] :=
  ⟨by decide, (processFrames_false (fun i => i == 0) (fun i => some (i + 7)) (fun _ => 30)
    [[3], [4]]).2 (by decide)⟩

/-! ## Lemmas on `mergeMaps` -/

theorem pushFrameSet_getD (segments : List (List Nat)) (dst : Nat) :
    (pushFrameSet segments dst).getD 0 [] = segments.getD 0 [] ++ [dst] := by
  cases segments with
  | nil => rfl
  | cons a rest => rfl

theorem insertScenePoints_mem (s : PointStore) (fs : List Nat) :
    ∀ (pts : List Nat) (p : Nat),
      p ∈ insertScenePoints s fs pts ↔ p ∈ pts ∨ ∃ f ∈ fs, s.feature3D f = p := by
  induction fs with
  | nil => intro pts p; simp [insertScenePoints]
  | cons a rest ih =>
    intro pts p
    simp only [insertScenePoints, ih, List.mem_insert_iff, List.mem_cons, exists_eq_or_imp]
    constructor
    · rintro ((h | h) | h)
      · exact Or.inr (Or.inl h.symm)
      · exact Or.inl h
      · exact Or.inr (Or.inr h)
    · rintro (h | h | h)
      · exact Or.inl (Or.inr h)
      · exact Or.inl (Or.inl h.symm)
      · exact Or.inr h

theorem adoptFrameSet_frames {Mat Vec : Type} (st : MapState Mat Vec) (src fs : Nat)
    (h : src ≠ st.nextFrameSet) :
    (adoptFrameSet st src).graph.frames fs =
      if fs = st.nextFrameSet then st.graph.frames src else st.graph.frames fs := by
  by_cases hfs : fs = st.nextFrameSet
  · simp [adoptFrameSet, h, hfs]
  · simp [adoptFrameSet, h, hfs]

theorem adoptFrameSet_frames_below {Mat Vec : Type} (st : MapState Mat Vec) (src fs : Nat)
    (h : fs < st.nextFrameSet) :
    (adoptFrameSet st src).graph.frames fs = st.graph.frames fs ∧
      (adoptFrameSet st src).graph.systemPose fs = st.graph.systemPose fs := by
  have hne : fs ≠ st.nextFrameSet := by omega
  simp [adoptFrameSet, hne]

theorem adoptFrameSet_frameSet {Mat Vec : Type} (st : MapState Mat Vec) (src : Nat)
    (h : src ≠ st.nextFrameSet) :
    (adoptFrameSet st src).graph.frameSet =
      relink st.graph.frameSet (st.graph.frames src) st.nextFrameSet := by
  simp [adoptFrameSet, h]

theorem adoptLoop_next {Mat Vec : Type} (seg : List Nat) :
    ∀ st : MapState Mat Vec,
      (adoptLoop seg st).nextFrameSet = st.nextFrameSet + seg.length ∧
      (adoptLoop seg st).graph.frameSetSegment 0 =
        st.graph.frameSetSegment 0 ++ List.range' st.nextFrameSet seg.length := by
  induction seg with
  | nil => intro st; simp [adoptLoop]
  | cons src rest ih =>
    intro st
    obtain ⟨h1, h2⟩ := ih (adoptFrameSet st src)
    simp only [adoptLoop, h1, h2]
    constructor
    · simp only [adoptFrameSet, List.length_cons]
      omega
    · have e : (adoptFrameSet st src).graph.frameSetSegment 0 =
          st.graph.frameSetSegment 0 ++ [st.nextFrameSet] :=
        pushFrameSet_getD _ _
      have e2 : (adoptFrameSet st src).nextFrameSet = st.nextFrameSet + 1 := rfl
      rw [e, e2, List.length_cons, List.range'_succ]
      simp

theorem adoptLoop_below {Mat Vec : Type} (seg : List Nat) :
    ∀ (st : MapState Mat Vec) (fs : Nat), fs < st.nextFrameSet →
      (adoptLoop seg st).graph.frames fs = st.graph.frames fs ∧
      (adoptLoop seg st).graph.systemPose fs = st.graph.systemPose fs := by
  induction seg with
  | nil => intro st fs _; simp [adoptLoop]
  | cons src rest ih =>
    intro st fs h
    have hn : fs < (adoptFrameSet st src).nextFrameSet := by
      show fs < st.nextFrameSet + 1
      omega
    obtain ⟨h1, h2⟩ := ih (adoptFrameSet st src) fs hn
    obtain ⟨h3, h4⟩ := adoptFrameSet_frames_below st src fs h
    simp only [adoptLoop, h1, h2, h3, h4, and_self]

theorem adoptLoop_same {Mat Vec : Type} (seg : List Nat) :
    ∀ st : MapState Mat Vec,
      (adoptLoop seg st).graph.poseMatrix = st.graph.poseMatrix ∧
      (adoptLoop seg st).graph.cameraId = st.graph.cameraId ∧
      (adoptLoop seg st).graph.frameFeatures2D = st.graph.frameFeatures2D ∧
      (adoptLoop seg st).graph.frame = st.graph.frame ∧
      (adoptLoop seg st).graph.store = st.graph.store ∧
      (adoptLoop seg st).graph.point = st.graph.point ∧
      (adoptLoop seg st).graph.pointFromStereo = st.graph.pointFromStereo := by
  induction seg with
  | nil => intro st; simp [adoptLoop]
  | cons src rest ih =>
    intro st
    simp only [adoptLoop]
    exact ih (adoptFrameSet st src)

theorem adoptLoop_at {Mat Vec : Type} (N0 : Nat) (seg : List Nat) :
    ∀ (st : MapState Mat Vec), N0 ≤ st.nextFrameSet → (∀ src ∈ seg, src < N0) →
      ∀ (j src : Nat), seg[j]? = some src →
        (adoptLoop seg st).graph.frames (st.nextFrameSet + j) = st.graph.frames src ∧
        (adoptLoop seg st).graph.systemPose (st.nextFrameSet + j) = st.graph.systemPose src := by
  induction seg with
  | nil => intro st _ _ j src h; simp at h
  | cons a rest ih =>
    intro st hN hsrc j src hj
    have ha : a < N0 := hsrc a (List.mem_cons_self _ _)
    have hne : a ≠ st.nextFrameSet := by omega
    simp only [adoptLoop]
    cases j with
    | zero =>
      simp only [List.getElem?_cons_zero, Option.some.injEq] at hj
      subst hj
      have hlt : st.nextFrameSet < (adoptFrameSet st a).nextFrameSet := by
        show st.nextFrameSet < st.nextFrameSet + 1
        omega
      obtain ⟨h1, h2⟩ := adoptLoop_below rest (adoptFrameSet st a) st.nextFrameSet hlt
      rw [Nat.add_zero, h1, h2, adoptFrameSet_frames st a _ hne]
      simp [adoptFrameSet]
    | succ k =>
      simp only [List.getElem?_cons_succ] at hj
      have hsk : src < N0 := by
        have hm : src ∈ rest := by
          rw [List.mem_iff_getElem?]
          exact ⟨k, hj⟩
        exact hsrc src (List.mem_cons_of_mem _ hm)
      have hN1 : N0 ≤ (adoptFrameSet st a).nextFrameSet := by
        show N0 ≤ st.nextFrameSet + 1
        omega
      obtain ⟨h1, h2⟩ := ih (adoptFrameSet st a) hN1
        (fun x hx => hsrc x (List.mem_cons_of_mem _ hx)) k src hj
      have e : st.nextFrameSet + (k + 1) = (adoptFrameSet st a).nextFrameSet + k := by
        show st.nextFrameSet + (k + 1) = st.nextFrameSet + 1 + k
        omega
      obtain ⟨h3, h4⟩ := adoptFrameSet_frames_below st a src (by omega)
      rw [e, h1, h2, h3, h4]
      exact ⟨rfl, rfl⟩

theorem adoptLoop_frameSet_other {Mat Vec : Type} (N0 : Nat) (F : Nat → List Nat)
    (seg : List Nat) :
    ∀ (st : MapState Mat Vec), N0 ≤ st.nextFrameSet →
      (∀ fs, fs < N0 → st.graph.frames fs = F fs) → (∀ src ∈ seg, src < N0) →
      ∀ fr, (∀ src ∈ seg, fr ∉ F src) →
        (adoptLoop seg st).graph.frameSet fr = st.graph.frameSet fr := by
  induction seg with
  | nil => intro st _ _ _ fr _; rfl
  | cons a rest ih =>
    intro st hN hF hsrc fr hfr
    have ha : a < N0 := hsrc a (List.mem_cons_self _ _)
    have hne : a ≠ st.nextFrameSet := by omega
    have hN1 : N0 ≤ (adoptFrameSet st a).nextFrameSet := by
      show N0 ≤ st.nextFrameSet + 1
      omega
    have hF1 : ∀ fs, fs < N0 → (adoptFrameSet st a).graph.frames fs = F fs := by
      intro fs hfs
      rw [(adoptFrameSet_frames_below st a fs (by omega)).1, hF fs hfs]
    simp only [adoptLoop]
    rw [ih (adoptFrameSet st a) hN1 hF1 (fun x hx => hsrc x (List.mem_cons_of_mem _ hx)) fr
      (fun x hx => hfr x (List.mem_cons_of_mem _ hx)),
      adoptFrameSet_frameSet st a hne, hF a ha]
    exact relink_not_mem _ _ _ _ (hfr a (List.mem_cons_self _ _))

theorem adoptLoop_frameSet {Mat Vec : Type} (N0 : Nat) (F : Nat → List Nat) (seg : List Nat) :
    ∀ (st : MapState Mat Vec), N0 ≤ st.nextFrameSet →
      (∀ fs, fs < N0 → st.graph.frames fs = F fs) → (∀ src ∈ seg, src < N0) →
      ∀ (j src fr : Nat), seg[j]? = some src → fr ∈ F src →
        (∀ j1 src1, seg[j1]? = some src1 → fr ∈ F src1 → j1 = j) →
        (adoptLoop seg st).graph.frameSet fr = st.nextFrameSet + j := by
  induction seg with
  | nil => intro st _ _ _ j src fr h; simp at h
  | cons a rest ih =>
    intro st hN hF hsrc j src fr hj hfr huniq
    have ha : a < N0 := hsrc a (List.mem_cons_self _ _)
    have hne : a ≠ st.nextFrameSet := by omega
    have hN1 : N0 ≤ (adoptFrameSet st a).nextFrameSet := by
      show N0 ≤ st.nextFrameSet + 1
      omega
    have hF1 : ∀ fs, fs < N0 → (adoptFrameSet st a).graph.frames fs = F fs := by
      intro fs hfs
      rw [(adoptFrameSet_frames_below st a fs (by omega)).1, hF fs hfs]
    have hsrc1 : ∀ x ∈ rest, x < N0 := fun x hx => hsrc x (List.mem_cons_of_mem _ hx)
    simp only [adoptLoop]
    cases j with
    | zero =>
      simp only [List.getElem?_cons_zero, Option.some.injEq] at hj
      subst hj
      have hnot : ∀ x ∈ rest, fr ∉ F x := by
        intro x hx hmem
        obtain ⟨k, hk⟩ := List.mem_iff_getElem?.1 hx
        have := huniq (k + 1) x (by simpa using hk) hmem
        omega
      rw [adoptLoop_frameSet_other N0 F rest (adoptFrameSet st a) hN1 hF1 hsrc1 fr hnot,
        adoptFrameSet_frameSet st a hne, hF a ha]
      exact relink_mem _ _ _ _ hfr
    | succ k =>
      simp only [List.getElem?_cons_succ] at hj
      have hu : ∀ j1 src1, rest[j1]? = some src1 → fr ∈ F src1 → j1 = k := by
        intro j1 src1 h1 h2
        have := huniq (j1 + 1) src1 (by simpa using h1) h2
        omega
      rw [ih (adoptFrameSet st a) hN1 hF1 hsrc1 k src fr hj hfr hu]
      show st.nextFrameSet + 1 + k = st.nextFrameSet + (k + 1)
      omega

theorem contributeFrameSet_eq {Mat Vec : Type} (st : MapState Mat Vec) (j src dst frame : Nat)
    (tl pts : List Nat) (hdst : (st.graph.frameSetSegment 0)[j]? = some dst) (hne : src ≠ dst)
    (hfr : st.graph.frames src = frame :: tl) :
    contributeFrameSet st j src pts =
      some
        ({ st with
            graph :=
              { st.graph with
                frames := fun fs =>
                  if fs = dst then st.graph.frames dst ++ st.graph.frames src
                  else st.graph.frames fs
                frameSet := relink st.graph.frameSet (st.graph.frames src) dst } },
          insertScenePoints st.graph.store (st.graph.frameFeatures2D frame) pts) := by
  unfold contributeFrameSet
  simp only [hdst, hne, if_false, hfr, List.head?_cons]

theorem contributeLoop_spec {Mat Vec : Type} (N0 : Nat) (F : Nat → List Nat) (seg : List Nat) :
    ∀ (j0 : Nat) (st : MapState Mat Vec) (pts : List Nat),
      (∀ fs, fs < N0 → st.graph.frames fs = F fs) →
      (∀ k, k < seg.length → (st.graph.frameSetSegment 0)[j0 + k]? = some (N0 + j0 + k)) →
      (∀ src ∈ seg, src < N0) → (∀ src ∈ seg, F src ≠ []) →
      ∃ (st1 : MapState Mat Vec) (pts1 : List Nat),
        contributeLoop j0 seg (st, pts) = some (st1, pts1) ∧
        (∀ fs, fs < N0 → st1.graph.frames fs = F fs) ∧
        (∀ k src, seg[k]? = some src →
          st1.graph.frames (N0 + j0 + k) = st.graph.frames (N0 + j0 + k) ++ F src) ∧
        (∀ fs, N0 ≤ fs → (fs < N0 + j0 ∨ N0 + j0 + seg.length ≤ fs) →
          st1.graph.frames fs = st.graph.frames fs) ∧
        (∀ fr, (∀ src ∈ seg, fr ∉ F src) → st1.graph.frameSet fr = st.graph.frameSet fr) ∧
        (∀ k src fr, seg[k]? = some src → fr ∈ F src →
          (∀ k1 src1, seg[k1]? = some src1 → fr ∈ F src1 → k1 = k) →
          st1.graph.frameSet fr = N0 + j0 + k) ∧
        (∀ p, p ∈ pts1 ↔ p ∈ pts ∨ ∃ src ∈ seg, ∃ frame, (F src).head? = some frame ∧
          ∃ f ∈ st.graph.frameFeatures2D frame, st.graph.store.feature3D f = p) ∧
        st1 = { st with
          graph := { st.graph with frames := st1.graph.frames, frameSet := st1.graph.frameSet } } := by
  induction seg with
  | nil =>
    intro j0 st pts _ _ _ _
    refine ⟨st, pts, rfl, ?_, ?_, ?_, ?_, ?_, ?_, rfl⟩
    · assumption
    · intro k src h; simp at h
    · intro fs _ _; rfl
    · intro fr _; rfl
    · intro k src fr h; simp at h
    · intro p; simp
  | cons a rest ih =>
    intro j0 st pts hF hseg hsrc hne
    have ha : a < N0 := hsrc a (List.mem_cons_self _ _)
    have hdst : (st.graph.frameSetSegment 0)[j0]? = some (N0 + j0) := by
      have := hseg 0 (by simp)
      simpa using this
    have hane : a ≠ N0 + j0 := by omega
    obtain ⟨frame, tl, hcons⟩ : ∃ frame tl, F a = frame :: tl := by
      cases hfa : F a with
      | nil => exact absurd hfa (hne a (List.mem_cons_self _ _))
      | cons x xs => exact ⟨x, xs, rfl⟩
    have hfr : st.graph.frames a = frame :: tl := by rw [hF a ha, hcons]
    have hstep := contributeFrameSet_eq st j0 a (N0 + j0) frame tl pts hdst hane hfr
    have hF1 : ∀ fs, fs < N0 →
        (if fs = N0 + j0 then st.graph.frames (N0 + j0) ++ st.graph.frames a
          else st.graph.frames fs) = F fs := by
      intro fs hfs
      have : fs ≠ N0 + j0 := by omega
      simp [this, hF fs hfs]
    obtain ⟨st1, pts1, h0, h1, h2, h3, h4, h5, h6, h7⟩ := ih (j0 + 1)
      { st with
        graph :=
          { st.graph with
            frames := fun fs =>
              if fs = N0 + j0 then st.graph.frames (N0 + j0) ++ st.graph.frames a
              else st.graph.frames fs
            frameSet := relink st.graph.frameSet (st.graph.frames a) (N0 + j0) } }
      (insertScenePoints st.graph.store (st.graph.frameFeatures2D frame) pts)
      hF1
      (by
        intro k hk
        have := hseg (k + 1) (by simpa using hk)
        have e1 : j0 + (k + 1) = j0 + 1 + k := by omega
        have e2 : N0 + j0 + (k + 1) = N0 + (j0 + 1) + k := by omega
        rw [e1, e2] at this
        exact this)
      (fun x hx => hsrc x (List.mem_cons_of_mem _ hx))
      (fun x hx => hne x (List.mem_cons_of_mem _ hx))
    refine ⟨st1, pts1, ?_, h1, ?_, ?_, ?_, ?_, ?_, ?_⟩
    · simp only [contributeLoop, hstep]
      exact h0
    · intro k src hk
      cases k with
      | zero =>
        simp only [List.getElem?_cons_zero, Option.some.injEq] at hk
        subst hk
        rw [Nat.add_zero, h3 (N0 + j0) (by omega) (Or.inl (by omega))]
        simp [hF a ha]
      | succ k1 =>
        simp only [List.getElem?_cons_succ] at hk
        have e : N0 + j0 + (k1 + 1) = N0 + (j0 + 1) + k1 := by omega
        rw [e, h2 k1 src hk]
        have hneq : N0 + (j0 + 1) + k1 ≠ N0 + j0 := by omega
        simp [hneq]
    · intro fs hfs hout
      have hlen : (a :: rest).length = rest.length + 1 := rfl
      rw [hlen] at hout
      rw [h3 fs hfs (by omega)]
      have hneq : fs ≠ N0 + j0 := by omega
      simp [hneq]
    · intro fr hfrn
      rw [h4 fr (fun x hx => hfrn x (List.mem_cons_of_mem _ hx))]
      show relink st.graph.frameSet (st.graph.frames a) (N0 + j0) fr = _
      rw [hF a ha]
      exact relink_not_mem _ _ _ _ (hfrn a (List.mem_cons_self _ _))
    · intro k src fr hk hmem huniq
      cases k with
      | zero =>
        simp only [List.getElem?_cons_zero, Option.some.injEq] at hk
        subst hk
        have hnot : ∀ x ∈ rest, fr ∉ F x := by
          intro x hx hm
          obtain ⟨k2, hk2⟩ := List.mem_iff_getElem?.1 hx
          have := huniq (k2 + 1) x (by simpa using hk2) hm
          omega
        rw [h4 fr hnot]
        show relink st.graph.frameSet (st.graph.frames a) (N0 + j0) fr = _
        rw [hF a ha]
        exact relink_mem _ _ _ _ hmem
      | succ k1 =>
        simp only [List.getElem?_cons_succ] at hk
        have hu : ∀ k2 src2, rest[k2]? = some src2 → fr ∈ F src2 → k2 = k1 := by
          intro k2 src2 e1 e2
          have := huniq (k2 + 1) src2 (by simpa using e1) e2
          omega
        rw [h5 k1 src fr hk hmem hu]
        omega
    · intro p
      rw [h6 p, insertScenePoints_mem]
      simp only [List.mem_cons, exists_eq_or_imp, hcons, List.head?_cons, Option.some.injEq]
      constructor
      · rintro ((h | h) | h)
        · exact Or.inl h
        · exact Or.inr (Or.inl ⟨frame, rfl, h⟩)
        · exact Or.inr (Or.inr h)
      · rintro (h | ⟨fr1, e, h⟩ | h)
        · exact Or.inl (Or.inl h)
        · subst e; exact Or.inl (Or.inr h)
        · exact Or.inr h
    · rw [h7]

theorem mergeRig_spec {Mat Vec : Type} (geo : Geometry Mat Vec) (cam : Nat → Mat)
    (N0 : Nat) (F : Nat → List Nat) (seg : List Nat) (st : MapState Mat Vec)
    (hF : ∀ fs, fs < N0 → st.graph.frames fs = F fs)
    (hseg : ∀ k, k < seg.length → (st.graph.frameSetSegment 0)[k]? = some (N0 + k))
    (hsrc : ∀ src ∈ seg, src < N0) (hne : ∀ src ∈ seg, F src ≠ [])
    (hpts : ∀ p, Collects F st.graph seg p → st.graph.store.features2D p ≠ []) :
    ∃ st1 : MapState Mat Vec,
      mergeRig geo cam seg st = some st1 ∧
      (∀ fs, fs < N0 → st1.graph.frames fs = F fs) ∧
      (∀ k, st1.graph.frames (N0 + k) = st.graph.frames (N0 + k) ++ framesAt F seg k) ∧
      (∀ fr, (∀ src ∈ seg, fr ∉ F src) → st1.graph.frameSet fr = st.graph.frameSet fr) ∧
      (∀ k src fr, seg[k]? = some src → fr ∈ F src →
        (∀ k1 src1, seg[k1]? = some src1 → fr ∈ F src1 → k1 = k) →
        st1.graph.frameSet fr = N0 + k) ∧
      (∀ p, ¬ Collects F st.graph seg p → st1.graph.point p = st.graph.point p) ∧
      (∀ p, Collects F st.graph seg p → ∀ f0, (st.graph.store.features2D p).head? = some f0 →
        st1.graph.point p =
          stereoPosition geo st.graph cam (st1.graph.frameSet (st.graph.frame f0)) f0 p) ∧
      SameStatic st.graph st1.graph ∧ st1.nextFrameSet = st.nextFrameSet := by
  obtain ⟨st1, pts1, h0, h1, h2, h3, h4, h5, h6, h7⟩ :=
    contributeLoop_spec N0 F seg 0 st [] hF
      (by intro k hk; simpa using hseg k hk) hsrc hne
  have hcoll : ∀ p, p ∈ pts1 ↔ Collects F st.graph seg p := by
    intro p
    rw [h6 p]
    simp [Collects]
  have hstore : st1.graph.store = st.graph.store := by rw [h7]
  have hne1 : ∀ p ∈ pts1, st1.graph.store.features2D p ≠ [] := by
    intro p hp
    rw [hstore]
    exact hpts p ((hcoll p).1 hp)
  obtain ⟨point1, r1, r2, r3⟩ :=
    resetSingletons_some geo st1.graph st1.graph.poseMatrix cam pts1 hne1 st1.graph.point
  refine ⟨{ st1 with graph := { st1.graph with point := point1 } }, ?_, h1, ?_, h4, ?_, ?_, ?_,
    ?_, ?_⟩
  · unfold mergeRig
    simp only [h0, r1]
  · intro k
    unfold framesAt
    cases hk : seg[k]? with
    | none =>
      have hlen : seg.length ≤ k := by
        by_contra hc
        rw [List.getElem?_eq_getElem (by omega)] at hk
        exact Option.noConfusion hk
      simp only [List.append_nil]
      exact h3 (N0 + k) (by omega) (Or.inr (by omega))
    | some src =>
      have := h2 k src hk
      simpa using this
  · intro k src fr hk hm hu
    have := h5 k src fr hk hm hu
    simpa using this
  · intro p hp
    show point1 p = st.graph.point p
    rw [r2 p (fun hin => hp ((hcoll p).1 hin)), h7]
  · intro p hp f0 hf0
    show point1 p = _
    have hf1 : (st1.graph.store.features2D p).head? = some f0 := by rw [hstore]; exact hf0
    rw [r3 p ((hcoll p).2 hp) f0 hf1]
    unfold stereoPosition
    rw [h7]
  · rw [h7]
    exact ⟨rfl, rfl, rfl, rfl, rfl, rfl, rfl, rfl⟩
  · rw [h7]

theorem Collects_congr {Mat Vec : Type} (F : Nat → List Nat) (g0 g : SparseGraph Mat Vec)
    (h : SameStatic g0 g) (seg : List Nat) (p : Nat) :
    Collects F g seg p ↔ Collects F g0 seg p := by
  obtain ⟨_, _, _, _, hff, _, hs, _⟩ := h
  unfold Collects
  rw [hff, hs]

theorem stereoPosition_congr {Mat Vec : Type} (geo : Geometry Mat Vec)
    (g0 g : SparseGraph Mat Vec) (h : SameStatic g0 g) (cam : Nat → Mat) (fs f0 p : Nat) :
    stereoPosition geo g cam fs f0 p = stereoPosition geo g0 cam fs f0 p := by
  obtain ⟨_, hsp, hpm, hc, _, hfr, _, hpfs⟩ := h
  unfold stereoPosition
  rw [hsp, hpm, hc, hfr, hpfs]

theorem SameStatic_trans {Mat Vec : Type} (g0 g1 g2 : SparseGraph Mat Vec)
    (h1 : SameStatic g0 g1) (h2 : SameStatic g1 g2) : SameStatic g0 g2 := by
  obtain ⟨a1, a2, a3, a4, a5, a6, a7, a8⟩ := h1
  obtain ⟨b1, b2, b3, b4, b5, b6, b7, b8⟩ := h2
  exact ⟨b1.trans a1, b2.trans a2, b3.trans a3, b4.trans a4, b5.trans a5, b6.trans a6,
    b7.trans a7, b8.trans a8⟩

/-- The owner of a frame after the pass of one rig, when the frame lies in
FrameSets of index `k` only. -/
theorem mergeRig_owner {Mat Vec : Type} (N0 : Nat) (F : Nat → List Nat) (seg : List Nat)
    (st st1 : MapState Mat Vec)
    (m3 : ∀ fr, (∀ src ∈ seg, fr ∉ F src) → st1.graph.frameSet fr = st.graph.frameSet fr)
    (m4 : ∀ k src fr, seg[k]? = some src → fr ∈ F src →
      (∀ k1 src1, seg[k1]? = some src1 → fr ∈ F src1 → k1 = k) →
      st1.graph.frameSet fr = N0 + k)
    (fr k : Nat) (hcons : ∀ k1 src1, seg[k1]? = some src1 → fr ∈ F src1 → k1 = k)
    (hown : st.graph.frameSet fr = N0 + k ∨ ∃ src : Nat, seg[k]? = some src ∧ fr ∈ F src) :
    st1.graph.frameSet fr = N0 + k := by
  by_cases hin : ∃ (k1 src1 : Nat), seg[k1]? = some src1 ∧ fr ∈ F src1
  · obtain ⟨k1, src1, h1, h2⟩ := hin
    have e : k1 = k := hcons k1 src1 h1 h2
    subst e
    exact m4 k1 src1 fr h1 h2 hcons
  · have hnot : ∀ src ∈ seg, fr ∉ F src := by
      intro src hs hm
      obtain ⟨k1, hk1⟩ := List.mem_iff_getElem?.1 hs
      exact hin ⟨k1, src, hk1, hm⟩
    rcases hown with h | ⟨src, h1, h2⟩
    · rw [m3 fr hnot, h]
    · exact absurd ⟨k, src, h1, h2⟩ hin

theorem mergeRigs_spec {Mat Vec : Type} (geo : Geometry Mat Vec) (cam : Nat → Mat)
    (N0 : Nat) (F : Nat → List Nat) (g0 : SparseGraph Mat Vec) (m : Nat)
    (rigs : List (List Nat)) :
    ∀ st : MapState Mat Vec, SameStatic g0 st.graph →
      (∀ fs, fs < N0 → st.graph.frames fs = F fs) →
      (∀ k, k < m → (g0.frameSetSegment 0)[k]? = some (N0 + k)) →
      (∀ seg ∈ rigs, seg.length ≤ m) →
      (∀ seg ∈ rigs, ∀ src ∈ seg, src < N0) →
      (∀ seg ∈ rigs, ∀ src ∈ seg, F src ≠ []) →
      (∀ seg ∈ rigs, ∀ p, Collects F g0 seg p → g0.store.features2D p ≠ []) →
      ∃ st1 : MapState Mat Vec,
        mergeRigs geo cam rigs st = some st1 ∧
        (∀ fs, fs < N0 → st1.graph.frames fs = F fs) ∧
        (∀ k, st1.graph.frames (N0 + k) =
          st.graph.frames (N0 + k) ++ (rigs.map fun seg => framesAt F seg k).flatten) ∧
        (∀ fr, (∀ seg ∈ rigs, ∀ src ∈ seg, fr ∉ F src) →
          st1.graph.frameSet fr = st.graph.frameSet fr) ∧
        (∀ fr k, (∀ seg ∈ rigs, ∀ k1 src1, seg[k1]? = some src1 → fr ∈ F src1 → k1 = k) →
          (st.graph.frameSet fr = N0 + k ∨
            ∃ seg ∈ rigs, ∃ src : Nat, seg[k]? = some src ∧ fr ∈ F src) →
          st1.graph.frameSet fr = N0 + k) ∧
        (∀ p, (∀ seg ∈ rigs, ¬ Collects F g0 seg p) → st1.graph.point p = st.graph.point p) ∧
        (∀ p f0 k, (g0.store.features2D p).head? = some f0 →
          (∀ seg ∈ rigs, ∀ k1 src1, seg[k1]? = some src1 → g0.frame f0 ∈ F src1 → k1 = k) →
          (∃ (i : Nat) (seg : List Nat), rigs[i]? = some seg ∧ Collects F g0 seg p ∧
            (st.graph.frameSet (g0.frame f0) = N0 + k ∨
              ∃ (r : Nat) (seg1 : List Nat) (src : Nat), r ≤ i ∧ rigs[r]? = some seg1 ∧
                seg1[k]? = some src ∧
                g0.frame f0 ∈ F src)) →
          st1.graph.point p = stereoPosition geo g0 cam (N0 + k) f0 p) ∧
        SameStatic g0 st1.graph ∧ st1.nextFrameSet = st.nextFrameSet := by
  induction rigs with
  | nil =>
    intro st hstat hF _ _ _ _ _
    refine ⟨st, rfl, hF, ?_, ?_, ?_, ?_, ?_, hstat, rfl⟩
    · intro k; simp
    · intro fr _; rfl
    · intro fr k _ hown
      rcases hown with h | ⟨seg, hs, _⟩
      · exact h
      · simp at hs
    · intro p _; rfl
    · intro p f0 k _ _ hex
      obtain ⟨i, seg, hi, _⟩ := hex
      simp at hi
  | cons seg rest ih =>
    intro st hstat hF hseg hlen hsrc hne hpts
    have hsegs : st.graph.frameSetSegment 0 = g0.frameSetSegment 0 := by
      unfold SparseGraph.frameSetSegment
      rw [hstat.1]
    have hstore : st.graph.store = g0.store := hstat.2.2.2.2.2.2.1
    have hframe : st.graph.frame = g0.frame := hstat.2.2.2.2.2.1
    obtain ⟨st2, m0, m1, m2, m3, m4, m5, m6, m7, m8⟩ :=
      mergeRig_spec geo cam N0 F seg st hF
        (by
          intro k hk
          rw [hsegs]
          exact hseg k (lt_of_lt_of_le hk (hlen seg (List.mem_cons_self _ _))))
        (hsrc seg (List.mem_cons_self _ _)) (hne seg (List.mem_cons_self _ _))
        (by
          intro p hp
          rw [hstore]
          exact hpts seg (List.mem_cons_self _ _) p ((Collects_congr F g0 st.graph hstat seg p).1 hp))
    have hstat2 : SameStatic g0 st2.graph := SameStatic_trans g0 st.graph st2.graph hstat m7
    obtain ⟨st1, i0, i1, i2, i3, i4, i5, i6, i7, i8⟩ := ih st2 hstat2 m1 hseg
      (fun x hx => hlen x (List.mem_cons_of_mem _ hx))
      (fun x hx => hsrc x (List.mem_cons_of_mem _ hx))
      (fun x hx => hne x (List.mem_cons_of_mem _ hx))
      (fun x hx => hpts x (List.mem_cons_of_mem _ hx))
    refine ⟨st1, ?_, i1, ?_, ?_, ?_, ?_, ?_, i7, i8.trans m8⟩
    · simp only [mergeRigs, m0]
      exact i0
    · intro k
      rw [i2 k, m2 k, List.map_cons, List.flatten_cons, List.append_assoc]
    · intro fr hfr
      rw [i3 fr (fun x hx => hfr x (List.mem_cons_of_mem _ hx)),
        m3 fr (hfr seg (List.mem_cons_self _ _))]
    · intro fr k hcons hown
      apply i4 fr k (fun x hx => hcons x (List.mem_cons_of_mem _ hx))
      rcases hown with h | ⟨segx, hsx, src, hk, hm⟩
      · exact Or.inl (mergeRig_owner N0 F seg st st2 m3 m4 fr k
          (hcons seg (List.mem_cons_self _ _)) (Or.inl h))
      · rcases List.mem_cons.1 hsx with e | e
        · subst e
          exact Or.inl (mergeRig_owner N0 F segx st st2 m3 m4 fr k
            (hcons segx (List.mem_cons_self _ _)) (Or.inr ⟨src, hk, hm⟩))
        · exact Or.inr ⟨segx, e, src, hk, hm⟩
    · intro p hp
      rw [i5 p (fun x hx => hp x (List.mem_cons_of_mem _ hx))]
      apply m5 p
      intro hc
      exact hp seg (List.mem_cons_self _ _) ((Collects_congr F g0 st.graph hstat seg p).1 hc)
    · intro p f0 k hf0 hcons hex
      have hconsRest : ∀ seg1 ∈ rest, ∀ k1 src1, seg1[k1]? = some src1 →
          g0.frame f0 ∈ F src1 → k1 = k :=
        fun x hx => hcons x (List.mem_cons_of_mem _ hx)
      have hown2 : (st.graph.frameSet (g0.frame f0) = N0 + k ∨
          ∃ src : Nat, seg[k]? = some src ∧ g0.frame f0 ∈ F src) →
          st2.graph.frameSet (g0.frame f0) = N0 + k :=
        mergeRig_owner N0 F seg st st2 m3 m4 (g0.frame f0) k
          (hcons seg (List.mem_cons_self _ _))
      by_cases hA : ∃ (i1 : Nat) (seg1 : List Nat), rest[i1]? = some seg1 ∧
          Collects F g0 seg1 p ∧
          (st2.graph.frameSet (g0.frame f0) = N0 + k ∨
            ∃ (r : Nat) (seg2 : List Nat) (src : Nat), r ≤ i1 ∧ rest[r]? = some seg2 ∧
              seg2[k]? = some src ∧
              g0.frame f0 ∈ F src)
      · exact i6 p f0 k hf0 hconsRest hA
      · obtain ⟨i, segi, hi, hcoll, hown⟩ := hex
        have hown3 : st2.graph.frameSet (g0.frame f0) = N0 + k ∨
            ∃ (r1 : Nat) (seg2 : List Nat) (src : Nat), r1 + 1 ≤ i ∧ rest[r1]? = some seg2 ∧
              seg2[k]? = some src ∧
              g0.frame f0 ∈ F src := by
          rcases hown with h | ⟨r, seg2, src, hr, hrr, hk, hm⟩
          · exact Or.inl (hown2 (Or.inl h))
          · cases r with
            | zero =>
              simp only [List.getElem?_cons_zero, Option.some.injEq] at hrr
              subst hrr
              exact Or.inl (hown2 (Or.inr ⟨src, hk, hm⟩))
            | succ r1 =>
              exact Or.inr ⟨r1, seg2, src, hr, by simpa using hrr, hk, hm⟩
        cases i with
        | zero =>
          simp only [List.getElem?_cons_zero, Option.some.injEq] at hi
          subst hi
          have hfs : st2.graph.frameSet (g0.frame f0) = N0 + k := by
            rcases hown3 with h | ⟨r1, _, _, hr, _⟩
            · exact h
            · omega
          have hnot : ∀ seg1 ∈ rest, ¬ Collects F g0 seg1 p := by
            intro seg1 hs hc
            obtain ⟨i1, hi1⟩ := List.mem_iff_getElem?.1 hs
            exact hA ⟨i1, seg1, hi1, hc, Or.inl hfs⟩
          rw [i5 p hnot,
            m6 p ((Collects_congr F g0 st.graph hstat seg p).2 hcoll) f0
              (by rw [hstore]; exact hf0),
            hframe, hfs]
          exact stereoPosition_congr geo g0 st.graph hstat cam _ _ _
        | succ i1 =>
          exfalso
          apply hA
          refine ⟨i1, segi, by simpa using hi, hcoll, ?_⟩
          rcases hown3 with h | ⟨r1, seg2, src, hr, hrr, hk, hm⟩
          · exact Or.inl h
          · exact Or.inr ⟨r1, seg2, src, by omega, hrr, hk, hm⟩

theorem mem_collectedPoints {Mat Vec : Type} (g : SparseGraph Mat Vec) (seg : List Nat)
    (p : Nat) : p ∈ collectedPoints g seg ↔ Collects g.frames g seg p := by
  unfold collectedPoints Collects
  rw [List.mem_flatMap]
  constructor
  · rintro ⟨src, hs, hp⟩
    cases hh : (g.frames src).head? with
    | none => simp [hh] at hp
    | some frame =>
      simp only [hh, List.mem_map] at hp
      exact ⟨src, hs, frame, hh, hp⟩
  · rintro ⟨src, hs, frame, hh, hp⟩
    refine ⟨src, hs, ?_⟩
    simp only [hh, List.mem_map]
    exact hp

/-- What `mergeMaps` does with at least two rigs on an empty merged graph, when
every FrameSet in use is older than the FrameSets it creates, no rig has more
FrameSets than rig 0, every FrameSet of a rig `i ≥ 1` has a frame and every
collected scene point has a feature. -/
theorem mergeMaps_spec {Mat Vec : Type} (geo : Geometry Mat Vec) (cam : Nat → Mat)
    (seg0 : List Nat) (rest : List (List Nat)) (st : MapState Mat Vec)
    (hrest : rest ≠ [])
    (hempty : st.graph.frameSetSegment 0 = [])
    (hfresh : ∀ seg ∈ seg0 :: rest, ∀ src ∈ seg, src < st.nextFrameSet)
    (hlen : ∀ seg ∈ rest, seg.length ≤ seg0.length)
    (hframes : ∀ seg ∈ rest, ∀ src ∈ seg, st.graph.frames src ≠ [])
    (hlists : ∀ seg ∈ rest, ∀ p ∈ collectedPoints st.graph seg,
      st.graph.store.features2D p ≠ []) :
    ∃ st1 : MapState Mat Vec,
      mergeMaps geo cam (seg0 :: rest) st = some st1 ∧
      st1.graph.frameSetSegment 0 = List.range' st.nextFrameSet seg0.length ∧
      (∀ k, k < seg0.length →
        st1.graph.frames (st.nextFrameSet + k) =
          ((seg0 :: rest).map fun seg => framesAt st.graph.frames seg k).flatten) ∧
      (∀ k src, seg0[k]? = some src →
        st1.graph.systemPose (st.nextFrameSet + k) = st.graph.systemPose src) ∧
      (∀ fr k,
        (∀ seg ∈ seg0 :: rest, ∀ k1 src1, seg[k1]? = some src1 →
          fr ∈ st.graph.frames src1 → k1 = k) →
        (∃ seg ∈ seg0 :: rest, ∃ src : Nat, seg[k]? = some src ∧ fr ∈ st.graph.frames src) →
        st1.graph.frameSet fr = st.nextFrameSet + k) ∧
      (∀ p, (∀ seg ∈ rest, p ∉ collectedPoints st.graph seg) →
        st1.graph.point p = st.graph.point p) ∧
      (∀ p f0 k, (st.graph.store.features2D p).head? = some f0 →
        (∀ seg ∈ seg0 :: rest, ∀ k1 src1, seg[k1]? = some src1 →
          st.graph.frame f0 ∈ st.graph.frames src1 → k1 = k) →
        (∃ (i : Nat) (seg : List Nat), 1 ≤ i ∧ (seg0 :: rest)[i]? = some seg ∧
          p ∈ collectedPoints st.graph seg ∧
          ∃ (r : Nat) (seg1 : List Nat) (src : Nat), r ≤ i ∧ (seg0 :: rest)[r]? = some seg1 ∧
            seg1[k]? = some src ∧ st.graph.frame f0 ∈ st.graph.frames src) →
        st1.graph.point p = stereoPosition geo st1.graph cam (st.nextFrameSet + k) f0 p) ∧
      st1.graph.poseMatrix = st.graph.poseMatrix ∧ st1.graph.cameraId = st.graph.cameraId ∧
      st1.graph.frame = st.graph.frame ∧ st1.graph.store = st.graph.store ∧
      st1.graph.pointFromStereo = st.graph.pointFromStereo := by
  have hlen2 : ¬ (seg0 :: rest).length < 2 := by
    cases rest with
    | nil => exact absurd rfl hrest
    | cons a r => simp
  have hsrc0 : ∀ src ∈ seg0, src < st.nextFrameSet :=
    fun src h => hfresh seg0 (List.mem_cons_self _ _) src h
  obtain ⟨a1, a2⟩ := adoptLoop_next seg0 st
  obtain ⟨b1, b2, b3, b4, b5, b6, b7⟩ := adoptLoop_same seg0 st
  have hFa : ∀ fs, fs < st.nextFrameSet →
      (adoptLoop seg0 st).graph.frames fs = st.graph.frames fs :=
    fun fs h => (adoptLoop_below seg0 st fs h).1
  have hcollA : ∀ seg p, Collects st.graph.frames (adoptLoop seg0 st).graph seg p ↔
      p ∈ collectedPoints st.graph seg := by
    intro seg p
    rw [mem_collectedPoints]
    unfold Collects
    rw [b3, b5]
  have hsegA : ∀ k, k < seg0.length →
      ((adoptLoop seg0 st).graph.frameSetSegment 0)[k]? = some (st.nextFrameSet + k) := by
    intro k hk
    rw [a2, hempty, List.nil_append, List.getElem?_range' _ _ hk]
    simp
  obtain ⟨st1, i0, i1, i2, i3, i4, i5, i6, i7, i8⟩ :=
    mergeRigs_spec geo cam st.nextFrameSet st.graph.frames (adoptLoop seg0 st).graph
      seg0.length rest (adoptLoop seg0 st) ⟨rfl, rfl, rfl, rfl, rfl, rfl, rfl, rfl⟩ hFa hsegA hlen
      (fun seg hs => hfresh seg (List.mem_cons_of_mem _ hs)) hframes
      (by
        intro seg hs p hp
        rw [b5]
        exact hlists seg hs p ((hcollA seg p).1 hp))
  obtain ⟨c1, c2, c3, c4, c5, c6, c7, c8⟩ := i7
  have hownA : ∀ fr k,
      (∀ k1 src1, seg0[k1]? = some src1 → fr ∈ st.graph.frames src1 → k1 = k) →
      (∃ src : Nat, seg0[k]? = some src ∧ fr ∈ st.graph.frames src) →
      (adoptLoop seg0 st).graph.frameSet fr = st.nextFrameSet + k := by
    intro fr k hu hex
    obtain ⟨src, h1, h2⟩ := hex
    exact adoptLoop_frameSet st.nextFrameSet st.graph.frames seg0 st (le_refl _)
      (fun _ _ => rfl) hsrc0 k src fr h1 h2 hu
  refine ⟨st1, ?_, ?_, ?_, ?_, ?_, ?_, ?_, c3.trans b1, c4.trans b2, c6.trans b4, c7.trans b5,
    c8.trans b7⟩
  · unfold mergeMaps
    simp only [hlen2, if_false, List.getD_cons_zero, List.drop_succ_cons, List.drop_zero]
    exact i0
  · unfold SparseGraph.frameSetSegment
    rw [c1]
    have := a2
    unfold SparseGraph.frameSetSegment at this hempty
    rw [this, hempty, List.nil_append]
  · intro k hk
    rw [i2 k, List.map_cons, List.flatten_cons]
    congr 1
    unfold framesAt
    obtain ⟨src, hsrc⟩ : ∃ src, seg0[k]? = some src :=
      ⟨seg0[k], List.getElem?_eq_getElem hk⟩
    rw [hsrc]
    exact (adoptLoop_at st.nextFrameSet seg0 st (le_refl _) hsrc0 k src hsrc).1
  · intro k src hk
    rw [c2]
    exact (adoptLoop_at st.nextFrameSet seg0 st (le_refl _) hsrc0 k src hk).2
  · intro fr k hcons hex
    apply i4 fr k (fun seg hs => hcons seg (List.mem_cons_of_mem _ hs))
    obtain ⟨seg, hs, src, h1, h2⟩ := hex
    rcases List.mem_cons.1 hs with e | e
    · subst e
      exact Or.inl (hownA fr k (hcons seg (List.mem_cons_self _ _)) ⟨src, h1, h2⟩)
    · exact Or.inr ⟨seg, e, src, h1, h2⟩
  · intro p hp
    rw [i5 p (fun seg hs hc => hp seg hs ((hcollA seg p).1 hc)), b6]
  · intro p f0 k hf0 hcons hex
    obtain ⟨i, seg, hi1, hi, hcoll, r, seg1, src, hr, hrr, hk, hm⟩ := hex
    have hres := i6 p f0 k (by rw [b5]; exact hf0)
      (by
        intro seg2 hs k1 src1 h1 h2
        rw [b4] at h2
        exact hcons seg2 (List.mem_cons_of_mem _ hs) k1 src1 h1 h2)
      (by
        cases i with
        | zero => omega
        | succ i1 =>
          refine ⟨i1, seg, by simpa using hi, (hcollA seg p).2 hcoll, ?_⟩
          rw [b4]
          cases r with
          | zero =>
            simp only [List.getElem?_cons_zero, Option.some.injEq] at hrr
            subst hrr
            exact Or.inl (hownA _ k (hcons seg0 (List.mem_cons_self _ _)) ⟨src, hk, hm⟩)
          | succ r1 =>
            exact Or.inr ⟨r1, seg1, src, by omega, by simpa using hrr, hk, hm⟩)
    rw [hres]
    exact (stereoPosition_congr geo (adoptLoop seg0 st).graph st1.graph
      ⟨c1, c2, c3, c4, c5, c6, c7, c8⟩ cam _ _ _).symm

/-! ## `mergeMaps`: segment length, merged FrameSets, re-triangulation -/

/-- After `mergeMaps` with at least 2 rigs whose segments all have the length `m`,
on an initially empty merged graph, the merged segment has the length of each
rig's segment. (The FrameSets in use are older than the ones `mergeMaps`
creates, every FrameSet of a rig `i ≥ 1` has a frame and every collected scene
point has a feature, so that the run reaches its end.) -/
theorem mergeMaps_segment_length {Mat Vec : Type} (geo : Geometry Mat Vec) (cam : Nat → Mat)
    (subSegments : List (List Nat)) (st : MapState Mat Vec) (m : Nat)
    (hn : 2 ≤ subSegments.length)
    (hempty : st.graph.frameSetSegment 0 = [])
    (hsame : ∀ seg ∈ subSegments, seg.length = m)
    (hfresh : ∀ seg ∈ subSegments, ∀ src ∈ seg, src < st.nextFrameSet)
    (hframes : ∀ seg ∈ subSegments.drop 1, ∀ src ∈ seg, st.graph.frames src ≠ [])
    (hlists : ∀ seg ∈ subSegments.drop 1, ∀ p ∈ collectedPoints st.graph seg,
      st.graph.store.features2D p ≠ []) :
    ∃ st1, mergeMaps geo cam subSegments st = some st1 ∧
      ∀ seg ∈ subSegments, (st1.graph.frameSetSegment 0).length = seg.length := by
  cases subSegments with
  | nil => simp at hn
  | cons seg0 rest =>
    have hrest : rest ≠ [] := by
      intro e
      subst e
      simp at hn
    have h0 : seg0.length = m := hsame seg0 (List.mem_cons_self _ _)
    obtain ⟨st1, r0, r1, _⟩ := mergeMaps_spec geo cam seg0 rest st hrest hempty hfresh
      (fun seg hs => by rw [hsame seg (List.mem_cons_of_mem _ hs), h0])
      (by simpa using hframes) (by simpa using hlists)
    refine ⟨st1, r0, ?_⟩
    intro seg hs
    rw [r1, List.length_range', h0, hsame seg hs]

/-- C15, counterexample: two rigs with one FrameSet each (0 and 2), merged into a
graph that already holds FrameSet 3. The new FrameSet 4 is pushed behind it, so
the frames of rig 1 go to FrameSet 3, the one with index 0: it does not share
the pose of rig 0's FrameSet, and neither it nor the new FrameSet lists the
frames `[0, 1, 4, 5]` of both rigs. -/
theorem mergeMaps_merged_counterexample :
    2 ≤ [[0], [2]].length ∧ (∀ seg ∈ [[0], [2]], seg.length = 1) ∧
    ∃ st1, mergeMaps sampleGeometry sampleCameraPose [[0], [2]] sampleMapStateHeld =
        some st1 ∧
      st1.graph.frameSetSegment 0 = [3, 4] ∧
      st1.graph.systemPose 3 ≠ sampleMapStateHeld.graph.systemPose 0 ∧
      st1.graph.frames 3 = [6, 7, 4, 5] ∧ st1.graph.frames 4 = [0, 1] ∧
      sampleMapStateHeld.graph.frames 0 ++ sampleMapStateHeld.graph.frames 2 = [0, 1, 4, 5] :=
  ⟨by decide, by decide, _, rfl, by decide, by decide, by decide, by decide, by decide⟩

/-- C15, amended: after `mergeMaps` with at least 2 rigs whose sub-graphs all have
the same number `m` of FrameSets, on an initially empty merged graph, for every
index `j < m` the merged FrameSet `j` has the `Pose` object of rig 0's FrameSet
`j`, its frame list is the concatenation, in rig order, of the frame lists of
every rig's FrameSet `j`, and every frame in that list has the merged FrameSet
`j` as owner. (No frame lies in FrameSets of two different indices, the
FrameSets in use are older than the created ones, every FrameSet of a rig
`i ≥ 1` has a frame and every collected scene point has a feature.) -/
theorem mergeMaps_merged {Mat Vec : Type} (geo : Geometry Mat Vec) (cam : Nat → Mat)
    (subSegments : List (List Nat)) (st : MapState Mat Vec) (m : Nat)
    (hn : 2 ≤ subSegments.length)
    (hempty : st.graph.frameSetSegment 0 = [])
    (hsame : ∀ seg ∈ subSegments, seg.length = m)
    (hfresh : ∀ seg ∈ subSegments, ∀ src ∈ seg, src < st.nextFrameSet)
    (hframes : ∀ seg ∈ subSegments.drop 1, ∀ src ∈ seg, st.graph.frames src ≠ [])
    (hlists : ∀ seg ∈ subSegments.drop 1, ∀ p ∈ collectedPoints st.graph seg,
      st.graph.store.features2D p ≠ [])
    (hdisj : ∀ seg ∈ subSegments, ∀ seg1 ∈ subSegments, ∀ e ∈ seg.enum, ∀ e1 ∈ seg1.enum,
      ∀ fr ∈ st.graph.frames e.2, fr ∈ st.graph.frames e1.2 → e.1 = e1.1) :
    ∃ st1, mergeMaps geo cam subSegments st = some st1 ∧
      ∀ j, j < m → ∃ dst, (st1.graph.frameSetSegment 0)[j]? = some dst ∧
        st1.graph.systemPose dst = st.graph.systemPose ((subSegments.getD 0 []).getD j 0) ∧
        st1.graph.frames dst =
          (subSegments.map fun seg => st.graph.frames (seg.getD j 0)).flatten ∧
        ∀ fr ∈ st1.graph.frames dst, st1.graph.frameSet fr = dst := by
  cases subSegments with
  | nil => simp at hn
  | cons seg0 rest =>
    have hrest : rest ≠ [] := by
      intro e
      subst e
      simp at hn
    have h0 : seg0.length = m := hsame seg0 (List.mem_cons_self _ _)
    obtain ⟨st1, r0, r1, r2, r3, r4, _⟩ := mergeMaps_spec geo cam seg0 rest st hrest hempty
      hfresh (fun seg hs => by rw [hsame seg (List.mem_cons_of_mem _ hs), h0])
      (by simpa using hframes) (by simpa using hlists)
    refine ⟨st1, r0, ?_⟩
    intro j hj
    have hat : ∀ seg ∈ seg0 :: rest, seg[j]? = some (seg.getD j 0) := by
      intro seg hs
      have hl : j < seg.length := by rw [hsame seg hs]; exact hj
      rw [List.getD_eq_getElem?_getD, List.getElem?_eq_getElem hl]
      rfl
    have hfr : ((seg0 :: rest).map fun seg => framesAt st.graph.frames seg j) =
        ((seg0 :: rest).map fun seg => st.graph.frames (seg.getD j 0)) := by
      apply List.map_congr_left
      intro seg hs
      unfold framesAt
      rw [hat seg hs]
    have hframesj := r2 j (by rw [h0]; exact hj)
    rw [hfr] at hframesj
    refine ⟨st.nextFrameSet + j, ?_, ?_, hframesj, ?_⟩
    · rw [r1, List.getElem?_range' _ _ (by rw [h0]; exact hj)]
      simp
    · exact r3 j _ (hat seg0 (List.mem_cons_self _ _))
    · intro fr hfrm
      rw [hframesj, List.mem_flatten] at hfrm
      obtain ⟨l, hl, hfl⟩ := hfrm
      obtain ⟨seg, hs, e⟩ := List.mem_map.1 hl
      subst e
      apply r4 fr j
      · intro seg1 hs1 k1 src1 h1 h2
        exact hdisj seg1 hs1 seg hs (k1, src1) (List.mk_mem_enum_iff_getElem?.2 h1)
          (j, seg.getD j 0) (List.mk_mem_enum_iff_getElem?.2 (hat seg hs)) fr h2 hfl
      · exact ⟨seg, hs, seg.getD j 0, hat seg hs, hfl⟩

/-- Witness for the amended C15: two rigs with two FrameSets each on the sample
heap. -/
theorem mergeMaps_merged_witness :
    2 ≤ [[0, 1], [2, 3]].length ∧ sampleMapState.graph.frameSetSegment 0 = [] ∧
    (∀ seg ∈ [[0, 1], [2, 3]], seg.length = 2) ∧
    ∃ st1, mergeMaps sampleGeometry sampleCameraPose [[0, 1], [2, 3]] sampleMapState =
        some st1 ∧
      ∀ j, j < 2 → ∃ dst, (st1.graph.frameSetSegment 0)[j]? = some dst ∧
        st1.graph.systemPose dst =
          sampleMapState.graph.systemPose (([[0, 1], [2, 3]].getD 0 []).getD j 0) ∧
        st1.graph.frames dst =
          ([[0, 1], [2, 3]].map fun seg => sampleMapState.graph.frames (seg.getD j 0)).flatten ∧
        ∀ fr ∈ st1.graph.frames dst, st1.graph.frameSet fr = dst :=
  ⟨by decide, rfl, by decide,
    mergeMaps_merged sampleGeometry sampleCameraPose [[0, 1], [2, 3]] sampleMapState 2
      (by decide) rfl (by decide) (by decide) (by decide) (by decide) (by decide)⟩

/-- The points that `mergeMaps` does re-triangulate (at least 2 rigs, initially
empty merged graph): for every rig `i ≥ 1` and every scene point `p` linked by a
feature of the first frame of one of that rig's FrameSets, the position of `p`
is overwritten with `pointFromStereo` transformed by
`inverse(SystemPose) * GlobalCameraPose(cameraId)`, where the camera is that of
the frame of the point's first feature `f0` and the system pose is that of the
merged FrameSet owning that frame, the one of index `k`. (The frame of `f0`
lies in FrameSet `k` of a rig `r ≤ i` and in FrameSets of index `k` only; no rig
has more FrameSets than rig 0, the FrameSets in use are older than the created
ones, every FrameSet of a rig `i ≥ 1` has a frame and every collected scene
point has a feature.) -/
theorem mergeMaps_retriangulates {Mat Vec : Type} (geo : Geometry Mat Vec) (cam : Nat → Mat)
    (subSegments : List (List Nat)) (st : MapState Mat Vec)
    (hn : 2 ≤ subSegments.length)
    (hempty : st.graph.frameSetSegment 0 = [])
    (hlen : ∀ seg ∈ subSegments, seg.length ≤ (subSegments.getD 0 []).length)
    (hfresh : ∀ seg ∈ subSegments, ∀ src ∈ seg, src < st.nextFrameSet)
    (hframes : ∀ seg ∈ subSegments.drop 1, ∀ src ∈ seg, st.graph.frames src ≠ [])
    (hlists : ∀ seg ∈ subSegments.drop 1, ∀ p ∈ collectedPoints st.graph seg,
      st.graph.store.features2D p ≠ [])
    (i : Nat) (seg : List Nat) (hi : 1 ≤ i) (hseg : subSegments[i]? = some seg)
    (p : Nat) (hp : p ∈ collectedPoints st.graph seg)
    (f0 : Nat) (hf0 : (st.graph.store.features2D p).head? = some f0)
    (k r : Nat) (seg1 : List Nat) (src : Nat) (hr : r ≤ i)
    (hseg1 : subSegments[r]? = some seg1) (hsrc : seg1[k]? = some src)
    (hfr : st.graph.frame f0 ∈ st.graph.frames src)
    (hcons : ∀ seg2 ∈ subSegments, ∀ e ∈ seg2.enum,
      st.graph.frame f0 ∈ st.graph.frames e.2 → e.1 = k) :
    ∃ st1, mergeMaps geo cam subSegments st = some st1 ∧
      (st1.graph.frameSetSegment 0)[k]? = some (st1.graph.frameSet (st1.graph.frame f0)) ∧
      st1.graph.point p =
        geo.transformPoint
          (geo.mul
            (geo.invertHomogeneousTransform
              (st1.graph.poseMatrix
                (st1.graph.systemPose (st1.graph.frameSet (st1.graph.frame f0)))))
            (cam (st1.graph.cameraId (st1.graph.frame f0))))
          (st1.graph.pointFromStereo p) := by
  cases subSegments with
  | nil => simp at hn
  | cons seg0 rest =>
    have hrest : rest ≠ [] := by
      intro e
      subst e
      simp at hn
    obtain ⟨st1, r0, r1, _, _, r4, _, r6, _, _, r9, _, _⟩ :=
      mergeMaps_spec geo cam seg0 rest st hrest hempty hfresh
        (fun s hs => by simpa using hlen s (List.mem_cons_of_mem _ hs))
        (by simpa using hframes) (by simpa using hlists)
    have hcons1 : ∀ seg2 ∈ seg0 :: rest, ∀ k1 src1, seg2[k1]? = some src1 →
        st.graph.frame f0 ∈ st.graph.frames src1 → k1 = k := by
      intro seg2 hs k1 src1 h1 h2
      exact hcons seg2 hs (k1, src1) (List.mk_mem_enum_iff_getElem?.2 h1) h2
    have hmem1 : seg1 ∈ seg0 :: rest := by
      rw [List.mem_iff_getElem?]
      exact ⟨r, hseg1⟩
    have hk : k < seg0.length := by
      have h1 : k < seg1.length := by
        by_contra hc
        rw [List.getElem?_eq_none (by omega)] at hsrc
        exact Option.noConfusion hsrc
      have h2 := hlen seg1 hmem1
      simp only [List.getD_cons_zero] at h2
      omega
    have hown : st1.graph.frameSet (st.graph.frame f0) = st.nextFrameSet + k :=
      r4 _ k hcons1 ⟨seg1, hmem1, src, hsrc, hfr⟩
    refine ⟨st1, r0, ?_, ?_⟩
    · rw [r9, hown, r1, List.getElem?_range' _ _ hk]
      simp
    · rw [r6 p f0 k hf0 hcons1 ⟨i, seg, hi, hseg, hp, r, seg1, src, hr, hseg1, hsrc, hfr⟩]
      unfold stereoPosition
      rw [r9, hown]

/-- The re-triangulation at scene point 14 of the sample heap, linked by feature 4
of the first frame of rig 1's FrameSet 2. -/
theorem mergeMaps_retriangulates_sample :
    2 ≤ [[0, 1], [2, 3]].length ∧ sampleMapState.graph.frameSetSegment 0 = [] ∧
    14 ∈ collectedPoints sampleMapState.graph [2, 3] ∧
    ∃ st1, mergeMaps sampleGeometry sampleCameraPose [[0, 1], [2, 3]] sampleMapState =
        some st1 ∧
      (st1.graph.frameSetSegment 0)[0]? = some (st1.graph.frameSet (st1.graph.frame 4)) ∧
      st1.graph.point 14 =
        sampleGeometry.transformPoint
          (sampleGeometry.mul
            (sampleGeometry.invertHomogeneousTransform
              (st1.graph.poseMatrix
                (st1.graph.systemPose (st1.graph.frameSet (st1.graph.frame 4)))))
            (sampleCameraPose (st1.graph.cameraId (st1.graph.frame 4))))
          (st1.graph.pointFromStereo 14) :=
  ⟨by decide, rfl, by decide,
    mergeMaps_retriangulates sampleGeometry sampleCameraPose [[0, 1], [2, 3]] sampleMapState
      (by decide) rfl (by decide) (by decide) (by decide) (by decide)
      1 [2, 3] (by decide) rfl 14 (by decide) 4 rfl 0 1 [2, 3] 2 (by decide) rfl rfl
      (by decide) (by decide)⟩

/-! ## Repeated correspondences and absorbed points in the merge step -/

theorem PointStore.eq_of_fields (a b : PointStore) (h1 : a.feature3D = b.feature3D)
    (h2 : a.features2D = b.features2D) (h3 : a.attributes = b.attributes) : a = b := by
  cases a
  cases b
  simp only [PointStore.mk.injEq]
  exact ⟨h1, h2, h3⟩

theorem foldFeatures_all_found (fs2 : List Nat) :
    ∀ (fs1 : List Nat) (m : Bool), (∀ x ∈ fs2, x ∈ fs1) → foldFeatures fs2 fs1 m = (fs1, m) := by
  induction fs2 with
  | nil => intro fs1 m _; rfl
  | cons a rest ih =>
    intro fs1 m h
    have ha : findFeature fs1 a = true := (findFeature_iff fs1 a).2 (h a (List.mem_cons_self _ _))
    simp only [foldFeatures, ha, if_true]
    exact ih fs1 m (fun x hx => h x (List.mem_cons_of_mem _ hx))

theorem mergeStep_flag (s : PointStore) (c : Nat × Nat) (flag : Nat) :
    (mergeStep s c flag).2 =
      if s.feature3D c.1 = c.2 then false
      else (foldFeatures (s.features2D c.2) (s.features2D (s.feature3D c.1)) false).2 := by
  unfold mergeStep
  by_cases h : s.feature3D c.1 = c.2 <;> simp [h]

theorem mergeStep_canonical_link (s : PointStore) (c : Nat × Nat) (flag : Nat) :
    (mergeStep s c flag).1.feature3D c.1 = s.feature3D c.1 := by
  by_cases h : s.feature3D c.1 = c.2
  · rw [(mergeStep_same s c flag h).2]
  · rw [mergeStep_feature3D s c flag c.1 h]
    by_cases hm : c.1 ∈ (foldFeatures (s.features2D c.2) (s.features2D (s.feature3D c.1)) false).1
    · exact relink_mem _ _ _ _ hm
    · exact relink_not_mem _ _ _ _ hm

/-- Processing a correspondence a second time changes nothing and reports no
merge. -/
theorem mergeStep_again (s : PointStore) (c : Nat × Nat) (flag : Nat) :
    mergeStep (mergeStep s c flag).1 c flag = ((mergeStep s c flag).1, false) := by
  have hl := mergeStep_canonical_link s c flag
  have hattr : (mergeStep (mergeStep s c flag).1 c flag).1.attributes =
      (mergeStep s c flag).1.attributes := by
    funext p
    rw [mergeStep_attributes, hl]
    by_cases hp : p = s.feature3D c.1
    · rw [if_pos hp, mergeStep_attributes, if_pos hp, Nat.lor_assoc, Nat.or_self]
    · rw [if_neg hp]
  by_cases h : s.feature3D c.1 = c.2
  · have h2 : (mergeStep s c flag).1.feature3D c.1 = c.2 := by rw [hl]; exact h
    obtain ⟨e1, e2⟩ := mergeStep_same (mergeStep s c flag).1 c flag h2
    refine Prod.ext (PointStore.eq_of_fields _ _ e2 e1 hattr) ?_
    rw [mergeStep_flag, if_pos h2]
  · have h2 : (mergeStep s c flag).1.feature3D c.1 ≠ c.2 := by rw [hl]; exact h
    have hB : (mergeStep s c flag).1.features2D c.2 = s.features2D c.2 := by
      rw [mergeStep_features2D s c flag c.2 h, if_neg (fun e => h e.symm)]
    have hA : (mergeStep s c flag).1.features2D (s.feature3D c.1) =
        (foldFeatures (s.features2D c.2) (s.features2D (s.feature3D c.1)) false).1 := by
      rw [mergeStep_features2D s c flag _ h, if_pos rfl]
    have hfold : foldFeatures ((mergeStep s c flag).1.features2D c.2)
        ((mergeStep s c flag).1.features2D ((mergeStep s c flag).1.feature3D c.1)) false =
        ((foldFeatures (s.features2D c.2) (s.features2D (s.feature3D c.1)) false).1, false) := by
      rw [hl, hB, hA]
      apply foldFeatures_all_found
      intro x hx
      exact (foldFeatures_mem _ _ _ _).2 (Or.inr hx)
    have e2 : (mergeStep (mergeStep s c flag).1 c flag).1.features2D =
        (mergeStep s c flag).1.features2D := by
      funext p
      rw [mergeStep_features2D _ c flag p h2, hfold, hl]
      by_cases hp : p = s.feature3D c.1
      · rw [if_pos hp, hp, hA]
      · rw [if_neg hp]
    have e1 : (mergeStep (mergeStep s c flag).1 c flag).1.feature3D =
        (mergeStep s c flag).1.feature3D := by
      funext g
      rw [mergeStep_feature3D _ c flag g h2, hfold, hl]
      by_cases hg : g ∈ (foldFeatures (s.features2D c.2) (s.features2D (s.feature3D c.1)) false).1
      · rw [relink_mem _ _ _ _ hg, mergeStep_feature3D s c flag g h, relink_mem _ _ _ _ hg]
      · rw [relink_not_mem _ _ _ _ hg]
    refine Prod.ext (PointStore.eq_of_fields _ _ e1 e2 hattr) ?_
    rw [mergeStep_flag, if_neg h2, hfold]

theorem mem_gatherFold {Mat Vec : Type} (g : SparseGraph Mat Vec) (p : Nat)
    (l : List (Nat × Nat × Nat)) :
    ∀ acc : List Nat,
      p ∈ l.foldl (fun scenePoints v => scenePoints.insert (g.store.feature3D v.2.2)) acc ↔
        p ∈ acc ∨ ∃ v ∈ l, g.store.feature3D v.2.2 = p := by
  induction l with
  | nil => intro acc; simp
  | cons a rest ih =>
    intro acc
    rw [List.foldl_cons, ih, List.mem_insert_iff]
    constructor
    · rintro ((h | h) | ⟨v, hv, e⟩)
      · exact Or.inr ⟨a, List.mem_cons_self _ _, h.symm⟩
      · exact Or.inl h
      · exact Or.inr ⟨v, List.mem_cons_of_mem _ hv, e⟩
    · rintro (h | ⟨v, hv, e⟩)
      · exact Or.inl (Or.inr h)
      · rcases List.mem_cons.1 hv with h1 | h1
        · exact Or.inl (Or.inl (by rw [← e, h1]))
        · exact Or.inr ⟨v, h1, e⟩

/-- A scene point is gathered by `runPG` exactly when a feature of a frame of
the graph links to it. -/
theorem mem_gatherScenePoints {Mat Vec : Type} (g : SparseGraph Mat Vec) (p : Nat) :
    p ∈ gatherScenePoints g ↔ ∃ v ∈ g.visits, g.store.feature3D v.2.2 = p := by
  unfold gatherScenePoints
  rw [mem_gatherFold]
  simp

/-- The reconstruction loop leaves the position of a point outside its list
alone. -/
theorem reconstructLoop_not_mem {Mat Vec : Type} (geo : Geometry Mat Vec)
    (g : SparseGraph Mat Vec) (cam : Nat → Mat) (solvePoint : List (Mat × Nat) → Vec → Vec)
    (p : Nat) (pts : List Nat) :
    ∀ (point point1 : Nat → Vec), reconstructLoop geo g cam solvePoint pts point = some point1 →
      p ∉ pts → point1 p = point p := by
  induction pts with
  | nil =>
    intro point point1 h _
    simp only [reconstructLoop, Option.some.injEq] at h
    rw [← h]
  | cons a rest ih =>
    intro point point1 h hp
    have hpa : p ≠ a := fun e => hp (e ▸ List.mem_cons_self _ _)
    have hpr : p ∉ rest := fun e => hp (List.mem_cons_of_mem _ e)
    simp only [reconstructLoop] at h
    cases hf : (g.store.features2D a).head? with
    | none => rw [hf] at h; exact Option.noConfusion h
    | some front =>
      rw [hf] at h
      have := ih _ point1 h hpr
      rw [this, if_neg hpa]

/-- The reconstruction loop completes when every listed point has a feature. -/
theorem reconstructLoop_some {Mat Vec : Type} (geo : Geometry Mat Vec)
    (g : SparseGraph Mat Vec) (cam : Nat → Mat) (solvePoint : List (Mat × Nat) → Vec → Vec)
    (pts : List Nat) (h : ∀ p ∈ pts, g.store.features2D p ≠ []) :
    ∀ point : Nat → Vec, ∃ point1, reconstructLoop geo g cam solvePoint pts point = some point1 := by
  induction pts with
  | nil => intro point; exact ⟨point, rfl⟩
  | cons a rest ih =>
    intro point
    have ha := h a (List.mem_cons_self _ _)
    cases hl : g.store.features2D a with
    | nil => exact absurd hl ha
    | cons front tl =>
      simp only [reconstructLoop, hl, List.head?_cons]
      exact ih (fun p hp => h p (List.mem_cons_of_mem _ hp)) _

/-- C26: the merge step of `runPG` keeps the feature list of the canonical point
free of duplicates, whatever the absorbed point's list looks like (it may hold
a feature several times); and processing the same correspondence a second time
changes nothing in the store, no feature list in particular, and does not
count as a merge, so the counter `nMergedScenePoints` is the same after two
rounds as after one. -/
theorem mergeStep_keeps_nodup (s : PointStore) (f B scenePointFlag : Nat)
    (h : (s.features2D (s.feature3D f)).Nodup) :
    ((mergeStep s (f, B) scenePointFlag).1.features2D (s.feature3D f)).Nodup ∧
    (mergeStep (mergeStep s (f, B) scenePointFlag).1 (f, B) scenePointFlag).1 =
      (mergeStep s (f, B) scenePointFlag).1 ∧
    (mergeStep (mergeStep s (f, B) scenePointFlag).1 (f, B) scenePointFlag).1.features2D =
      (mergeStep s (f, B) scenePointFlag).1.features2D ∧
    (mergeStep (mergeStep s (f, B) scenePointFlag).1 (f, B) scenePointFlag).2 = false ∧
    (∀ n, (mergeLoop scenePointFlag [(f, B), (f, B)] (s, n)).2 =
      (mergeLoop scenePointFlag [(f, B)] (s, n)).2) := by
  have hagain := mergeStep_again s (f, B) scenePointFlag
  refine ⟨?_, ?_, ?_, ?_, ?_⟩
  · by_cases hAB : s.feature3D f = B
    · rw [(mergeStep_same s (f, B) scenePointFlag hAB).1]
      exact h
    · have e := mergeStep_features2D s (f, B) scenePointFlag (s.feature3D f) hAB
      simp only [if_true] at e
      rw [e, foldFeatures_fst, List.nodup_append]
      refine ⟨h, freshFeatures_nodup _ _, ?_⟩
      intro x hx1 hx2
      exact ((mem_freshFeatures _ _ x).1 hx2).2 hx1
  · rw [hagain]
  · rw [hagain]
  · rw [hagain]
  · intro n
    simp only [mergeLoop, hagain, Bool.false_eq_true, if_false]

/-- Witness for C26: point 12 lists feature 2 twice and is folded into point 10. -/
theorem mergeStep_keeps_nodup_witness :
    (sampleStoreRepeated.features2D (sampleStoreRepeated.feature3D 0)).Nodup ∧
    (sampleStoreRepeated.features2D 12 = [2, 2, 5] ∧
      (mergeStep sampleStoreRepeated (0, 12) 4).1.features2D 10 = [0, 2, 5]) ∧
    ((mergeStep sampleStoreRepeated (0, 12) 4).1.features2D
      (sampleStoreRepeated.feature3D 0)).Nodup :=
  ⟨by decide, by decide, (mergeStep_keeps_nodup sampleStoreRepeated 0 12 4 (by decide)).1⟩

/-- C28: when `runPG` processes a correspondence `(f, B)` whose canonical point
`A` differs from `B`, and before that every feature linking to `B` is in the
feature list of `B`, then afterwards no feature links to `B`, so `B` is not
among the scene points that `runPG` gathers from the graph; the feature list
and the attributes of `B` are as before, and the reconstruction loop over the
gathered points leaves the position of `B` as it was. -/
theorem mergeStep_unlinks_absorbed {Mat Vec : Type} (geo : Geometry Mat Vec)
    (g : SparseGraph Mat Vec) (globalCameraPose : Nat → Mat)
    (solvePoint : List (Mat × Nat) → Vec → Vec) (f B scenePointFlag : Nat)
    (hB : ∀ x, g.store.feature3D x = B → x ∈ g.store.features2D B)
    (hAB : g.store.feature3D f ≠ B) :
    (∀ x, (mergeStep g.store (f, B) scenePointFlag).1.feature3D x ≠ B) ∧
    B ∉ gatherScenePoints (afterMerge g (f, B) scenePointFlag) ∧
    (mergeStep g.store (f, B) scenePointFlag).1.features2D B = g.store.features2D B ∧
    (mergeStep g.store (f, B) scenePointFlag).1.attributes B = g.store.attributes B ∧
    (afterMerge g (f, B) scenePointFlag).point = g.point ∧
    (∀ point1, reconstructLoop geo (afterMerge g (f, B) scenePointFlag) globalCameraPose solvePoint
        (gatherScenePoints (afterMerge g (f, B) scenePointFlag)) g.point = some point1 →
      point1 B = g.point B) := by
  have hlink : ∀ x, (mergeStep g.store (f, B) scenePointFlag).1.feature3D x ≠ B := by
    intro x
    rw [mergeStep_feature3D g.store (f, B) scenePointFlag x hAB]
    by_cases hm : x ∈ (foldFeatures (g.store.features2D B)
        (g.store.features2D (g.store.feature3D f)) false).1
    · rw [relink_mem _ _ _ _ hm]
      exact hAB
    · rw [relink_not_mem _ _ _ _ hm]
      intro e
      exact hm ((foldFeatures_mem _ _ _ _).2 (Or.inr (hB x e)))
  have hgather : B ∉ gatherScenePoints (afterMerge g (f, B) scenePointFlag) := by
    intro hmem
    obtain ⟨v, _, e⟩ := (mem_gatherScenePoints _ B).1 hmem
    exact hlink v.2.2 e
  refine ⟨hlink, hgather, ?_, ?_, rfl, ?_⟩
  · rw [mergeStep_features2D g.store (f, B) scenePointFlag B hAB, if_neg (fun e => hAB e.symm)]
  · rw [mergeStep_attributes, if_neg (fun e => hAB e.symm)]
  · intro point1 h
    exact reconstructLoop_not_mem geo _ globalCameraPose solvePoint B _ _ _ h hgather

/-- Witness for C28 on the sample graph: feature 0 links to point 10 and is matched
to point 11, which feature 3 alone observes. -/
theorem mergeStep_unlinks_absorbed_witness :
    sampleGraph.store.feature3D 0 ≠ 11 ∧
    (∀ x, (mergeStep sampleGraph.store (0, 11) 4).1.feature3D x ≠ 11) ∧
    11 ∉ gatherScenePoints (afterMerge sampleGraph (0, 11) 4) :=
  ⟨by decide,
    (mergeStep_unlinks_absorbed sampleGeometry sampleGraph sampleCameraPose (fun _ v => v) 0 11 4
      (by
        intro x hx
        by_cases h2 : x ≤ 2
        · simp [sampleGraph, h2] at hx
        · by_cases h3 : x = 3
          · simp [sampleGraph, h3]
          · simp [sampleGraph, h2, h3] at hx)
      (by decide)).1,
    (mergeStep_unlinks_absorbed sampleGeometry sampleGraph sampleCameraPose (fun _ v => v) 0 11 4
      (by
        intro x hx
        by_cases h2 : x ≤ 2
        · simp [sampleGraph, h2] at hx
        · by_cases h3 : x = 3
          · simp [sampleGraph, h3]
          · simp [sampleGraph, h2, h3] at hx)
      (by decide)).2.1⟩

/-! ## `processFrames`: keying and the lock-step of the sub-graphs -/

theorem keyLoop_getElem? (worker : Nat → Option Nat) (segs : List (List Nat)) :
    ∀ (i k : Nat), (keyLoop worker i segs)[k]? =
      (segs[k]?).map (fun seg => seg ++ (worker (i + k)).toList) := by
  induction segs with
  | nil => intro i k; simp [keyLoop]
  | cons a rest ih =>
    intro i k
    cases k with
    | zero =>
      simp only [keyLoop, List.getElem?_cons_zero, Option.map_some', Nat.add_zero]
      cases worker i <;> simp
    | succ k =>
      simp only [keyLoop, List.getElem?_cons_succ, ih]
      have e : i + 1 + k = i + (k + 1) := by omega
      rw [e]

theorem keyLoop_length (worker : Nat → Option Nat) (segs : List (List Nat)) :
    ∀ i : Nat, (keyLoop worker i segs).length = segs.length := by
  induction segs with
  | nil => intro i; simp [keyLoop]
  | cons a rest ih => intro i; simp [keyLoop, ih]

theorem initLoop_nonempty (worker : Nat → Option Nat) (segs : List (List Nat))
    (h : ∀ seg ∈ segs, seg ≠ []) :
    ∀ i : Nat, initLoop worker i segs = (segs, segs.isEmpty) := by
  induction segs with
  | nil => intro i; rfl
  | cons a rest ih =>
    intro i
    have ha : a.isEmpty = false := by
      cases a with
      | nil => exact absurd rfl (h [] (List.mem_cons_self _ _))
      | cons x xs => rfl
    simp only [initLoop, ha, Bool.false_eq_true, if_false,
      ih (fun seg hs => h seg (List.mem_cons_of_mem _ hs)), List.isEmpty_cons]

theorem initLoop_empty (worker : Nat → Option Nat) (segs : List (List Nat))
    (h : ∀ seg ∈ segs, seg = []) :
    ∀ i : Nat, initLoop worker i segs = (keyLoop worker i segs, true) := by
  induction segs with
  | nil => intro i; rfl
  | cons a rest ih =>
    intro i
    have ha : a = [] := h a (List.mem_cons_self _ _)
    subst ha
    simp only [initLoop, keyLoop, List.isEmpty_nil, if_true,
      ih (fun seg hs => h seg (List.mem_cons_of_mem _ hs))]
    cases worker i <;> rfl

/-- A successful call of `processFrames`: every worker delivered a FrameSet, and
the segments and the keyed rigs are those of the paths after the two checks. -/
theorem processFrames_of_success (readFrames : Nat → Bool) (worker : Nat → Option Nat)
    (correspondenceCount : Nat → Int) (segs : List (List Nat))
    (h : (processFrames readFrames worker correspondenceCount segs).1 = true) :
    (∀ i, i < segs.length → ∃ frameSet, worker i = some frameSet) ∧
    (processFrames readFrames worker correspondenceCount segs).2 =
      (if (initLoop worker 0 segs).2 = true then (initLoop worker 0 segs).1
        else if (List.range segs.length).any (fun i => decide (correspondenceCount i < 40)) = true
          then keyLoop worker 0 (initLoop worker 0 segs).1
        else (initLoop worker 0 segs).1) ∧
    keyedRigs readFrames worker correspondenceCount segs =
      (if (initLoop worker 0 segs).2 = true then []
        else if (List.range segs.length).any (fun i => decide (correspondenceCount i < 40)) = true
          then List.range segs.length
        else []) := by
  unfold processFrames at h ⊢
  unfold keyedRigs
  cases c1 : (List.range segs.length).any (fun i => !readFrames i)
  · cases c2 : (List.range segs.length).any (fun i => (worker i).isNone)
    · simp only [Bool.false_eq_true, if_false]
      refine ⟨?_, ?_, trivial⟩
      · intro i hi
        cases hw : worker i with
        | some frameSet => exact ⟨frameSet, rfl⟩
        | none =>
          have : (List.range segs.length).any (fun i => (worker i).isNone) = true := by
            rw [List.any_eq_true]
            exact ⟨i, List.mem_range.2 hi, by simp [hw]⟩
          rw [this] at c2
          exact Bool.noConfusion c2
      · split
        · rfl
        · split <;> rfl
    · rw [c1, c2] at h
      simp at h
  · rw [c1] at h
    simp at h

/-- C21: on a successful call of `processFrames` with every rig's segment 0
non-empty, if some rig's correspondence count is below 40 every rig is keyed and
gets exactly its new FrameSet appended, and if no count is below 40 no segment
changes and no rig is keyed; on a successful call with every segment empty,
each rig's segment becomes exactly its new FrameSet and no rig is keyed. -/
theorem processFrames_keys_below_threshold (readFrames : Nat → Bool) (worker : Nat → Option Nat)
    (correspondenceCount : Nat → Int) (subSegments : List (List Nat))
    (hok : (processFrames readFrames worker correspondenceCount subSegments).1 = true) :
    ((∀ segment ∈ subSegments, segment ≠ []) →
      ((∃ i, i < subSegments.length ∧ correspondenceCount i < 40) →
        (processFrames readFrames worker correspondenceCount subSegments).2.length =
          subSegments.length ∧
        (∀ (i : Nat) (segment : List Nat), subSegments[i]? = some segment →
          ∃ frameSet, worker i = some frameSet ∧
            (processFrames readFrames worker correspondenceCount subSegments).2[i]? =
              some (segment ++ [frameSet])) ∧
        keyedRigs readFrames worker correspondenceCount subSegments =
          List.range subSegments.length) ∧
      ((¬ ∃ i, i < subSegments.length ∧ correspondenceCount i < 40) →
        (processFrames readFrames worker correspondenceCount subSegments).2 = subSegments ∧
        keyedRigs readFrames worker correspondenceCount subSegments = [])) ∧
    ((∀ segment ∈ subSegments, segment = []) →
      (processFrames readFrames worker correspondenceCount subSegments).2.length =
        subSegments.length ∧
      (∀ i, i < subSegments.length →
        ∃ frameSet, worker i = some frameSet ∧
          (processFrames readFrames worker correspondenceCount subSegments).2[i]? =
            some [frameSet]) ∧
      keyedRigs readFrames worker correspondenceCount subSegments = []) := by
  obtain ⟨hw, hseg, hkey⟩ := processFrames_of_success readFrames worker correspondenceCount subSegments hok
  have hany : (List.range subSegments.length).any (fun i => decide (correspondenceCount i < 40))
      = true ↔ ∃ i, i < subSegments.length ∧ correspondenceCount i < 40 := by
    simp [List.any_eq_true]
  constructor
  · intro hne
    have hinit := initLoop_nonempty worker subSegments hne 0
    cases hs : subSegments with
    | nil =>
      subst hs
      constructor
      · rintro ⟨i, hi, _⟩
        simp at hi
      · intro _
        rw [hseg, hkey]
        simp [initLoop]
    | cons a rest =>
      have hfalse : (initLoop worker 0 subSegments).2 = false := by rw [hinit, hs]; rfl
      have h1 : (initLoop worker 0 subSegments).1 = subSegments := by rw [hinit]
      rw [← hs]
      constructor
      · intro hex
        have hb := hany.2 hex
        rw [hseg, hkey, hfalse, h1, hb]
        simp only [Bool.false_eq_true, if_false, if_true]
        refine ⟨keyLoop_length _ _ _, ?_, trivial⟩
        intro i segment hi
        have hlt : i < subSegments.length := by
          rcases List.getElem?_eq_some_iff.1 hi with ⟨hlt, _⟩
          exact hlt
        obtain ⟨frameSet, hf⟩ := hw i hlt
        refine ⟨frameSet, hf, ?_⟩
        rw [keyLoop_getElem?, hi, Nat.zero_add, hf]
        rfl
      · intro hnex
        have hb : (List.range subSegments.length).any
            (fun i => decide (correspondenceCount i < 40)) = false := by
          cases hc : (List.range subSegments.length).any
              (fun i => decide (correspondenceCount i < 40)) with
          | false => rfl
          | true => exact absurd (hany.1 hc) hnex
        rw [hseg, hkey, hfalse, h1, hb]
        simp
  · intro hem
    have hinit := initLoop_empty worker subSegments hem 0
    have htrue : (initLoop worker 0 subSegments).2 = true := by rw [hinit]
    have h1 : (initLoop worker 0 subSegments).1 = keyLoop worker 0 subSegments := by rw [hinit]
    rw [hseg, hkey, htrue, h1]
    simp only [if_true]
    refine ⟨keyLoop_length _ _ _, ?_, trivial⟩
    intro i hi
    obtain ⟨frameSet, hf⟩ := hw i hi
    refine ⟨frameSet, hf, ?_⟩
    have hget : subSegments[i]? = some [] := by
      rw [List.getElem?_eq_getElem hi]
      exact congrArg some (hem _ (List.getElem_mem _))
    rw [keyLoop_getElem?, hget, Nat.zero_add, hf]
    rfl

/-- Witness for C21: two rigs with non-empty segments, rig 1 has 30
correspondences. -/
theorem processFrames_keys_below_threshold_witness :
    (processFrames (fun _ => true) (fun i => some (i + 7)) (fun i => if i = 1 then 30 else 50)
      [[3], [4]]).1 = true ∧
    (∀ segment ∈ [[3], [4]], segment ≠ []) ∧
    (∃ i, i < [[3], [4]].length ∧ (fun i => if i = 1 then (30 : Int) else 50) i < 40) ∧
    (processFrames (fun _ => true) (fun i => some (i + 7)) (fun i => if i = 1 then 30 else 50)
      [[3], [4]]).2 = [[3, 7], [4, 8]] ∧
    keyedRigs (fun _ => true) (fun i => some (i + 7)) (fun i => if i = 1 then 30 else 50)
      [[3], [4]] = List.range [[3], [4]].length :=
  ⟨by decide, by decide, ⟨1, by decide, by decide⟩, by decide,
    (((processFrames_keys_below_threshold (fun _ => true) (fun i => some (i + 7))
      (fun i => if i = 1 then 30 else 50) [[3], [4]] (by decide)).1 (by decide)).1
        ⟨1, by decide, by decide⟩).2.2⟩

theorem initLoop_length (worker : Nat → Option Nat) (segs : List (List Nat)) :
    ∀ i : Nat, (initLoop worker i segs).1.length = segs.length := by
  induction segs with
  | nil => intro i; rfl
  | cons a rest ih =>
    intro i
    simp only [initLoop]
    split
    · cases worker i <;> simp [ih]
    · simp [ih]

theorem processFrames_unchanged_of_failure (readFrames : Nat → Bool) (worker : Nat → Option Nat)
    (correspondenceCount : Nat → Int) (segs : List (List Nat))
    (h : (processFrames readFrames worker correspondenceCount segs).1 = false) :
    (processFrames readFrames worker correspondenceCount segs).2 = segs := by
  unfold processFrames at h ⊢
  cases c1 : (List.range segs.length).any (fun i => !readFrames i)
  · cases c2 : (List.range segs.length).any (fun i => (worker i).isNone)
    · rw [c1, c2] at h
      simp only [Bool.false_eq_true, if_false] at h
      split at h
      · exact Bool.noConfusion h
      · split at h <;> exact Bool.noConfusion h
    · simp
  · simp

theorem processFrames_length (readFrames : Nat → Bool) (worker : Nat → Option Nat)
    (correspondenceCount : Nat → Int) (segs : List (List Nat)) :
    (processFrames readFrames worker correspondenceCount segs).2.length = segs.length := by
  cases hr : (processFrames readFrames worker correspondenceCount segs).1
  · rw [processFrames_unchanged_of_failure _ _ _ _ hr]
  · obtain ⟨_, hseg, _⟩ := processFrames_of_success readFrames worker correspondenceCount segs hr
    rw [hseg]
    split
    · exact initLoop_length _ _ _
    · split
      · rw [keyLoop_length, initLoop_length]
      · exact initLoop_length _ _ _

theorem keyLoop_lengths (worker : Nat → Option Nat) (segs : List (List Nat))
    (hw : ∀ i, i < segs.length → ∃ frameSet, worker i = some frameSet) :
    ∀ x ∈ keyLoop worker 0 segs, ∃ seg ∈ segs, x.length = seg.length + 1 := by
  intro x hx
  obtain ⟨k, hk⟩ := List.mem_iff_getElem?.1 hx
  rw [keyLoop_getElem?] at hk
  cases hs : segs[k]? with
  | none => rw [hs] at hk; exact Option.noConfusion hk
  | some seg =>
    rw [hs, Nat.zero_add] at hk
    have hlt : k < segs.length := (List.getElem?_eq_some_iff.1 hs).1
    obtain ⟨frameSet, hf⟩ := hw k hlt
    rw [hf] at hk
    simp only [Option.map_some', Option.toList_some, Option.some.injEq] at hk
    refine ⟨seg, List.mem_iff_getElem?.2 ⟨k, hs⟩, ?_⟩
    rw [← hk]
    simp

/-- One call of `processFrames`, successful or not, keeps the segments of equal
length. -/
theorem processFrames_equal_lengths (readFrames : Nat → Bool) (worker : Nat → Option Nat)
    (correspondenceCount : Nat → Int) (segs : List (List Nat))
    (h : ∀ a ∈ segs, ∀ b ∈ segs, a.length = b.length) :
    ∀ a ∈ (processFrames readFrames worker correspondenceCount segs).2,
      ∀ b ∈ (processFrames readFrames worker correspondenceCount segs).2,
        a.length = b.length := by
  have hkey : (∀ i, i < segs.length → ∃ frameSet, worker i = some frameSet) →
      ∀ a ∈ keyLoop worker 0 segs, ∀ b ∈ keyLoop worker 0 segs, a.length = b.length := by
    intro hw a ha b hb
    obtain ⟨sa, hsa, ea⟩ := keyLoop_lengths worker segs hw a ha
    obtain ⟨sb, hsb, eb⟩ := keyLoop_lengths worker segs hw b hb
    rw [ea, eb, h sa hsa sb hsb]
  cases hr : (processFrames readFrames worker correspondenceCount segs).1
  · rw [processFrames_unchanged_of_failure _ _ _ _ hr]
    exact h
  · obtain ⟨hw, hseg, _⟩ := processFrames_of_success readFrames worker correspondenceCount segs hr
    rw [hseg]
    cases hs : segs with
    | nil => simp [initLoop]
    | cons s0 rest =>
      rw [← hs]
      have hs0 : s0 ∈ segs := by rw [hs]; exact List.mem_cons_self _ _
      by_cases he : s0 = []
      · have hall : ∀ seg ∈ segs, seg = [] := by
          intro seg hseg1
          have := h seg hseg1 s0 hs0
          rw [he] at this
          exact List.length_eq_zero.1 this
        rw [initLoop_empty worker segs hall 0]
        simp only [if_true]
        exact hkey hw
      · have hall : ∀ seg ∈ segs, seg ≠ [] := by
          intro seg hseg1 e
          have := h seg hseg1 s0 hs0
          rw [e] at this
          exact he (List.length_eq_zero.1 this.symm)
        rw [initLoop_nonempty worker segs hall 0]
        have hf : segs.isEmpty = false := by rw [hs]; rfl
        simp only [hf, Bool.false_eq_true, if_false]
        split
        · exact hkey hw
        · exact h

theorem processFramesCalls_equal_lengths (calls : List FrameCall) :
    ∀ segs : List (List Nat), (∀ a ∈ segs, ∀ b ∈ segs, a.length = b.length) →
      (∀ a ∈ processFramesCalls calls segs, ∀ b ∈ processFramesCalls calls segs,
        a.length = b.length) ∧
      (processFramesCalls calls segs).length = segs.length := by
  induction calls with
  | nil => intro segs h; exact ⟨h, rfl⟩
  | cons call rest ih =>
    intro segs h
    obtain ⟨h1, h2⟩ := ih _ (processFrames_equal_lengths call.readFrames call.worker
      call.correspondenceCount segs h)
    simp only [processFramesCalls]
    exact ⟨h1, by rw [h2, processFrames_length]⟩

/-- C25: starting from sub-graphs whose segments are all empty, after any sequence
of calls of `processFrames`, successful or failed, there are as many segments as
before and all of them have the same length; hence, once `mergeMaps` has adopted
the FrameSets of rig 0 into the merged graph, the merged segment has a FrameSet
at every index `j` at which some rig has one. -/
theorem processFramesCalls_lock_step {Mat Vec : Type} (calls : List FrameCall)
    (subSegments : List (List Nat)) (st : MapState Mat Vec)
    (h0 : ∀ segment ∈ subSegments, segment = []) :
    (∀ a ∈ processFramesCalls calls subSegments, ∀ b ∈ processFramesCalls calls subSegments,
      a.length = b.length) ∧
    (processFramesCalls calls subSegments).length = subSegments.length ∧
    (∀ segment ∈ processFramesCalls calls subSegments, ∀ j, j < segment.length →
      ∃ dst, ((adoptLoop ((processFramesCalls calls subSegments).getD 0 []) st).graph.frameSetSegment
        0)[j]? = some dst) := by
  have hstart : ∀ a ∈ subSegments, ∀ b ∈ subSegments, a.length = b.length := by
    intro a ha b hb
    rw [h0 a ha, h0 b hb]
  obtain ⟨h1, h2⟩ := processFramesCalls_equal_lengths calls subSegments hstart
  refine ⟨h1, h2, ?_⟩
  intro segment hseg j hj
  have hfirst : (processFramesCalls calls subSegments).getD 0 [] ∈
      processFramesCalls calls subSegments := by
    cases hl : processFramesCalls calls subSegments with
    | nil => rw [hl] at hseg; simp at hseg
    | cons a rest => simp
  have hlen := h1 segment hseg _ hfirst
  rw [(adoptLoop_next _ st).2]
  have hlt : j < (st.graph.frameSetSegment 0 ++
      List.range' st.nextFrameSet ((processFramesCalls calls subSegments).getD 0 []).length).length := by
    rw [List.length_append, List.length_range']
    omega
  exact ⟨_, List.getElem?_eq_getElem hlt⟩

/-- Witness for C25: two rigs, a first call that initialises, a failed call, a call
that keys and a call that does not. -/
theorem processFramesCalls_lock_step_witness :
    (∀ segment ∈ [[], ([] : List Nat)], segment = []) ∧
    processFramesCalls
      [⟨fun _ => true, fun i => some (i + 7), fun _ => 50⟩,
        ⟨fun i => i == 0, fun i => some (i + 9), fun _ => 30⟩,
        ⟨fun _ => true, fun i => some (i + 11), fun i => if i = 1 then 30 else 50⟩,
        ⟨fun _ => true, fun i => some (i + 13), fun _ => 50⟩]
      [[], []] = [[7, 11], [8, 12]] ∧
    (∀ a ∈ processFramesCalls
        [⟨fun _ => true, fun i => some (i + 7), fun _ => 50⟩,
          ⟨fun i => i == 0, fun i => some (i + 9), fun _ => 30⟩,
          ⟨fun _ => true, fun i => some (i + 11), fun i => if i = 1 then 30 else 50⟩,
          ⟨fun _ => true, fun i => some (i + 13), fun _ => 50⟩]
        [[], []],
      ∀ b ∈ processFramesCalls
        [⟨fun _ => true, fun i => some (i + 7), fun _ => 50⟩,
          ⟨fun i => i == 0, fun i => some (i + 9), fun _ => 30⟩,
          ⟨fun _ => true, fun i => some (i + 11), fun i => if i = 1 then 30 else 50⟩,
          ⟨fun _ => true, fun i => some (i + 13), fun _ => 50⟩]
        [[], []], a.length = b.length) :=
  ⟨by decide, by decide,
    (processFramesCalls_lock_step
      [⟨fun _ => true, fun i => some (i + 7), fun _ => 50⟩,
        ⟨fun i => i == 0, fun i => some (i + 9), fun _ => 30⟩,
        ⟨fun _ => true, fun i => some (i + 11), fun i => if i = 1 then 30 else 50⟩,
        ⟨fun _ => true, fun i => some (i + 13), fun _ => 50⟩]
      [[], []] sampleMapState (by decide)).1⟩

/-! ## `runPoseIMUCalibration` -/

theorem poseIMUData_fold {Mat Vec Imu : Type} (imuMeasurement : Nat → Imu)
    (g : SparseGraph Mat Vec) (l : List Nat) :
    ∀ data : List Nat × List Imu,
      l.foldl (fun data frameSet =>
          (data.1 ++ [g.systemPose frameSet], data.2 ++ [imuMeasurement frameSet])) data =
        (data.1 ++ l.map g.systemPose, data.2 ++ l.map imuMeasurement) := by
  induction l with
  | nil => intro data; simp
  | cons a rest ih => intro data; simp [ih]

theorem poseIMUData_eq {Mat Vec Imu : Type} (imuMeasurement : Nat → Imu)
    (g : SparseGraph Mat Vec) :
    poseIMUData imuMeasurement g =
      ((g.frameSetSegment 0).map g.systemPose, (g.frameSetSegment 0).map imuMeasurement) := by
  unfold poseIMUData
  rw [poseIMUData_fold]
  simp

theorem rotateLoop_spec (H : Matrix4) (l : List Nat) :
    ∀ (pose : Nat → Matrix4) (i : Nat), l.Nodup →
      rotateLoop H l pose i = if i ∈ l then mulMatrix4 H (pose i) else pose i := by
  induction l with
  | nil => intro pose i _; simp [rotateLoop]
  | cons a rest ih =>
    intro pose i hnd
    have hnd1 := List.nodup_cons.1 hnd
    simp only [rotateLoop]
    rw [ih _ i hnd1.2]
    by_cases hia : i = a
    · subst hia
      simp [setGlobalCameraPose, hnd1.1]
    · by_cases hir : i ∈ rest
      · simp [setGlobalCameraPose, hia, hir]
      · simp [setGlobalCameraPose, hia, hir]

/-- C23: `runPoseIMUCalibration` hands the calibrator two lists of the length of
segment 0 of the merged graph, whose entries at each index are the pose and the
inertial measurement of the FrameSet at that index. If the calibrator fails the
function returns false and every global camera pose is as before. If it succeeds
the function returns true and the global pose `G` of every camera is replaced
by `H * G`, where `H` has the estimated rotation as its upper-left block, a zero
translation column and the bottom row `0 0 0 1`. -/
theorem runPoseIMUCalibration_spec {Mat Vec Imu Quat : Type}
    (calibrate : List Nat → List Imu → Option Quat)
    (toRotationMatrix : Quat → Fin 3 → Fin 3 → ℚ) (imuMeasurement : Nat → Imu)
    (cameraCount : Nat) (g : SparseGraph Mat Vec) (globalCameraPose : Nat → Matrix4) :
    ((poseIMUData imuMeasurement g).1.length = (g.frameSetSegment 0).length ∧
      (poseIMUData imuMeasurement g).2.length = (g.frameSetSegment 0).length ∧
      ∀ (i frameSet : Nat), (g.frameSetSegment 0)[i]? = some frameSet →
        (poseIMUData imuMeasurement g).1[i]? = some (g.systemPose frameSet) ∧
        (poseIMUData imuMeasurement g).2[i]? = some (imuMeasurement frameSet)) ∧
    (calibrate (poseIMUData imuMeasurement g).1 (poseIMUData imuMeasurement g).2 = none →
      runPoseIMUCalibration calibrate toRotationMatrix imuMeasurement cameraCount g globalCameraPose
        = (false, globalCameraPose)) ∧
    (∀ q_sys_imu,
      calibrate (poseIMUData imuMeasurement g).1 (poseIMUData imuMeasurement g).2
        = some q_sys_imu →
      (runPoseIMUCalibration calibrate toRotationMatrix imuMeasurement cameraCount g
        globalCameraPose).1 = true ∧
      (∀ i, i < cameraCount →
        (runPoseIMUCalibration calibrate toRotationMatrix imuMeasurement cameraCount g
          globalCameraPose).2 i =
          mulMatrix4 (homogeneousRotation (toRotationMatrix q_sys_imu)) (globalCameraPose i)) ∧
      (∀ i, cameraCount ≤ i →
        (runPoseIMUCalibration calibrate toRotationMatrix imuMeasurement cameraCount g
          globalCameraPose).2 i = globalCameraPose i) ∧
      (∀ r c : Fin 3, homogeneousRotation (toRotationMatrix q_sys_imu) r.castSucc c.castSucc =
        toRotationMatrix q_sys_imu r c) ∧
      (∀ k : Fin 3, translationOf (homogeneousRotation (toRotationMatrix q_sys_imu)) k = 0) ∧
      (∀ c : Fin 4, homogeneousRotation (toRotationMatrix q_sys_imu) 3 c = if c = 3 then 1 else 0)) := by
  refine ⟨?_, ?_, ?_⟩
  · rw [poseIMUData_eq]
    refine ⟨by simp, by simp, ?_⟩
    intro i frameSet h
    simp [h]
  · intro h
    unfold runPoseIMUCalibration
    simp only [h]
  · intro q h
    unfold runPoseIMUCalibration
    simp only [h]
    refine ⟨trivial, ?_, ?_, ?_, ?_, ?_⟩
    · intro i hi
      rw [rotateLoop_spec _ _ _ _ (List.nodup_range _)]
      simp [hi]
    · intro i hi
      rw [rotateLoop_spec _ _ _ _ (List.nodup_range _)]
      have : ¬ i < cameraCount := by omega
      simp [this]
    · intro r c
      have hr : (r.castSucc : Fin 4).val < 3 := by simp
      have hc : (c.castSucc : Fin 4).val < 3 := by simp
      unfold homogeneousRotation
      rw [dif_pos ⟨hr, hc⟩]
      rfl
    · intro k
      unfold translationOf homogeneousRotation
      have h3 : ¬ ((k.castSucc : Fin 4).val < 3 ∧ (3 : Fin 4).val < 3) := by
        intro e
        exact absurd e.2 (by decide)
      rw [dif_neg h3]
      have hne : (k.castSucc : Fin 4) ≠ 3 := by
        intro e
        have := congrArg Fin.val e
        have hk := k.isLt
        simp at this
        omega
      simp [hne]
    · intro c
      unfold homogeneousRotation
      have h3 : ¬ ((3 : Fin 4).val < 3 ∧ c.val < 3) := by
        intro e
        exact absurd e.1 (by decide)
      rw [dif_neg h3]
      by_cases hc : c = 3
      · simp [hc]
      · have : ¬ (3 : Fin 4) = c := fun e => hc e.symm
        simp [hc, this]

/-- Witness for C23: a calibrator that fails on the sample graph, and one that
returns a quaternion, on two cameras. -/
theorem runPoseIMUCalibration_spec_witness :
    (runPoseIMUCalibration (fun _ _ => (none : Option Nat)) (fun _ _ _ => 0) (fun fs => fs + 1) 2
      sampleGraph (fun _ _ _ => 1)).1 = false ∧
    (runPoseIMUCalibration (fun _ _ => some 5) (fun _ r c => if r = c then 1 else 0)
      (fun fs => fs + 1) 2 sampleGraph (fun _ _ _ => 1)).1 = true :=
  ⟨congrArg Prod.fst
      ((runPoseIMUCalibration_spec (fun _ _ => (none : Option Nat)) (fun _ _ _ => 0)
        (fun fs => fs + 1) 2 sampleGraph (fun _ _ _ => 1)).2.1 rfl),
    ((runPoseIMUCalibration_spec (fun _ _ => some 5) (fun _ r c => if r = c then 1 else 0)
      (fun fs => fs + 1) 2 sampleGraph (fun _ _ _ => 1)).2.2 5 rfl).1⟩

/-! ## The stages of `run` -/

/-- C22, the claim at a failing input: with `readIntermediateData` set, `run`
returns true although the hand-eye calibration stage is not executed at all. -/
theorem run_skips_hand_eye_counterexample :
    (run sampleStages true 0).result = true ∧
    (run sampleStages true 0).log =
      [(Stage.readFromBinaryFile, true), (Stage.runPG, true), (Stage.runFullBA, true),
        (Stage.runPoseIMUCalibration, true), (Stage.recenter, true)] ∧
    ∀ ok, (Stage.runHandEyeCalibration, ok) ∉ (run sampleStages true 0).log := by
  decide

/-- C22 as amended: if `run` returns true, the pose-IMU calibration stage was
executed and succeeded, and so was the hand-eye calibration stage when
`readIntermediateData` is false; when it is true the hand-eye stage is not
executed and the reading of the intermediate map was executed and succeeded.
If the hand-eye stage fails, `run` returns false and nothing is executed after
it; if the pose-IMU stage fails, `run` returns false, that stage is the last one
executed and the recentering is not executed; if the reading of the
intermediate map fails, `run` returns false and nothing else is executed. -/
theorem run_stage_results {σ : Type} (S : Stages σ) (readIntermediateData : Bool) (st : σ) :
    ((run S readIntermediateData st).result = true →
      (Stage.runPoseIMUCalibration, true) ∈ (run S readIntermediateData st).log ∧
      (readIntermediateData = false →
        (S.runHandEyeCalibration (S.processSubGraph st)).1 = true ∧
        (Stage.runHandEyeCalibration, true) ∈ (run S readIntermediateData st).log) ∧
      (readIntermediateData = true →
        (Stage.readFromBinaryFile, true) ∈ (run S readIntermediateData st).log ∧
        ∀ ok, (Stage.runHandEyeCalibration, ok) ∉ (run S readIntermediateData st).log)) ∧
    (readIntermediateData = false →
      (S.runHandEyeCalibration (S.processSubGraph st)).1 = false →
      (run S readIntermediateData st).result = false ∧
      (run S readIntermediateData st).log =
        [(Stage.processSubGraph, true), (Stage.runHandEyeCalibration, false)]) ∧
    ((Stage.runHandEyeCalibration, false) ∈ (run S readIntermediateData st).log →
      (run S readIntermediateData st).result = false ∧
      (run S readIntermediateData st).log =
        [(Stage.processSubGraph, true), (Stage.runHandEyeCalibration, false)]) ∧
    ((Stage.runPoseIMUCalibration, false) ∈ (run S readIntermediateData st).log →
      (run S readIntermediateData st).result = false ∧
      (run S readIntermediateData st).log.getLast? = some (Stage.runPoseIMUCalibration, false) ∧
      ∀ ok, (Stage.recenter, ok) ∉ (run S readIntermediateData st).log) ∧
    ((Stage.readFromBinaryFile, false) ∈ (run S readIntermediateData st).log →
      (run S readIntermediateData st).result = false ∧
      (run S readIntermediateData st).log = [(Stage.readFromBinaryFile, false)]) := by
  cases readIntermediateData
  · cases h1 : (S.runHandEyeCalibration (S.processSubGraph st)).1
    · simp [run, h1]
    · cases h2 : (S.runPoseIMUCalibration (S.runFullBA (S.runPG (S.writeIntermediateData
          (S.mergeMaps (S.runHandEyeCalibration (S.processSubGraph st)).2))))).1
      · simp [run, runGlobal, h1, h2]
      · simp [run, runGlobal, h1, h2]
  · cases h1 : (S.readFromBinaryFile st).1
    · simp [run, h1]
    · cases h2 : (S.runPoseIMUCalibration (S.runFullBA (S.runPG (S.readFromBinaryFile st).2))).1
      · simp [run, runGlobal, h1, h2]
      · simp [run, runGlobal, h1, h2]

/-- Witness for C22 as amended: a run from scratch on which every stage succeeds,
and one on which the hand-eye stage fails. -/
theorem run_stage_results_witness :
    (run sampleStages false 0).result = true ∧
    (Stage.runHandEyeCalibration, true) ∈ (run sampleStages false 0).log ∧
    (sampleStages.runHandEyeCalibration (sampleStages.processSubGraph 1)).1 = false ∧
    (run sampleStages false 1).log =
      [(Stage.processSubGraph, true), (Stage.runHandEyeCalibration, false)] :=
  ⟨by decide,
    (((run_stage_results sampleStages false 0).1 (by decide)).2.1 rfl).2,
    by decide,
    ((run_stage_results sampleStages false 1).2.1 rfl (by decide)).2⟩

/-! ## `features2D().front()` in the re-triangulation loops, and `processSubGraph` -/

theorem runPGMerge_visits {Mat Vec : Type} (optimize : List Nat → (Nat → Mat) → Nat → Mat)
    (getCorr : Nat → Nat → List (Nat × Nat)) (g : SparseGraph Mat Vec) (m n flag : Nat) :
    (runPGMerge optimize getCorr g m n flag).visits = g.visits := rfl

/-- After the merge pass of `runPG` every gathered scene point lists a feature,
when before `runPG` every feature of the graph is listed by the point it links
to. -/
theorem runPGMerge_gathered {Mat Vec : Type} (optimize : List Nat → (Nat → Mat) → Nat → Mat)
    (getCorr : Nat → Nat → List (Nat × Nat)) (g : SparseGraph Mat Vec) (m n flag : Nat)
    (h : ∀ v ∈ g.visits, v.2.2 ∈ g.store.features2D (g.store.feature3D v.2.2)) :
    ∀ p ∈ gatherScenePoints (runPGMerge optimize getCorr g m n flag),
      (runPGMerge optimize getCorr g m n flag).store.features2D p ≠ [] := by
  intro p hp
  obtain ⟨v, hv, e⟩ := (mem_gatherScenePoints _ p).1 hp
  rw [runPGMerge_visits] at hv
  have hl := mergeLoop_listed flag (getCorr m n) g.store 0 v.2.2 (h v hv)
  have hl2 : v.2.2 ∈ (runPGMerge optimize getCorr g m n flag).store.features2D
      ((runPGMerge optimize getCorr g m n flag).store.feature3D v.2.2) := hl
  rw [e] at hl2
  exact List.ne_nil_of_mem hl2

theorem runPGOnGraph_some {Mat Vec : Type} (geo : Geometry Mat Vec)
    (optimize : List Nat → (Nat → Mat) → Nat → Mat)
    (getCorr : Nat → Nat → List (Nat × Nat)) (solvePoint : List (Mat × Nat) → Vec → Vec)
    (cam : Nat → Mat) (g : SparseGraph Mat Vec) (m n flag : Nat)
    (h : ∀ v ∈ g.visits, v.2.2 ∈ g.store.features2D (g.store.feature3D v.2.2)) :
    ∃ g1, runPGOnGraph geo optimize getCorr solvePoint cam g m n flag = some g1 := by
  obtain ⟨point1, hp⟩ := reconstructLoop_some geo (runPGMerge optimize getCorr g m n flag) cam
    solvePoint _ (runPGMerge_gathered optimize getCorr g m n flag h)
    (runPGMerge optimize getCorr g m n flag).point
  unfold runPGOnGraph
  simp only [hp]
  exact ⟨_, rfl⟩

theorem contributeFrameSet_points {Mat Vec : Type} (st st1 : MapState Mat Vec) (j src : Nat)
    (pts pts1 : List Nat) (h : contributeFrameSet st j src pts = some (st1, pts1)) :
    st1.graph.store = st.graph.store ∧
      ∀ p ∈ pts1, p ∈ pts ∨ ∃ f, st.graph.store.feature3D f = p := by
  unfold contributeFrameSet at h
  cases hd : (st.graph.frameSetSegment 0)[j]? with
  | none => simp [hd] at h
  | some dst =>
    simp only [hd] at h
    split at h
    · exact Option.noConfusion h
    · simp only [Option.some.injEq, Prod.mk.injEq] at h
      obtain ⟨e1, e2⟩ := h
      subst e1
      subst e2
      refine ⟨rfl, ?_⟩
      intro p hp
      rcases (insertScenePoints_mem _ _ _ p).1 hp with h1 | ⟨f, _, e⟩
      · exact Or.inl h1
      · exact Or.inr ⟨f, e⟩

theorem contributeLoop_points {Mat Vec : Type} (seg : List Nat) :
    ∀ (j : Nat) (st st1 : MapState Mat Vec) (pts pts1 : List Nat),
      contributeLoop j seg (st, pts) = some (st1, pts1) →
      st1.graph.store = st.graph.store ∧
        ∀ p ∈ pts1, p ∈ pts ∨ ∃ f, st.graph.store.feature3D f = p := by
  induction seg with
  | nil =>
    intro j st st1 pts pts1 h
    simp only [contributeLoop, Option.some.injEq, Prod.mk.injEq] at h
    obtain ⟨e1, e2⟩ := h
    subst e1
    subst e2
    exact ⟨rfl, fun p hp => Or.inl hp⟩
  | cons src rest ih =>
    intro j st st1 pts pts1 h
    simp only [contributeLoop] at h
    cases hc : contributeFrameSet st j src pts with
    | none => rw [hc] at h; exact Option.noConfusion h
    | some acc1 =>
      rw [hc] at h
      obtain ⟨a1, a2⟩ := acc1
      obtain ⟨s1, p1⟩ := contributeFrameSet_points st a1 j src pts a2 hc
      obtain ⟨s2, p2⟩ := ih (j + 1) a1 st1 a2 pts1 h
      refine ⟨s2.trans s1, ?_⟩
      intro p hp
      rcases p2 p hp with h1 | ⟨f, e⟩
      · exact p1 p h1
      · exact Or.inr ⟨f, by rw [← s1]; exact e⟩

theorem visits_nil {Mat Vec : Type} (g : SparseGraph Mat Vec)
    (h : ∀ segment ∈ g.frameSetSegments, segment = []) : g.visits = [] := by
  unfold SparseGraph.visits
  rw [List.flatMap_eq_nil_iff]
  intro segment hs
  rw [h segment hs]
  rfl

theorem flatten_nil_of_all_nil (segs : List (List Nat)) (h : ∀ segment ∈ segs, segment = []) :
    segs.flatten = [] := by
  rw [List.flatten_eq_nil_iff]
  exact h

/-- C27: when every feature is listed by the scene point it links to, every scene
point collected for re-triangulation has a non-empty feature list and the loop
that takes `features2D().front()` of each runs to its end: in `runPG` (the
invariant is taken before `runPG` and survives its merge pass), in the
singleton reset of `runFullBA`, and in the pass of `mergeMaps` for a rig whose
frames could be moved. -/
theorem scenePoint_front_defined {Mat Vec : Type} (geo : Geometry Mat Vec)
    (K : Point3DFeatureFlags) (st : MapState Mat Vec)
    (hI : ∀ f, f ∈ st.graph.store.features2D (st.graph.store.feature3D f)) :
    (∀ (optimize : List Nat → (Nat → Mat) → Nat → Mat)
        (getCorrespondences2D3D : Nat → Nat → List (Nat × Nat))
        (solvePoint : List (Mat × Nat) → Vec → Vec) (globalCameraPose : Nat → Mat)
        (minLoopCorrespondences2D3D nImageMatches scenePointFlag : Nat),
      (∀ p ∈ gatherScenePoints (runPGMerge optimize getCorrespondences2D3D st.graph
            minLoopCorrespondences2D3D nImageMatches scenePointFlag),
        (runPGMerge optimize getCorrespondences2D3D st.graph minLoopCorrespondences2D3D
          nImageMatches scenePointFlag).store.features2D p ≠ []) ∧
      ∃ g1, runPGOnGraph geo optimize getCorrespondences2D3D solvePoint globalCameraPose st.graph
        minLoopCorrespondences2D3D nImageMatches scenePointFlag = some g1) ∧
    ((∀ p ∈ (countFeatureResiduals K st.graph).singletonScenePoints,
        st.graph.store.features2D p ≠ []) ∧
      ∀ (poseMatrix globalCameraPose : Nat → Mat) (point : Nat → Vec),
        ∃ point1, resetSingletons geo st.graph poseMatrix globalCameraPose
          (countFeatureResiduals K st.graph).singletonScenePoints point = some point1) ∧
    (∀ (globalCameraPose : Nat → Mat) (segment : List Nat) (st1 : MapState Mat Vec)
        (scenePoints : List Nat),
      contributeLoop 0 segment (st, []) = some (st1, scenePoints) →
      (∀ p ∈ scenePoints, st1.graph.store.features2D p ≠ []) ∧
      ∃ st2, mergeRig geo globalCameraPose segment st = some st2) := by
  have hlisted : ∀ p, (∃ f, st.graph.store.feature3D f = p) → st.graph.store.features2D p ≠ [] := by
    rintro p ⟨f, e⟩
    have := hI f
    rw [e] at this
    exact List.ne_nil_of_mem this
  have hsing : ∀ p ∈ (countFeatureResiduals K st.graph).singletonScenePoints,
      st.graph.store.features2D p ≠ [] := by
    intro p hp
    unfold countFeatureResiduals at hp
    rcases (countFold_singletons K st.graph _ _ p).1 hp with h1 | ⟨v, _, e, _⟩
    · simp at h1
    · exact hlisted p ⟨_, e⟩
  refine ⟨?_, ⟨hsing, ?_⟩, ?_⟩
  · intro optimize getCorr solvePoint cam m n flag
    exact ⟨runPGMerge_gathered optimize getCorr st.graph m n flag (fun v _ => hI v.2.2),
      runPGOnGraph_some geo optimize getCorr solvePoint cam st.graph m n flag
        (fun v _ => hI v.2.2)⟩
  · intro poseMatrix cam point
    obtain ⟨point1, h1, _⟩ := resetSingletons_some geo st.graph poseMatrix cam _ hsing point
    exact ⟨point1, h1⟩
  · intro cam segment st1 pts h
    obtain ⟨hs, hp⟩ := contributeLoop_points segment 0 st st1 [] pts h
    have hne : ∀ p ∈ pts, st1.graph.store.features2D p ≠ [] := by
      intro p hpm
      rw [hs]
      rcases hp p hpm with h1 | h1
      · simp at h1
      · exact hlisted p h1
    refine ⟨hne, ?_⟩
    obtain ⟨point1, h1, _⟩ := resetSingletons_some geo st1.graph st1.graph.poseMatrix cam pts hne
      st1.graph.point
    unfold mergeRig
    simp only [h, h1]
    exact ⟨_, rfl⟩

/-- Witness for C27 on the sample heap whose merged graph holds FrameSet 3, with
the frames 6 and 7; feature `f` alone observes point `f + 10`. `runPG` with the
correspondence `(6, 17)` gathers point 16, the singleton set of `runFullBA` is
`[17, 16]`, and the pass of `mergeMaps` for a rig with FrameSet 2 collects point
14; each loop over these points runs to its end. -/
theorem scenePoint_front_defined_witness :
    (∀ f, f ∈ sampleMapStateHeld.graph.store.features2D
      (sampleMapStateHeld.graph.store.feature3D f)) ∧
    (gatherScenePoints (runPGMerge sampleOptimize (fun _ _ => [(6, 17)])
        sampleMapStateHeld.graph 50 10 1) = [16] ∧
      (∀ p ∈ gatherScenePoints (runPGMerge sampleOptimize (fun _ _ => [(6, 17)])
          sampleMapStateHeld.graph 50 10 1),
        (runPGMerge sampleOptimize (fun _ _ => [(6, 17)])
          sampleMapStateHeld.graph 50 10 1).store.features2D p ≠ []) ∧
      ∃ g1, runPGOnGraph sampleGeometry sampleOptimize (fun _ _ => [(6, 17)]) sampleSolvePoint
        sampleCameraPose sampleMapStateHeld.graph 50 10 1 = some g1) ∧
    ((countFeatureResiduals sampleFlags sampleMapStateHeld.graph).singletonScenePoints = [17, 16] ∧
      ∃ point1, resetSingletons sampleGeometry sampleMapStateHeld.graph
        sampleMapStateHeld.graph.poseMatrix sampleCameraPose
        (countFeatureResiduals sampleFlags sampleMapStateHeld.graph).singletonScenePoints
        sampleMapStateHeld.graph.point = some point1) ∧
    ((contributeLoop 0 [2] (sampleMapStateHeld, [])).map Prod.snd = some [14] ∧
      ∃ st2, mergeRig sampleGeometry sampleCameraPose [2] sampleMapStateHeld = some st2) :=
  ⟨fun f => by simp [sampleMapStateHeld, sampleMapState],
    ⟨by decide,
      ((scenePoint_front_defined sampleGeometry sampleFlags sampleMapStateHeld
        (fun f => by simp [sampleMapStateHeld, sampleMapState])).1 sampleOptimize
          (fun _ _ => [(6, 17)]) sampleSolvePoint sampleCameraPose 50 10 1).1,
      ((scenePoint_front_defined sampleGeometry sampleFlags sampleMapStateHeld
        (fun f => by simp [sampleMapStateHeld, sampleMapState])).1 sampleOptimize
          (fun _ _ => [(6, 17)]) sampleSolvePoint sampleCameraPose 50 10 1).2⟩,
    ⟨by decide,
      (scenePoint_front_defined sampleGeometry sampleFlags sampleMapStateHeld
        (fun f => by simp [sampleMapStateHeld, sampleMapState])).2.1.2
          sampleMapStateHeld.graph.poseMatrix sampleCameraPose sampleMapStateHeld.graph.point⟩,
    ⟨by decide,
      ((scenePoint_front_defined sampleGeometry sampleFlags sampleMapStateHeld
        (fun f => by simp [sampleMapStateHeld, sampleMapState])).2.2 sampleCameraPose [2] _ _
          rfl).2⟩⟩

/-- C24, the claim at a failing input: the sample graph has a single segment with
one FrameSet, its scene point 10 is at position 0, and `processSubGraph`, run
with an optimiser and solvers that change nothing and with no loop
correspondences, completes and leaves the point at its stereo position 111. -/
theorem processSubGraph_singleton_counterexample :
    sampleGraph.frameSetSegments.length = 1 ∧
    (sampleGraph.frameSetSegment 0).length < 2 ∧
    sampleGraph.point 10 = 0 ∧
    ∃ g1, processSubGraphOnGraph sampleGeometry sampleFlags sampleOptimize (fun _ _ => [])
        sampleSolvePoint sampleSolveBA sampleCameraPose sampleGraph = some g1 ∧
      g1.point 10 = 111 ∧ g1.point 10 ≠ sampleGraph.point 10 :=
  ⟨by decide, by decide, by decide, _, rfl, by decide, by decide⟩

/-- C24 as amended: `processSubGraph` applied to a sub-graph whose segments hold no
FrameSet is a no-op: it completes, and the pose matrices, the `Pose` objects of
the FrameSets, the segments and the position of every scene point are as
before. The optimiser and the solvers are arbitrary; they write only to the
poses and positions of the problem they are given, and here there are none. -/
theorem processSubGraph_empty_noop {Mat Vec : Type} (geo : Geometry Mat Vec)
    (K : Point3DFeatureFlags) (optimize : List Nat → (Nat → Mat) → Nat → Mat)
    (getCorrespondences2D3D : Nat → Nat → List (Nat × Nat))
    (solvePoint : List (Mat × Nat) → Vec → Vec)
    (solveBA : List BABlock → SolverVars Mat Vec → SolverVars Mat Vec)
    (globalCameraPose : Nat → Mat) (g : SparseGraph Mat Vec)
    (h : ∀ segment ∈ g.frameSetSegments, segment = []) :
    ∃ g1, processSubGraphOnGraph geo K optimize getCorrespondences2D3D solvePoint solveBA
        globalCameraPose g = some g1 ∧
      g1.poseMatrix = g.poseMatrix ∧ g1.systemPose = g.systemPose ∧
      g1.frameSetSegments = g.frameSetSegments ∧ g1.point = g.point := by
  have hv : ∀ (m n flag : Nat), (runPGMerge optimize getCorrespondences2D3D g m n flag).visits = [] :=
    fun m n flag => visits_nil g h
  have hg : gatherScenePoints (runPGMerge optimize getCorrespondences2D3D g 50 10
      K.OBSERVED_BY_STEREO_RIG_MULTIPLE_TIMES) = [] := by
    unfold gatherScenePoints
    rw [hv]
    rfl
  have hb : addBAResiduals { runPGMerge optimize getCorrespondences2D3D g 50 10
      K.OBSERVED_BY_STEREO_RIG_MULTIPLE_TIMES with
        point := (runPGMerge optimize getCorrespondences2D3D g 50 10
          K.OBSERVED_BY_STEREO_RIG_MULTIPLE_TIMES).point } = [] := by
    unfold addBAResiduals
    have : ({ runPGMerge optimize getCorrespondences2D3D g 50 10
      K.OBSERVED_BY_STEREO_RIG_MULTIPLE_TIMES with
        point := (runPGMerge optimize getCorrespondences2D3D g 50 10
          K.OBSERVED_BY_STEREO_RIG_MULTIPLE_TIMES).point } : SparseGraph Mat Vec).visits = [] :=
      visits_nil g h
    rw [this]
    rfl
  have hpose : (runPGMerge optimize getCorrespondences2D3D g 50 10
      K.OBSERVED_BY_STEREO_RIG_MULTIPLE_TIMES).poseMatrix = g.poseMatrix := by
    funext pose
    show (if pose ∈ g.frameSetSegments.flatten.map g.systemPose then _ else g.poseMatrix pose) = _
    rw [flatten_nil_of_all_nil _ h]
    simp
  unfold processSubGraphOnGraph runPGOnGraph
  simp only [hg, reconstructLoop]
  refine ⟨_, rfl, ?_, rfl, rfl, ?_⟩
  · funext pose
    simp only [runBA, hb, List.any_nil, Bool.false_eq_true, if_false]
    exact congrFun hpose pose
  · funext p
    simp only [runBA, hb, List.any_nil, Bool.false_eq_true, if_false]
    rfl

/-- Witness for C24 as amended: the sample graph with its segment emptied. -/
theorem processSubGraph_empty_noop_witness :
    (∀ segment ∈ ({ sampleGraph with frameSetSegments := [[]] } : SparseGraph Nat Nat).frameSetSegments,
      segment = []) ∧
    ∃ g1, processSubGraphOnGraph sampleGeometry sampleFlags sampleOptimize (fun _ _ => [(0, 11)])
        sampleSolvePoint sampleSolveBA sampleCameraPose
        { sampleGraph with frameSetSegments := [[]] } = some g1 ∧
      g1.poseMatrix = sampleGraph.poseMatrix ∧ g1.point = sampleGraph.point :=
  ⟨by decide,
    (processSubGraph_empty_noop sampleGeometry sampleFlags sampleOptimize (fun _ _ => [(0, 11)])
      sampleSolvePoint sampleSolveBA sampleCameraPose
      { sampleGraph with frameSetSegments := [[]] } (by decide)).imp
      (fun _ hg => ⟨hg.1, hg.2.1, hg.2.2.2.2⟩)⟩

/-! ## `mergeMaps` on the sub-graphs that `processFrames` builds -/

/-- C14: after `mergeMaps` with at least 2 rigs on an initially empty merged graph,
the length of the merged graph's primary segment equals the length of each
rig's sub-graph segment 0. The sub-graphs are the ones the program has at that
point: empty when they are constructed and then filled by an arbitrary
sequence of calls of `processFrames`, the only function that pushes to them.
(The FrameSets in use are older than the ones `mergeMaps` creates, every
FrameSet of a rig `i ≥ 1` has a frame and every collected scene point has a
feature, so that the run reaches its end.) -/
theorem mergeMaps_length {Mat Vec : Type} (geo : Geometry Mat Vec) (cam : Nat → Mat)
    (calls : List FrameCall) (emptySegments : List (List Nat)) (st : MapState Mat Vec)
    (hn : 2 ≤ emptySegments.length)
    (hstart : ∀ seg ∈ emptySegments, seg = [])
    (hempty : st.graph.frameSetSegment 0 = [])
    (hfresh : ∀ seg ∈ processFramesCalls calls emptySegments, ∀ src ∈ seg,
      src < st.nextFrameSet)
    (hframes : ∀ seg ∈ (processFramesCalls calls emptySegments).drop 1, ∀ src ∈ seg,
      st.graph.frames src ≠ [])
    (hlists : ∀ seg ∈ (processFramesCalls calls emptySegments).drop 1,
      ∀ p ∈ collectedPoints st.graph seg, st.graph.store.features2D p ≠ []) :
    ∃ st1, mergeMaps geo cam (processFramesCalls calls emptySegments) st = some st1 ∧
      (processFramesCalls calls emptySegments).length = emptySegments.length ∧
      ∀ seg ∈ processFramesCalls calls emptySegments,
        (st1.graph.frameSetSegment 0).length = seg.length := by
  have hstart2 : ∀ a ∈ emptySegments, ∀ b ∈ emptySegments, a.length = b.length := by
    intro a ha b hb
    rw [hstart a ha, hstart b hb]
  obtain ⟨heq, hlen⟩ := processFramesCalls_equal_lengths calls emptySegments hstart2
  have hfirst : (processFramesCalls calls emptySegments).getD 0 [] ∈
      processFramesCalls calls emptySegments := by
    cases hl : processFramesCalls calls emptySegments with
    | nil =>
      rw [hl] at hlen
      simp at hlen
      omega
    | cons a rest => simp
  have hsame : ∀ seg ∈ processFramesCalls calls emptySegments,
      seg.length = ((processFramesCalls calls emptySegments).getD 0 []).length :=
    fun seg hs => heq seg hs _ hfirst
  obtain ⟨st1, h1, h2⟩ := mergeMaps_segment_length geo cam (processFramesCalls calls emptySegments)
    st _ (by rw [hlen]; exact hn) hempty hsame hfresh hframes hlists
  exact ⟨st1, h1, hlen, h2⟩

/-- Witness for C14: two rigs on the sample heap, a first call of `processFrames`
that gives them the FrameSets 0 and 2 and a second one that keys the FrameSets
1 and 3. -/
theorem mergeMaps_length_witness :
    2 ≤ [[], ([] : List Nat)].length ∧ (∀ seg ∈ [[], ([] : List Nat)], seg = []) ∧
    sampleMapState.graph.frameSetSegment 0 = [] ∧
    processFramesCalls
      [⟨fun _ => true, fun i => some (2 * i), fun _ => 50⟩,
        ⟨fun _ => true, fun i => some (2 * i + 1), fun _ => 30⟩] [[], []] = [[0, 1], [2, 3]] ∧
    ∃ st1, mergeMaps sampleGeometry sampleCameraPose
        (processFramesCalls
          [⟨fun _ => true, fun i => some (2 * i), fun _ => 50⟩,
            ⟨fun _ => true, fun i => some (2 * i + 1), fun _ => 30⟩] [[], []])
        sampleMapState = some st1 ∧
      (processFramesCalls
        [⟨fun _ => true, fun i => some (2 * i), fun _ => 50⟩,
          ⟨fun _ => true, fun i => some (2 * i + 1), fun _ => 30⟩] [[], []]).length =
        [[], ([] : List Nat)].length ∧
      ∀ seg ∈ processFramesCalls
          [⟨fun _ => true, fun i => some (2 * i), fun _ => 50⟩,
            ⟨fun _ => true, fun i => some (2 * i + 1), fun _ => 30⟩] [[], []],
        (st1.graph.frameSetSegment 0).length = seg.length :=
  ⟨by decide, by decide, rfl, by decide,
    mergeMaps_length sampleGeometry sampleCameraPose
      [⟨fun _ => true, fun i => some (2 * i), fun _ => 50⟩,
        ⟨fun _ => true, fun i => some (2 * i + 1), fun _ => 30⟩] [[], []] sampleMapState
      (by decide) (by decide) rfl (by decide) (by decide) (by decide)⟩

end SelfMultiCamCalibration
